import Mathlib

/-! zapwriter: configuration resolution and the rsyslog encoders.

A shallow embedding of `config.go`, `rsyslog_encoder.go` and
`rsyslog_access_encoder.go`.

Go strings are Lean strings.  A Go function that can panic returns an `Outcome`;
a Go function returning `(T, error)` returns the pair of its two results.
Everything the program calls in the Go standard library (`net/url`, `strings`,
`strconv`, `os`) and the sink constructor `New` is collected in the record `Lib`
and every definition takes it as its first argument, so the theorems hold for
every behaviour of those collaborators.  `refLib` is one concrete `Lib` used to
evaluate the definitions on concrete targets.
-/

set_option autoImplicit false

namespace Zapwriter

/-! ## Library values -/

/-- The type zapcore.Level, restricted to the seven named levels. -/
inductive Level where
  | DebugLevel
  | InfoLevel
  | WarnLevel
  | ErrorLevel
  | DPanicLevel
  | PanicLevel
  | FatalLevel
deriving DecidableEq, Repr

/-- The struct url.Error of net/url, the error type of every failure of `url.Parse`. -/
structure UrlError where
  Op : String
  URL : String
  Err : String
deriving DecidableEq, Repr

/-- Go error values by dynamic type: a `*url.Error`, or an error that carries
only a message, as built by `fmt.Errorf` or returned by the sink constructor. -/
inductive GoError where
  | url (e : UrlError)
  | msg (text : String)
deriving DecidableEq, Repr

/-- The result of a Go call that either returns or panics with a value. -/
inductive Outcome (α : Type) where
  | ret (a : α)
  | panic (v : String)
deriving DecidableEq, Repr

/-- Sequencing of calls: a panic of the first call propagates. -/
def Outcome.bind {α β : Type} (o : Outcome α) (f : α → Outcome β) : Outcome β :=
  match o with
  | .ret a => f a
  | .panic v => .panic v

/-- The fields of `url.URL` the program reads (`Scheme`, `Path`) and the decoded
pairs of `u.Query()` in the order of the query string. -/
structure URL where
  Scheme : String
  Path : String
  Query : List (String × String)
deriving DecidableEq, Repr

/-- The method `url.Values.Get`: the first value stored under the key, or the empty string. -/
def Values.Get (v : List (String × String)) (key : String) : String :=
  match v with
  | [] => ""
  | (k, x) :: rest => if k = key then x else Values.Get rest key

/-- A byte sink returned by the sink constructor. -/
structure WriteSyncer where
  target : String
deriving DecidableEq, Repr

/-- The standard-library functions and the sink constructor the program calls. -/
structure Lib where
  /-- The function `url.Parse`. -/
  urlParse : String → Except UrlError URL
  /-- The function `strings.ToLower` (and `bytes.ToLower`). -/
  ToLower : String → String
  /-- The Go-syntax quoting of a string used by the verbs `%#v` and `%q`. -/
  Quote : String → String
  /-- The function `os.Hostname`. -/
  Hostname : Except String String
  /-- The sink constructor `New` of this package. -/
  New : String → Except GoError WriteSyncer
  /-- The text the structured buffer appends for the float64 with the given bit
  pattern: its shortest decimal form, or a quoted NaN, +Inf or -Inf. -/
  appendFloat : Nat → String

/-- The one-argument core of `Level.unmarshalText` in zapcore: the level names in
lower or upper case, and the empty string for the info level. -/
def Level.unmarshalText (text : String) : Option Level :=
  if text = "debug" ∨ text = "DEBUG" then some .DebugLevel
  else if text = "info" ∨ text = "INFO" ∨ text = "" then some .InfoLevel
  else if text = "warn" ∨ text = "WARN" then some .WarnLevel
  else if text = "error" ∨ text = "ERROR" then some .ErrorLevel
  else if text = "dpanic" ∨ text = "DPANIC" then some .DPanicLevel
  else if text = "panic" ∨ text = "PANIC" then some .PanicLevel
  else if text = "fatal" ∨ text = "FATAL" then some .FatalLevel
  else none

/-- The method `Level.UnmarshalText` of zapcore: the text as written, then the
lowercased text, else the error `unrecognized level: %q`. -/
def Level.UnmarshalText (lib : Lib) (text : String) : Except GoError Level :=
  match Level.unmarshalText text with
  | some l => .ok l
  | none =>
    match Level.unmarshalText (lib.ToLower text) with
    | some l => .ok l
    | none => .error (.msg ("unrecognized level: " ++ lib.Quote text))

/-- The holder zap.AtomicLevel: the level it currently stores. -/
structure AtomicLevel where
  level : Level
deriving DecidableEq, Repr

/-- The constructor `zap.NewAtomicLevel`: a holder set to info. -/
def NewAtomicLevel : AtomicLevel := ⟨.InfoLevel⟩

/-- The method `AtomicLevel.SetLevel`. -/
def AtomicLevel.SetLevel (_a : AtomicLevel) (l : Level) : AtomicLevel := ⟨l⟩

/-- The time encoders of zapcore the resolver selects. -/
inductive TimeEncoder where
  | EpochMillisTimeEncoder
  | EpochNanosTimeEncoder
  | EpochTimeEncoder
  | ISO8601TimeEncoder
deriving DecidableEq, Repr

/-- The duration encoders of zapcore the resolver selects. -/
inductive DurationEncoder where
  | SecondsDurationEncoder
  | NanosDurationEncoder
  | StringDurationEncoder
deriving DecidableEq, Repr

/-- The level encoders of zapcore the resolver selects. -/
inductive LevelEncoder where
  | CapitalLevelEncoder
  | LowercaseLevelEncoder
deriving DecidableEq, Repr

/-- The caller encoders of zapcore. -/
inductive CallerEncoder where
  | FullCallerEncoder
  | ShortCallerEncoder
deriving DecidableEq, Repr

/-- The record zapcore.EncoderConfig; a function field that is nil is `none`. -/
structure EncoderConfig where
  MessageKey : String
  LevelKey : String
  TimeKey : String
  NameKey : String
  CallerKey : String
  StacktraceKey : String
  EncodeLevel : Option LevelEncoder
  EncodeTime : Option TimeEncoder
  EncodeDuration : Option DurationEncoder
  EncodeCaller : Option CallerEncoder
deriving DecidableEq, Repr

/-! ## Encoders and loggers as values -/

/-- Modelled from the spec: the structured buffer encoder of the file
json_encoder.go of this package, which is not among the sources: its encoder
configuration, its byte buffer, the spacing flag and the number of namespaces
opened and not yet closed. -/
structure jsonEncoder where
  cfg : EncoderConfig
  buf : String
  spaced : Bool
  openNamespaces : Nat
deriving DecidableEq, Repr

/-- Modelled from the spec: the constructor `newJSONEncoder` of json_encoder.go,
which is not among the sources: an encoder over an empty buffer with no open
namespace. -/
def newJSONEncoder (cfg : EncoderConfig) (spaced : Bool) : jsonEncoder :=
  { cfg := cfg, buf := "", spaced := spaced, openNamespaces := 0 }

/-- The struct RsyslogEncoder. -/
structure RsyslogEncoder where
  inner : jsonEncoder
  appName : String
  hostname : String
deriving DecidableEq, Repr

/-- The struct RsyslogAccessEncoder. -/
structure RsyslogAccessEncoder where
  inner : jsonEncoder
  appName : String
  hostname : String
deriving DecidableEq, Repr

/-- The values of the interface zapcore.Encoder the resolver can return, each
named by the constructor call that builds it. -/
inductive Encoder where
  | NewMixedEncoder (cfg : EncoderConfig)
  | NewJSONEncoder (cfg : EncoderConfig)
  | NewConsoleEncoder (cfg : EncoderConfig)
  | Rsyslog (e : RsyslogEncoder)
  | RsyslogAccess (e : RsyslogAccessEncoder)
deriving DecidableEq, Repr

/-- The function NewRsyslogEncoder: panics when the hostname is unavailable. -/
def NewRsyslogEncoder (lib : Lib) (cfg : EncoderConfig) (appName : String) : Outcome Encoder :=
  let inner := newJSONEncoder cfg false
  match lib.Hostname with
  | .error err => .panic ("could not get hostname: " ++ err)
  | .ok hostname => .ret (.Rsyslog { inner := inner, appName := appName, hostname := hostname })

/-- The function NewRsyslogAccessEncoder: panics when the hostname is unavailable. -/
def NewRsyslogAccessEncoder (lib : Lib) (cfg : EncoderConfig) (appName : String) :
    Outcome Encoder :=
  let inner := newJSONEncoder cfg false
  match lib.Hostname with
  | .error err => .panic ("could not get hostname: " ++ err)
  | .ok hostname =>
    .ret (.RsyslogAccess { inner := inner, appName := appName, hostname := hostname })

/-- The loggers `build` returns: the no-op logger of `zap.NewNop` or a logger
over the core assembled from an encoder, a sink and a level holder. -/
inductive Logger where
  | NewNop
  | New (encoder : Option Encoder) (ws : WriteSyncer) (level : AtomicLevel)
deriving DecidableEq, Repr

/-! ## config.go -/

/-- The struct Config. -/
structure Config where
  Logger : String
  File : String
  Level : String
  Encoding : String
  EncodingTime : String
  EncodingDuration : String
  Type_ : String
deriving DecidableEq, Repr

/-- The function NewConfig. -/
def NewConfig : Config :=
  { Logger := "", File := "stderr", Level := "info", Encoding := "mixed",
    EncodingTime := "iso8601", EncodingDuration := "seconds", Type_ := "" }

/-- The method Config.Clone. -/
def Config.Clone (c : Config) : Config := c

/-- The method Config.encoderLocal. -/
def Config.encoderLocal (lib : Lib) (c : Config) (u : URL) :
    Option Encoder × Option GoError :=
  let encoding := Values.Get u.Query "encoding"
  let encoding := if encoding = "" then c.Encoding else encoding
  let encodingTime := Values.Get u.Query "encoding-time"
  let encodingTime := if encodingTime = "" then c.EncodingTime else encodingTime
  let encodingDuration := Values.Get u.Query "encoding-duration"
  let encodingDuration := if encodingDuration = "" then c.EncodingDuration else encodingDuration
  let encoderTime : Option TimeEncoder :=
    if lib.ToLower encodingTime = "millis" then some .EpochMillisTimeEncoder
    else if lib.ToLower encodingTime = "nanos" then some .EpochNanosTimeEncoder
    else if lib.ToLower encodingTime = "epoch" then some .EpochTimeEncoder
    else if lib.ToLower encodingTime = "iso8601" ∨ lib.ToLower encodingTime = "" then
      some .ISO8601TimeEncoder
    else none
  match encoderTime with
  | none => (none, some (.msg ("unknown time encoding " ++ lib.Quote encodingTime)))
  | some encoderTime =>
    let encoderDuration : Option DurationEncoder :=
      if lib.ToLower encodingDuration = "seconds" ∨ lib.ToLower encodingDuration = "" then
        some .SecondsDurationEncoder
      else if lib.ToLower encodingDuration = "nanos" then some .NanosDurationEncoder
      else if lib.ToLower encodingDuration = "string" then some .StringDurationEncoder
      else none
    match encoderDuration with
    | none => (none, some (.msg ("unknown duration encoding " ++ lib.Quote encodingDuration)))
    | some encoderDuration =>
      let encoderConfig : EncoderConfig :=
        { MessageKey := "message", LevelKey := "level", TimeKey := "timestamp",
          NameKey := "logger", CallerKey := "caller", StacktraceKey := "stacktrace",
          EncodeLevel := some .CapitalLevelEncoder, EncodeTime := some encoderTime,
          EncodeDuration := some encoderDuration, EncodeCaller := none }
      if lib.ToLower encoding = "mixed" ∨ lib.ToLower encoding = "" then
        (some (.NewMixedEncoder encoderConfig), none)
      else if lib.ToLower encoding = "json" then
        (some (.NewJSONEncoder encoderConfig), none)
      else if lib.ToLower encoding = "console" then
        (some (.NewConsoleEncoder encoderConfig), none)
      else (none, some (.msg ("unknown encoding " ++ lib.Quote encoding)))

/-- The method Config.encoderRsyslog. -/
def Config.encoderRsyslog (lib : Lib) (c : Config) (u : URL) :
    Outcome (Option Encoder × Option GoError) :=
  let encodingTime := Values.Get u.Query "encoding-time"
  let encodingTime := if encodingTime = "" then c.EncodingTime else encodingTime
  let encodingDuration := Values.Get u.Query "encoding-duration"
  let encodingDuration := if encodingDuration = "" then c.EncodingDuration else encodingDuration
  let encoderTime : Option TimeEncoder :=
    if lib.ToLower encodingTime = "millis" then some .EpochMillisTimeEncoder
    else if lib.ToLower encodingTime = "nanos" then some .EpochNanosTimeEncoder
    else if lib.ToLower encodingTime = "epoch" then some .EpochTimeEncoder
    else if lib.ToLower encodingTime = "iso8601" ∨ lib.ToLower encodingTime = "" then
      some .ISO8601TimeEncoder
    else none
  match encoderTime with
  | none => .ret (none, some (.msg ("unknown time encoding " ++ lib.Quote encodingTime)))
  | some encoderTime =>
    let encoderDuration : Option DurationEncoder :=
      if lib.ToLower encodingDuration = "seconds" ∨ lib.ToLower encodingDuration = "" then
        some .SecondsDurationEncoder
      else if lib.ToLower encodingDuration = "nanos" then some .NanosDurationEncoder
      else if lib.ToLower encodingDuration = "string" then some .StringDurationEncoder
      else none
    match encoderDuration with
    | none =>
      .ret (none, some (.msg ("unknown duration encoding " ++ lib.Quote encodingDuration)))
    | some encoderDuration =>
      let appName := Values.Get u.Query "app-name"
      if appName = "" then .panic "app-name is required"
      else
        let encoderConfig : EncoderConfig :=
          { MessageKey := "msg", LevelKey := "level", TimeKey := "timestamp",
            NameKey := "logger", CallerKey := "caller", StacktraceKey := "stacktrace",
            EncodeLevel := some .LowercaseLevelEncoder, EncodeTime := some encoderTime,
            EncodeDuration := some encoderDuration, EncodeCaller := none }
        if lib.ToLower c.Type_ = "" ∨ lib.ToLower c.Type_ = "err" then
          (NewRsyslogEncoder lib encoderConfig appName).bind fun e => .ret (some e, none)
        else if lib.ToLower c.Type_ = "access" then
          (NewRsyslogAccessEncoder lib encoderConfig appName).bind fun e => .ret (some e, none)
        else .ret (none, some (.msg ("unknown rsyslog type encoding " ++ lib.Quote c.Type_)))

/-- The method Config.encoder: the encoder, the level holder and the error it returns. -/
def Config.encoder (lib : Lib) (c : Config) :
    Outcome (Option Encoder × AtomicLevel × Option GoError) :=
  let atomicLevel := NewAtomicLevel
  match lib.urlParse c.File with
  | .error err => .ret (none, atomicLevel, some (.url err))
  | .ok u =>
    let level := Values.Get u.Query "level"
    let level := if level = "" then c.Level else level
    match Level.UnmarshalText lib level with
    | .error err => .ret (none, atomicLevel, some err)
    | .ok zapLevel =>
      let atomicLevel := atomicLevel.SetLevel zapLevel
      let r : Outcome (Option Encoder × Option GoError) :=
        if u.Scheme = "rsyslog" then c.encoderRsyslog lib u
        else .ret (c.encoderLocal lib u)
      r.bind fun p =>
        match p.2 with
        | some err => .ret (none, atomicLevel, some err)
        | none => .ret (p.1, atomicLevel, none)

/-- What a call of `build` leaves behind: the logger and the error it returns, and
the targets it passed to the sink constructor `New`, in order. -/
structure BuildResult where
  logger : Option Logger
  err : Option GoError
  sinkCalls : List String
deriving DecidableEq, Repr

/-- The method Config.build. -/
def Config.build (lib : Lib) (c : Config) (checkOnly : Bool) : Outcome BuildResult :=
  match lib.urlParse c.File with
  | .error err => .ret { logger := none, err := some (.url err), sinkCalls := [] }
  | .ok u =>
    (c.encoder lib).bind fun r =>
      match r.2.2 with
      | some err => .ret { logger := none, err := some err, sinkCalls := [] }
      | none =>
        if checkOnly then .ret { logger := none, err := none, sinkCalls := [] }
        else if lib.ToLower u.Path = "none" then
          .ret { logger := some .NewNop, err := none, sinkCalls := [] }
        else
          match lib.New c.File with
          | .error err => .ret { logger := none, err := some err, sinkCalls := [c.File] }
          | .ok ws =>
            .ret { logger := some (.New r.1 ws r.2.1), err := none, sinkCalls := [c.File] }

/-- The method Config.Check: the error of a checking pass. -/
def Config.Check (lib : Lib) (c : Config) : Outcome (Option GoError) :=
  (c.build lib true).bind fun r => .ret r.err

/-- The method Config.BuildLogger: the logger and the error of a building pass. -/
def Config.BuildLogger (lib : Lib) (c : Config) : Outcome (Option Zapwriter.Logger × Option GoError) :=
  (c.build lib false).bind fun r => .ret (r.logger, r.err)

/-! ## Events and fields -/

/-- The civil reading of a `time.Time` in its own location, which is what
`Time.Format` renders. -/
structure Time where
  year : Int
  month : Nat
  day : Nat
  hour : Nat
  minute : Nat
  second : Nat
  nanosecond : Nat
deriving DecidableEq, Repr

/-- The decimal digits of a number, zero-padded on the left to a width. -/
def padLeft (width n : Nat) : List Char :=
  List.replicate (width - (Nat.toDigits 10 n).length) '0' ++ Nat.toDigits 10 n

/-- The three-letter month names of package time. -/
def shortMonthName (month : Nat) : List Char :=
  (["Jan", "Feb", "Mar", "Apr", "May", "Jun", "Jul", "Aug", "Sep", "Oct", "Nov",
    "Dec"].getD (month - 1) "").data

/-- The four-digit year of package time: a minus sign before a negative year. -/
def longYear (year : Int) : List Char :=
  if year < 0 then '-' :: padLeft 4 year.natAbs else padLeft 4 year.natAbs

/-- The rendering of `Time.Format` for layouts made of the elements `2006`,
`Jan`, `01`, `02`, `15`, `04`, `05`, `.000000` and literal text, which covers
the two layouts of the encoders. -/
def formatLayout (t : Time) : List Char → List Char
  | '2' :: '0' :: '0' :: '6' :: r => longYear t.year ++ formatLayout t r
  | 'J' :: 'a' :: 'n' :: r => shortMonthName t.month ++ formatLayout t r
  | '.' :: '0' :: '0' :: '0' :: '0' :: '0' :: '0' :: r =>
    '.' :: padLeft 6 (t.nanosecond / 1000) ++ formatLayout t r
  | '0' :: '1' :: r => padLeft 2 t.month ++ formatLayout t r
  | '0' :: '2' :: r => padLeft 2 t.day ++ formatLayout t r
  | '1' :: '5' :: r => padLeft 2 t.hour ++ formatLayout t r
  | '0' :: '4' :: r => padLeft 2 t.minute ++ formatLayout t r
  | '0' :: '5' :: r => padLeft 2 t.second ++ formatLayout t r
  | c :: r => c :: formatLayout t r
  | [] => []

/-- The method `Time.Format`. -/
def Time.Format (t : Time) (layout : String) : String :=
  String.mk (formatLayout t layout.data)

/-- The struct zapcore.EntryCaller, with its two renderings `String()` and
`TrimmedPath()` carried as text. -/
structure EntryCaller where
  Defined : Bool
  FullPath : String
  TrimmedPath : String
deriving DecidableEq, Repr

/-- The struct zapcore.Entry. -/
structure Entry where
  Level : Level
  Time : Time
  LoggerName : String
  Message : String
  Caller : EntryCaller
  Stack : String
deriving DecidableEq, Repr

/-- One call a marshaler makes on the array encoder it is given. -/
inductive ArrayAppend where
  | AppendString (v : String)
  | AppendInt64 (v : Int)
  | AppendBool (v : Bool)
deriving DecidableEq, Repr

/-- A value of the interface zapcore.ArrayMarshaler: the appends its
`MarshalLogArray` makes, in order, and the error it returns. -/
structure ArrayMarshaler where
  appends : List ArrayAppend
  err : Option GoError
deriving DecidableEq, Repr

/-- The dynamic value in the `Interface` slot of a field: nil, an array marshaler,
or a value of another dynamic type, given by the name of that type. -/
inductive Interface where
  | null
  | arrayMarshaler (m : ArrayMarshaler)
  | other (typeName : String)
deriving DecidableEq, Repr

/-- The text of the run-time error with which the type assertion
`x.(zapcore.ArrayMarshaler)` panics on the value of an `Interface` slot: on a nil
interface, and on a value whose dynamic type lacks the method `MarshalLogArray`.
On an array marshaler the assertion succeeds and no error is raised. -/
def typeAssertionError : Interface → String
  | .null => "interface conversion: interface is nil, not zapcore.ArrayMarshaler"
  | .other typeName =>
    "interface conversion: " ++ typeName ++
      " is not zapcore.ArrayMarshaler: missing method MarshalLogArray"
  | .arrayMarshaler _ => ""

/-- The field types of zapcore that carry their value in the `Integer`, `String`
or `Interface` slot as modelled here. -/
inductive FieldType where
  | ArrayMarshalerType
  | BoolType
  | Float64Type
  | Int64Type
  | Int32Type
  | StringType
  | NamespaceType
  | SkipType
deriving DecidableEq, Repr

/-- The struct zapcore.Field; `Integer` is an int64. -/
structure Field where
  Key : String
  Type_ : FieldType
  Integer : Int
  String_ : String
  Interface : Interface
deriving DecidableEq, Repr

/-- The conversion `int32(x)` of an int64: the low 32 bits read as a signed number. -/
def int32 (x : Int) : Int := (x + 2 ^ 31) % 2 ^ 32 - 2 ^ 31

/-- The conversion `uint64(x)` of an int64: the bit pattern as a natural number. -/
def uint64 (x : Int) : Nat := (x % 2 ^ 64).toNat

/-- The method `Level.String` of zapcore. -/
def Level.String_ : Level → String
  | .DebugLevel => "debug"
  | .InfoLevel => "info"
  | .WarnLevel => "warn"
  | .ErrorLevel => "error"
  | .DPanicLevel => "dpanic"
  | .PanicLevel => "panic"
  | .FatalLevel => "fatal"

/-- The method `Level.CapitalString` of zapcore. -/
def Level.CapitalString : Level → String
  | .DebugLevel => "DEBUG"
  | .InfoLevel => "INFO"
  | .WarnLevel => "WARN"
  | .ErrorLevel => "ERROR"
  | .DPanicLevel => "DPANIC"
  | .PanicLevel => "PANIC"
  | .FatalLevel => "FATAL"

/-- The method `Error` of a Go error value. -/
def GoError.Error (lib : Lib) : GoError → String
  | .url e => e.Op ++ " " ++ lib.Quote e.URL ++ ": " ++ e.Err
  | .msg text => text

/-! ## The structured buffer encoder -/

/-- Modelled from the spec: raw buffer access of the structured buffer
(`buf.AppendString`, also what the direct-write helper of this package does),
from a file that is not among the sources: the text goes to the end of the
buffer unchanged. -/
def jsonEncoder.write (enc : jsonEncoder) (s : String) : jsonEncoder :=
  { enc with buf := enc.buf ++ s }

/-- Modelled from the spec: `buf.AppendByte` of the structured buffer. -/
def jsonEncoder.AppendByte (enc : jsonEncoder) (c : Char) : jsonEncoder :=
  enc.write (String.singleton c)

/-- Modelled from the spec: the method `clone` of json_encoder.go, not among the
sources: the configuration, the spacing flag and the count of open namespaces
are copied and the buffer is a fresh empty one. -/
def jsonEncoder.clone (enc : jsonEncoder) : jsonEncoder :=
  { cfg := enc.cfg, buf := "", spaced := enc.spaced, openNamespaces := enc.openNamespaces }

/-- Modelled from the spec: the method `addElementSeparator` of json_encoder.go,
not among the sources: a comma unless the buffer is empty or ends in an opening
brace or bracket, a colon, a comma or a space. -/
def jsonEncoder.addElementSeparator (enc : jsonEncoder) : jsonEncoder :=
  match enc.buf.data.getLast? with
  | none => enc
  | some c =>
    if c = '\x7b' ∨ c = '[' ∨ c = ':' ∨ c = ',' ∨ c = ' ' then enc
    else if enc.spaced then enc.write ", " else enc.write ","

/-- A hexadecimal digit. -/
def hexDigit (n : Nat) : Char := "0123456789abcdef".data.getD n '0'

/-- Modelled from the spec: the escaping of one character by `safeAddString` of
json_encoder.go, not among the sources, for valid UTF-8 text. -/
def safeChar (c : Char) : List Char :=
  if c = '\\' ∨ c = '"' then ['\\', c]
  else if c = '\n' then ['\\', 'n']
  else if c = '\r' then ['\\', 'r']
  else if c = '\t' then ['\\', 't']
  else if c.toNat < 32 then ['\\', 'u', '0', '0', hexDigit (c.toNat / 16), hexDigit (c.toNat % 16)]
  else [c]

/-- The escaped characters of a text. -/
def safeChars : List Char → List Char
  | [] => []
  | c :: cs => safeChar c ++ safeChars cs

/-- Modelled from the spec: the method `safeAddString` of json_encoder.go. -/
def jsonEncoder.safeAddString (enc : jsonEncoder) (s : String) : jsonEncoder :=
  enc.write (String.mk (safeChars s.data))

/-- Modelled from the spec: the method `addKey` of json_encoder.go: a separator,
the quoted key and a colon. -/
def jsonEncoder.addKey (enc : jsonEncoder) (key : String) : jsonEncoder :=
  let enc := enc.addElementSeparator
  let enc := enc.AppendByte '"'
  let enc := enc.safeAddString key
  let enc := enc.AppendByte '"'
  let enc := enc.AppendByte ':'
  if enc.spaced then enc.AppendByte ' ' else enc

/-- Modelled from the spec: the method `AppendString` of json_encoder.go. -/
def jsonEncoder.AppendString (enc : jsonEncoder) (val : String) : jsonEncoder :=
  let enc := enc.addElementSeparator
  let enc := enc.AppendByte '"'
  let enc := enc.safeAddString val
  enc.AppendByte '"'

/-- Modelled from the spec: the method `AddString` of json_encoder.go. -/
def jsonEncoder.AddString (enc : jsonEncoder) (key val : String) : jsonEncoder :=
  (enc.addKey key).AppendString val

/-- Modelled from the spec: the method `AppendInt64` of json_encoder.go: the
decimal digits of the number. -/
def jsonEncoder.AppendInt64 (enc : jsonEncoder) (val : Int) : jsonEncoder :=
  enc.addElementSeparator.write (toString val)

/-- Modelled from the spec: the method `AddInt64` of json_encoder.go. -/
def jsonEncoder.AddInt64 (enc : jsonEncoder) (key : String) (val : Int) : jsonEncoder :=
  (enc.addKey key).AppendInt64 val

/-- Modelled from the spec: the method `AddInt32` of json_encoder.go. -/
def jsonEncoder.AddInt32 (enc : jsonEncoder) (key : String) (val : Int) : jsonEncoder :=
  enc.AddInt64 key val

/-- Modelled from the spec: the method `AppendBool` of json_encoder.go. -/
def jsonEncoder.AppendBool (enc : jsonEncoder) (val : Bool) : jsonEncoder :=
  enc.addElementSeparator.write (if val then "true" else "false")

/-- Modelled from the spec: the method `AddBool` of json_encoder.go. -/
def jsonEncoder.AddBool (enc : jsonEncoder) (key : String) (val : Bool) : jsonEncoder :=
  (enc.addKey key).AppendBool val

/-- Modelled from the spec: the method `AddFloat64` of json_encoder.go, on the
bit pattern of the number. -/
def jsonEncoder.AddFloat64 (lib : Lib) (enc : jsonEncoder) (key : String) (bits : Nat) :
    jsonEncoder :=
  (enc.addKey key).addElementSeparator.write (lib.appendFloat bits)

/-- One append of a marshaler on the structured buffer. -/
def jsonEncoder.appendElem (enc : jsonEncoder) : ArrayAppend → jsonEncoder
  | .AppendString v => enc.AppendString v
  | .AppendInt64 v => enc.AppendInt64 v
  | .AppendBool v => enc.AppendBool v

/-- The appends of a marshaler on the structured buffer, in order. -/
def jsonEncoder.appendElems (enc : jsonEncoder) : List ArrayAppend → jsonEncoder
  | [] => enc
  | a :: rest => (enc.appendElem a).appendElems rest

/-- Modelled from the spec: the method `AppendArray` of json_encoder.go: the
appends of the marshaler between brackets, and the error of the marshaler. -/
def jsonEncoder.AppendArray (enc : jsonEncoder) (arr : ArrayMarshaler) :
    jsonEncoder × Option GoError :=
  let enc := enc.addElementSeparator
  let enc := enc.AppendByte '['
  let enc := enc.appendElems arr.appends
  (enc.AppendByte ']', arr.err)

/-- Modelled from the spec: the method `AddArray` of json_encoder.go. -/
def jsonEncoder.AddArray (enc : jsonEncoder) (key : String) (arr : ArrayMarshaler) :
    jsonEncoder × Option GoError :=
  (enc.addKey key).AppendArray arr

/-- Modelled from the spec: the method `OpenNamespace` of json_encoder.go: the
key, an opening brace, and one more open namespace. -/
def jsonEncoder.OpenNamespace (enc : jsonEncoder) (key : String) : jsonEncoder :=
  let enc := (enc.addKey key).AppendByte '\x7b'
  { enc with openNamespaces := enc.openNamespaces + 1 }

/-- The closing braces of `closeOpenNamespaces`, one per open namespace. -/
def jsonEncoder.closeLoop (enc : jsonEncoder) : Nat → jsonEncoder
  | 0 => enc
  | n + 1 => (enc.AppendByte '\x7d').closeLoop n

/-- Modelled from the spec: the method `closeOpenNamespaces` of json_encoder.go:
one closing brace per open namespace. -/
def jsonEncoder.closeOpenNamespaces (enc : jsonEncoder) : jsonEncoder :=
  enc.closeLoop enc.openNamespaces

/-- The level encoders of zapcore applied to the structured buffer. -/
def LevelEncoder.apply (e : LevelEncoder) (l : Level) (enc : jsonEncoder) : jsonEncoder :=
  match e with
  | .CapitalLevelEncoder => enc.AppendString l.CapitalString
  | .LowercaseLevelEncoder => enc.AppendString l.String_

/-- The caller encoders of zapcore applied to the structured buffer. -/
def CallerEncoder.apply (e : CallerEncoder) (c : EntryCaller) (enc : jsonEncoder) :
    jsonEncoder :=
  match e with
  | .FullCallerEncoder => enc.AppendString c.FullPath
  | .ShortCallerEncoder => enc.AppendString c.TrimmedPath

/-- The method `Field.AddTo` of zapcore for the field types of `FieldType`: the
type assertion of an array field panics when the slot holds no marshaler, and an
error of the marshaler is added under the key with the suffix `Error`. -/
def Field.AddTo (lib : Lib) (f : Field) (enc : jsonEncoder) : Outcome jsonEncoder :=
  match f.Type_ with
  | .ArrayMarshalerType =>
    match f.Interface with
    | .arrayMarshaler m =>
      match (enc.AddArray f.Key m).2 with
      | some err => .ret ((enc.AddArray f.Key m).1.AddString (f.Key ++ "Error") (err.Error lib))
      | none => .ret (enc.AddArray f.Key m).1
    | i => .panic (typeAssertionError i)
  | .BoolType => .ret (enc.AddBool f.Key (decide (f.Integer = 1)))
  | .Float64Type => .ret (enc.AddFloat64 lib f.Key (uint64 f.Integer))
  | .Int64Type => .ret (enc.AddInt64 f.Key f.Integer)
  | .Int32Type => .ret (enc.AddInt32 f.Key (int32 f.Integer))
  | .StringType => .ret (enc.AddString f.Key f.String_)
  | .NamespaceType => .ret (enc.OpenNamespace f.Key)
  | .SkipType => .ret enc

/-- Modelled from the spec: the function `addFields` of json_encoder.go: every
field is added to the encoder in order. -/
def addFields (lib : Lib) (enc : jsonEncoder) : List Field → Outcome jsonEncoder
  | [] => .ret enc
  | f :: rest => (f.AddTo lib enc).bind fun enc => addFields lib enc rest

/-! ## rsyslog_encoder.go -/

/-- The loop over the fields at the head of `RsyslogEncoder.EncodeEntry`: the
component, the context id and the fields passed through, updated field by field. -/
def RsyslogEncoder.scanFields :
    String → Int → List Field → List Field → String × Int × List Field
  | component, contextID, finalFields, [] => (component, contextID, finalFields)
  | component, contextID, finalFields, field :: rest =>
    if field.Key = "component" then
      RsyslogEncoder.scanFields field.String_ contextID finalFields rest
    else if field.Key = "contextID" ∨ field.Key = "context_id" then
      RsyslogEncoder.scanFields component field.Integer finalFields rest
    else RsyslogEncoder.scanFields component contextID (finalFields ++ [field]) rest

/-- The method RsyslogEncoder.EncodeEntry: the bytes of the returned buffer and
the returned error. -/
def RsyslogEncoder.EncodeEntry (lib : Lib) (enc : RsyslogEncoder) (ent : Entry)
    (fields : List Field) : Outcome (String × Option GoError) :=
  let scan := RsyslogEncoder.scanFields ent.LoggerName 0 [] fields
  let component := scan.1
  let contextID := scan.2.1
  let finalFields := scan.2.2
  let eventDatetimeISO := ent.Time.Format "2006-01-02T15:04:05.000000"
  let eventDatetimeSyslog := ent.Time.Format "Jan 02 15:04:05"
  let final := enc.inner.clone
  let extra := enc.inner.clone
  let extra := extra.write enc.inner.buf
  let final := final.write eventDatetimeSyslog
  let final := final.AppendByte ' '
  let final := final.write enc.hostname
  let final := final.AppendByte ' '
  let final := final.write enc.appName
  let final := final.AppendByte ':'
  let final := final.AppendByte ' '
  let final := final.AppendByte '\x7b'
  let final := final.AddString "component" component
  let final := final.AddInt64 "context_id" contextID
  let final := final.AddString "event_datetime" eventDatetimeISO
  let final := final.AddString "event_date" (String.mk (eventDatetimeISO.data.take 10))
  let final := final.AddString "msg" ent.Message
  let final :=
    if enc.inner.cfg.LevelKey ≠ "" then
      match enc.inner.cfg.EncodeLevel with
      | some encodeLevel => encodeLevel.apply ent.Level (final.addKey "level")
      | none => final
    else final
  let extra :=
    if ent.Caller.Defined = true ∧ enc.inner.cfg.CallerKey ≠ "" then
      match enc.inner.cfg.EncodeCaller with
      | some encodeCaller => encodeCaller.apply ent.Caller (extra.addKey "caller")
      | none => extra
    else extra
  let extra :=
    if ent.Stack ≠ "" ∧ enc.inner.cfg.StacktraceKey ≠ "" then
      extra.AddString enc.inner.cfg.StacktraceKey ent.Stack
    else extra
  (addFields lib extra finalFields).bind fun extra =>
    let final := final.AddString "extra" ("\x7b" ++ extra.buf ++ "\x7d")
    let final := final.closeOpenNamespaces
    let final := final.AppendByte '\x7d'
    let final := final.AppendByte '\n'
    .ret (final.buf, none)

/-! ## rsyslog_access_encoder.go -/

/-- The loop over the fields in `RsyslogAccessEncoder.EncodeEntry`: the body
encoder and the fields passed through, updated field by field; the type
assertion on a `targets` or `metrics` field panics when the slot holds no
array marshaler, and the error of `AddArray` is dropped. -/
def RsyslogAccessEncoder.scanFields (lib : Lib) :
    jsonEncoder → List Field → List Field → Outcome (jsonEncoder × List Field)
  | final, finalFields, [] => .ret (final, finalFields)
  | final, finalFields, field :: rest =>
    if field.Key = "handler" ∨ field.Key = "carbonapi_uuid" ∨ field.Key = "peer_ip" then
      RsyslogAccessEncoder.scanFields lib (final.AddString field.Key field.String_)
        finalFields rest
    else if field.Key = "targets" ∨ field.Key = "metrics" then
      match field.Interface with
      | .arrayMarshaler m =>
        RsyslogAccessEncoder.scanFields lib (final.AddArray field.Key m).1 finalFields rest
      | i => .panic (typeAssertionError i)
    else if field.Key = "runtime" then
      RsyslogAccessEncoder.scanFields lib (final.AddFloat64 lib field.Key (uint64 field.Integer))
        finalFields rest
    else if field.Key = "http_code" ∨ field.Key = "from" ∨ field.Key = "until" then
      RsyslogAccessEncoder.scanFields lib (final.AddInt32 field.Key (int32 field.Integer))
        finalFields rest
    else RsyslogAccessEncoder.scanFields lib final (finalFields ++ [field]) rest

/-- The method RsyslogAccessEncoder.EncodeEntry: the bytes of the returned buffer
and the returned error. -/
def RsyslogAccessEncoder.EncodeEntry (lib : Lib) (enc : RsyslogAccessEncoder) (ent : Entry)
    (fields : List Field) : Outcome (String × Option GoError) :=
  let eventDatetimeISO := ent.Time.Format "2006-01-02T15:04:05.000000"
  let eventDatetimeSyslog := ent.Time.Format "Jan 02 15:04:05"
  let final := enc.inner.clone
  let extra := enc.inner.clone
  let extra := extra.write enc.inner.buf
  let final := final.write eventDatetimeSyslog
  let final := final.AppendByte ' '
  let final := final.write enc.hostname
  let final := final.AppendByte ' '
  let final := final.write enc.appName
  let final := final.AppendByte ':'
  let final := final.AppendByte ' '
  let final := final.AppendByte '\x7b'
  let final := final.AddString "event_datetime" eventDatetimeISO
  let final := final.AddString "event_date" (String.mk (eventDatetimeISO.data.take 10))
  let final := final.AddString "msg" ent.Message
  let final := final.AddString "hostname" enc.hostname
  let final := final.AddString "component" ent.LoggerName
  let final :=
    if enc.inner.cfg.LevelKey ≠ "" then
      match enc.inner.cfg.EncodeLevel with
      | some encodeLevel => encodeLevel.apply ent.Level (final.addKey "level")
      | none => final
    else final
  (RsyslogAccessEncoder.scanFields lib final [] fields).bind fun scan =>
    let final := scan.1
    let finalFields := scan.2
    let extra :=
      if ent.Caller.Defined = true ∧ enc.inner.cfg.CallerKey ≠ "" then
        match enc.inner.cfg.EncodeCaller with
        | some encodeCaller => encodeCaller.apply ent.Caller (extra.addKey "caller")
        | none => extra
      else extra
    let extra :=
      if ent.Stack ≠ "" ∧ enc.inner.cfg.StacktraceKey ≠ "" then
        extra.AddString enc.inner.cfg.StacktraceKey ent.Stack
      else extra
    (addFields lib extra finalFields).bind fun extra =>
      let final := final.AddString "extra" ("\x7b" ++ extra.buf ++ "\x7d")
      let final := final.closeOpenNamespaces
      let final := final.AppendByte '\x7d'
      let final := final.AppendByte '\n'
      .ret (final.buf, none)

/-! ## A reference library instance -/

/-- The function `strings.Cut` on characters: the text before the first separator
and, when the separator occurs, the text after it. -/
def cut (sep : Char) : List Char → List Char × Option (List Char)
  | [] => ([], none)
  | c :: cs =>
    if c = sep then ([], some cs)
    else ((c :: (cut sep cs).1), (cut sep cs).2)

/-- The function `strings.Split` on characters. -/
def splitOn (sep : Char) : List Char → List (List Char)
  | [] => [[]]
  | c :: cs =>
    if c = sep then [] :: splitOn sep cs
    else
      match splitOn sep cs with
      | [] => [[c]]
      | h :: t => (c :: h) :: t

/-- The loop of `getScheme` in net/url, over the characters not yet read, with
the characters already accepted. -/
def getSchemeLoop (raw : List Char) :
    List Char → List Char → Except String (List Char × List Char)
  | _, [] => .ok ([], raw)
  | seen, c :: cs =>
    if c.isAlpha then getSchemeLoop raw (seen ++ [c]) cs
    else if c.isDigit ∨ c = '+' ∨ c = '-' ∨ c = '.' then
      if seen = [] then .ok ([], raw) else getSchemeLoop raw (seen ++ [c]) cs
    else if c = ':' then
      if seen = [] then .error "missing protocol scheme" else .ok (seen, cs)
    else .ok ([], raw)

/-- The function `getScheme` of net/url. -/
def getScheme (raw : List Char) : Except String (List Char × List Char) :=
  getSchemeLoop raw [] raw

/-- The decoding of one query component for components without a percent sign:
a plus sign stands for a space. -/
def queryUnescape (s : List Char) : String :=
  String.mk (s.map fun c => if c = '+' then ' ' else c)

/-- The function `url.ParseQuery`, its error dropped as `URL.Query` does, for
queries without percent-escapes: the pairs in order, skipping empty pieces and
pieces that contain a semicolon. -/
def parseQuery (q : List Char) : List (String × String) :=
  (splitOn '&' q).filterMap fun piece =>
    if piece.contains ';' ∨ piece = [] then none
    else
      some (queryUnescape (cut '=' piece).1,
            queryUnescape (((cut '=' piece).2).getD []))

/-- The function `url.Parse` for targets without percent-escapes and without
user information: the fragment is cut off, the scheme is lowercased, the query
is split from the rest, and an authority after `//` is not part of the path. -/
def refUrlParse (rawURL : String) : Except UrlError URL :=
  let u := (cut '#' rawURL.data).1
  if u.any (fun c => decide (c.toNat < 32 ∨ c.toNat = 127)) then
    .error ⟨"parse", String.mk u, "net/url: invalid control character in URL"⟩
  else if u = ['*'] then .ok { Scheme := "", Path := "*", Query := [] }
  else
    match getScheme u with
    | .error e => .error ⟨"parse", String.mk u, e⟩
    | .ok (scheme, rest) =>
      let scheme := scheme.map Char.toLower
      let rawQuery := ((cut '?' rest).2).getD []
      let rest := (cut '?' rest).1
      if rest.head? ≠ some '/' ∧ scheme ≠ [] then
        .ok { Scheme := String.mk scheme, Path := "", Query := parseQuery rawQuery }
      else if rest.head? ≠ some '/' ∧ (cut '/' rest).1.contains ':' then
        .error ⟨"parse", String.mk u, "first path segment in URL cannot contain colon"⟩
      else if (scheme ≠ [] ∨ rest.take 3 ≠ ['/', '/', '/']) ∧ rest.take 2 = ['/', '/'] then
        let authority := rest.drop 2
        let path :=
          match (cut '/' authority).2 with
          | some p => '/' :: p
          | none => []
        .ok { Scheme := String.mk scheme, Path := String.mk path, Query := parseQuery rawQuery }
      else
        .ok { Scheme := String.mk scheme, Path := String.mk rest, Query := parseQuery rawQuery }

/-- The function `strings.ToLower` on ASCII text. -/
def refToLower (s : String) : String := String.mk (s.data.map Char.toLower)

/-- The characters of a Go quoted string for printable text: a backslash goes
before a double quote and before a backslash. -/
def quoteChars : List Char → List Char
  | [] => []
  | c :: cs => if c = '"' ∨ c = '\\' then '\\' :: c :: quoteChars cs else c :: quoteChars cs

/-- The function `strconv.Quote` on printable text. -/
def refQuote (s : String) : String := String.mk ('"' :: quoteChars s.data ++ ['"'])

/-- The float rendering of the reference instance: the bit patterns of 0, 1, 1.5
and 2 are rendered as Go renders them; no other pattern is used with this instance. -/
def refAppendFloat (bits : Nat) : String :=
  if bits = 0 then "0"
  else if bits = 0x3FF0000000000000 then "1"
  else if bits = 0x3FF8000000000000 then "1.5"
  else if bits = 0x4000000000000000 then "2"
  else "NaN"

/-- A reference instance of the library: ASCII targets without escapes, the host
name `localhost`, and a sink constructor that always succeeds. -/
def refLib : Lib :=
  { urlParse := refUrlParse
    ToLower := refToLower
    Quote := refQuote
    Hostname := .ok "localhost"
    New := fun target => .ok { target := target }
    appendFloat := refAppendFloat }

/-- The reference instance with a sink constructor that always fails. -/
def refLibNoSink : Lib :=
  { refLib with New := fun _ => .error (.msg "open: permission denied") }

/-- The reference instance on a machine whose host name cannot be read. -/
def refLibNoHost : Lib :=
  { refLib with Hostname := .error "hostname unavailable" }

/-! ## Sample configurations and events -/

/-- The default configuration with another target. -/
def configFor (file : String) : Config := { NewConfig with File := file }

/-- An rsyslog target with the application name `web` and the time encoding `RFC3339`. -/
def rsyslogTimeURL : URL :=
  { Scheme := "rsyslog", Path := "/app.log",
    Query := [("app-name", "web"), ("encoding-time", "RFC3339")] }

/-- An rsyslog target with the application name `web`. -/
def rsyslogWebURL : URL :=
  { Scheme := "rsyslog", Path := "/app.log", Query := [("app-name", "web")] }

/-- The default configuration on an rsyslog target with the type `ACCESS`. -/
def upperAccessConfig : Config :=
  { NewConfig with File := "rsyslog://loghost/app.log?app-name=web", Type_ := "ACCESS" }

/-- The default configuration on an rsyslog target with the type `syslog`. -/
def syslogTypeConfig : Config :=
  { NewConfig with File := "rsyslog://loghost/app.log?app-name=web", Type_ := "syslog" }

/-! ## Notions used in the statements -/

/-- The switch on the lowercased time encoding, written alike in both branches. -/
def timeSwitch (s : String) : Option TimeEncoder :=
  if s = "millis" then some .EpochMillisTimeEncoder
  else if s = "nanos" then some .EpochNanosTimeEncoder
  else if s = "epoch" then some .EpochTimeEncoder
  else if s = "iso8601" ∨ s = "" then some .ISO8601TimeEncoder
  else none

/-- The switch on the lowercased duration encoding, written alike in both branches. -/
def durationSwitch (s : String) : Option DurationEncoder :=
  if s = "seconds" ∨ s = "" then some .SecondsDurationEncoder
  else if s = "nanos" then some .NanosDurationEncoder
  else if s = "string" then some .StringDurationEncoder
  else none

/-- The encoder configuration of the local branch for a pair of encoders. -/
def localConfig (te : TimeEncoder) (de : DurationEncoder) : EncoderConfig :=
  { MessageKey := "message", LevelKey := "level", TimeKey := "timestamp",
    NameKey := "logger", CallerKey := "caller", StacktraceKey := "stacktrace",
    EncodeLevel := some .CapitalLevelEncoder, EncodeTime := some te,
    EncodeDuration := some de, EncodeCaller := none }

/-- The encoder configuration of the rsyslog branch for a pair of encoders. -/
def rsyslogConfig (te : TimeEncoder) (de : DurationEncoder) : EncoderConfig :=
  { MessageKey := "msg", LevelKey := "level", TimeKey := "timestamp",
    NameKey := "logger", CallerKey := "caller", StacktraceKey := "stacktrace",
    EncodeLevel := some .LowercaseLevelEncoder, EncodeTime := some te,
    EncodeDuration := some de, EncodeCaller := none }

/-- The four errors of the two branches: a fixed text naming the option, then the
quoted offending value. -/
def UnknownOptionError (lib : Lib) (e : GoError) : Prop :=
  ∃ v, e = .msg ("unknown time encoding " ++ lib.Quote v) ∨
    e = .msg ("unknown duration encoding " ++ lib.Quote v) ∨
    e = .msg ("unknown encoding " ++ lib.Quote v) ∨
    e = .msg ("unknown rsyslog type encoding " ++ lib.Quote v)

/-- The encoder configuration an encoder value carries. -/
def Encoder.config : Encoder → EncoderConfig
  | .NewMixedEncoder cfg => cfg
  | .NewJSONEncoder cfg => cfg
  | .NewConsoleEncoder cfg => cfg
  | .Rsyslog e => e.inner.cfg
  | .RsyslogAccess e => e.inner.cfg

/-- The buffer of the second encoder is the buffer of the first with text appended. -/
def jsonEncoder.Extends (a b : jsonEncoder) : Prop := ∃ s, b.buf = a.buf ++ s

/-- Whether the `Interface` slot of a field holds an array marshaler. -/
def Field.carriesMarshaler (f : Field) : Bool :=
  match f.Interface with
  | .arrayMarshaler _ => true
  | _ => false

/-- The configuration of the rsyslog branch with the default encodings. -/
def sampleRsyslogConfig : EncoderConfig :=
  rsyslogConfig .ISO8601TimeEncoder .SecondsDurationEncoder

/-- An event at info level logged on 4 May 2021 at 10:20:30.123456 by the logger `svc`. -/
def sampleEntry : Entry :=
  { Level := .InfoLevel, Time := ⟨2021, 5, 4, 10, 20, 30, 123456000⟩, LoggerName := "svc",
    Message := "hello", Caller := ⟨false, "", ""⟩, Stack := "" }

/-- A string field `user` with the value `bob`. -/
def userField : Field :=
  { Key := "user", Type_ := .StringType, Integer := 0, String_ := "bob", Interface := .null }

/-- A 32-bit integer field `http_code` with the value 200. -/
def httpCodeField : Field :=
  { Key := "http_code", Type_ := .Int32Type, Integer := 200, String_ := "",
    Interface := .null }

/-- The default configuration on the target `stderr?level=`. -/
def emptyLevelConfig : Config := configFor "stderr?level="

/-- The default configuration on an rsyslog target with the encoding `yaml`. -/
def rsyslogYamlConfig : Config :=
  configFor "rsyslog://loghost/app.log?app-name=web&encoding=yaml"

/-- The default configuration on an rsyslog target without an encoding. -/
def rsyslogPlainConfig : Config := configFor "rsyslog://loghost/app.log?app-name=web"

/-- Whether the error encoder takes a field out of the fields it passes through. -/
def errorReclassifies (f : Field) : Bool :=
  decide (f.Key = "component" ∨ f.Key = "contextID" ∨ f.Key = "context_id")

/-- Whether the key of a field is in the table of the access encoder. -/
def accessReclassifies (f : Field) : Bool :=
  decide (f.Key ∈ ["handler", "carbonapi_uuid", "peer_ip", "targets", "metrics", "runtime",
    "http_code", "from", "until"])

/-- The last lines of both `EncodeEntry` methods: the catch-all is embedded as a
string under the key `extra`, the namespaces of the body encoder are closed, and
a closing brace and a newline end the line. -/
def finishLine (final extra : jsonEncoder) : String :=
  ((((final.AddString "extra" ("\x7b" ++ extra.buf ++ "\x7d")).closeOpenNamespaces).AppendByte
    '\x7d').AppendByte '\n').buf

/-- A `targets` field whose array marshaler appends `a.b` and `c` and then fails. -/
def failingTargetsField : Field :=
  { Key := "targets", Type_ := .ArrayMarshalerType, Integer := 0, String_ := "",
    Interface := .arrayMarshaler ⟨[.AppendString "a.b", .AppendString "c"],
      some (.msg "marshal failed")⟩ }

/-- A string field keyed `targets`, as `zap.String` builds it. -/
def stringTargetsField : Field :=
  { Key := "targets", Type_ := .StringType, Integer := 0, String_ := "a.b",
    Interface := .null }

/-- A namespace field `ns`, as `zap.Namespace` builds it. -/
def namespaceField : Field :=
  { Key := "ns", Type_ := .NamespaceType, Integer := 0, String_ := "", Interface := .null }

/-- A 64-bit integer field `count` with the value 1. -/
def countField : Field :=
  { Key := "count", Type_ := .Int64Type, Integer := 1, String_ := "", Interface := .null }

/-- The error encoder of the application `web` on the host `loghost`. -/
def sampleErrorEncoder : RsyslogEncoder :=
  { inner := newJSONEncoder sampleRsyslogConfig false, appName := "web", hostname := "loghost" }

/-- The access encoder of the application `web` on the host `loghost`. -/
def sampleAccessEncoder : RsyslogAccessEncoder :=
  { inner := newJSONEncoder sampleRsyslogConfig false, appName := "web", hostname := "loghost" }

/-- The error encoder after the namespace `ns` was opened on it, as a logger
derived with the field `zap.Namespace` holds it. -/
def namespacedErrorEncoder : RsyslogEncoder :=
  { inner := (newJSONEncoder sampleRsyslogConfig false).OpenNamespace "ns",
    appName := "web", hostname := "loghost" }

/-- The catch-all of both `EncodeEntry` methods before the fields are added: a
clone seeded with the buffer of the encoder, then the caller and the stack of
the event when they are present and configured. -/
def extraStart (inner : jsonEncoder) (ent : Entry) : jsonEncoder :=
  let extra := inner.clone.write inner.buf
  let extra :=
    if ent.Caller.Defined = true ∧ inner.cfg.CallerKey ≠ "" then
      match inner.cfg.EncodeCaller with
      | some encodeCaller => encodeCaller.apply ent.Caller (extra.addKey "caller")
      | none => extra
    else extra
  if ent.Stack ≠ "" ∧ inner.cfg.StacktraceKey ≠ "" then
    extra.AddString inner.cfg.StacktraceKey ent.Stack
  else extra

/-- The body encoder of both `EncodeEntry` methods after the header and the
opening brace. -/
def bodyStart (inner : jsonEncoder) (ent : Entry) (hostname appName : String) : jsonEncoder :=
  ((((((((inner.clone.write (ent.Time.Format "Jan 02 15:04:05")).AppendByte ' ').write
    hostname).AppendByte ' ').write appName).AppendByte ':').AppendByte ' ').AppendByte '\x7b')

/-- The step of both `EncodeEntry` methods that writes the level when a level key
and a level encoder are configured. -/
def levelStep (inner : jsonEncoder) (ent : Entry) (final : jsonEncoder) : jsonEncoder :=
  if inner.cfg.LevelKey ≠ "" then
    match inner.cfg.EncodeLevel with
    | some encodeLevel => encodeLevel.apply ent.Level (final.addKey "level")
    | none => final
  else final

/-- The body encoder of `RsyslogEncoder.EncodeEntry` after its fixed keys, for a
component and a context id. -/
def RsyslogEncoder.fixedKeys (enc : RsyslogEncoder) (ent : Entry) (component : String)
    (contextID : Int) : jsonEncoder :=
  let eventDatetimeISO := ent.Time.Format "2006-01-02T15:04:05.000000"
  let final := bodyStart enc.inner ent enc.hostname enc.appName
  let final := final.AddString "component" component
  let final := final.AddInt64 "context_id" contextID
  let final := final.AddString "event_datetime" eventDatetimeISO
  let final := final.AddString "event_date" (String.mk (eventDatetimeISO.data.take 10))
  let final := final.AddString "msg" ent.Message
  levelStep enc.inner ent final

/-- The body encoder of `RsyslogAccessEncoder.EncodeEntry` after its fixed keys. -/
def RsyslogAccessEncoder.fixedKeys (enc : RsyslogAccessEncoder) (ent : Entry) : jsonEncoder :=
  let eventDatetimeISO := ent.Time.Format "2006-01-02T15:04:05.000000"
  let final := bodyStart enc.inner ent enc.hostname enc.appName
  let final := final.AddString "event_datetime" eventDatetimeISO
  let final := final.AddString "event_date" (String.mk (eventDatetimeISO.data.take 10))
  let final := final.AddString "msg" ent.Message
  let final := final.AddString "hostname" enc.hostname
  let final := final.AddString "component" ent.LoggerName
  levelStep enc.inner ent final

/-- Whether `addElementSeparator` writes a separator after a buffer with this
text: the text is not empty and does not end in an opening brace or bracket, a
colon, a comma or a space. -/
def needsSeparator (buf : String) : Bool :=
  match buf.data.getLast? with
  | none => false
  | some c => !decide (c = '\x7b' ∨ c = '[' ∨ c = ':' ∨ c = ',' ∨ c = ' ')

/-- The escaped form of a text, as `safeAddString` writes it. -/
def escape (s : String) : String := String.mk (safeChars s.data)

/-- The last field of a list that has a property. -/
def lastWith (p : Field → Bool) : List Field → Option Field
  | [] => none
  | f :: rest =>
    match lastWith p rest with
    | some g => some g
    | none => if p f then some f else none

/-- The string of the last field keyed `component`, else the logger name of the event. -/
def componentOf (ent : Entry) (fields : List Field) : String :=
  match lastWith (fun f => decide (f.Key = "component")) fields with
  | some f => f.String_
  | none => ent.LoggerName

/-- The integer of the last field keyed `contextID` or `context_id`, else 0. -/
def contextIDOf (fields : List Field) : Int :=
  match lastWith (fun f => decide (f.Key = "contextID" ∨ f.Key = "context_id")) fields with
  | some f => f.Integer
  | none => 0

/-- The text of a level as a level encoder writes it. -/
def LevelEncoder.text (e : LevelEncoder) (l : Level) : String :=
  match e with
  | .CapitalLevelEncoder => l.CapitalString
  | .LowercaseLevelEncoder => l.String_

/-- A 64-bit integer field `contextID` with the value 7. -/
def contextField : Field :=
  { Key := "contextID", Type_ := .Int64Type, Integer := 7, String_ := "",
    Interface := .null }

/-- A string field `component` with the value `billing`. -/
def componentField : Field :=
  { Key := "component", Type_ := .StringType, Integer := 0, String_ := "billing",
    Interface := .null }

/-- Whether the type of a field agrees with its slots, as the field constructors
of zap ensure: a field of the array type carries an array marshaler. -/
def Field.WellFormed (f : Field) : Bool :=
  !decide (f.Type_ = .ArrayMarshalerType) || f.carriesMarshaler

/-- A 64-bit integer field `from` with the value 2^32 + 5, outside the 32-bit range. -/
def wideFromField : Field :=
  { Key := "from", Type_ := .Int64Type, Integer := 4294967301, String_ := "",
    Interface := .null }

/-- A field `x` of the array type whose `Interface` slot is nil. -/
def orphanArrayField : Field :=
  { Key := "x", Type_ := .ArrayMarshalerType, Integer := 0, String_ := "",
    Interface := .null }

/-- A `targets` field whose array marshaler appends `a.b` and `c` and returns no error. -/
def quietTargetsField : Field :=
  { Key := "targets", Type_ := .ArrayMarshalerType, Integer := 0, String_ := "",
    Interface := .arrayMarshaler ⟨[.AppendString "a.b", .AppendString "c"], none⟩ }

/-! ## Resolution: level, branches and errors -/

/-- The rsyslog branch returns when the application name is present and the
host name can be read. -/
theorem encoderRsyslog_returns (lib : Lib) (c : Config) (u : URL) (host : String)
    (happ : Values.Get u.Query "app-name" ≠ "") (hhost : lib.Hostname = .ok host) :
    ∃ p, c.encoderRsyslog lib u = .ret p := by
  unfold Config.encoderRsyslog
  simp only [NewRsyslogEncoder, NewRsyslogAccessEncoder, hhost, Outcome.bind, if_neg happ]
  split
  · exact ⟨_, rfl⟩
  · split
    · exact ⟨_, rfl⟩
    · split
      · exact ⟨_, rfl⟩
      · split
        · exact ⟨_, rfl⟩
        · exact ⟨_, rfl⟩

/-- C1 (as amended): when the target parses and its query carries a non-empty
`level` that names a level, and an rsyslog target carries an application name on
a machine whose host name can be read, `Config.encoder` returns a level holder
set to the level the query names, whatever `Config.Level` is and whether or not
an encoder error is returned with it. -/
theorem encoder_query_level_dominates (lib : Lib) (c : Config) (u : URL) (l : Level)
    (hparse : lib.urlParse c.File = .ok u)
    (hne : Values.Get u.Query "level" ≠ "")
    (hlevel : Level.UnmarshalText lib (Values.Get u.Query "level") = .ok l)
    (hrsyslog : u.Scheme = "rsyslog" →
      Values.Get u.Query "app-name" ≠ "" ∧ ∃ host, lib.Hostname = .ok host) :
    ∃ e err, c.encoder lib = .ret (e, ⟨l⟩, err) := by
  unfold Config.encoder
  simp only [hparse, if_neg hne, hlevel, AtomicLevel.SetLevel]
  by_cases hs : u.Scheme = "rsyslog"
  · obtain ⟨happ, host, hhost⟩ := hrsyslog hs
    obtain ⟨p, hp⟩ := encoderRsyslog_returns lib c u host happ hhost
    simp only [if_pos hs, hp, Outcome.bind]
    split
    · exact ⟨_, _, rfl⟩
    · exact ⟨_, _, rfl⟩
  · simp only [if_neg hs, Outcome.bind]
    split
    · exact ⟨_, _, rfl⟩
    · exact ⟨_, _, rfl⟩

/-- C1, witness: the default configuration at level info with the target
`stderr?level=debug` resolves to a holder at debug. -/
theorem encoder_query_level_dominates_witness :
    ∃ e err, (configFor "stderr?level=debug").encoder refLib = .ret (e, ⟨.DebugLevel⟩, err) :=
  encoder_query_level_dominates refLib (configFor "stderr?level=debug")
    { Scheme := "", Path := "stderr", Query := [("level", "debug")] } .DebugLevel
    rfl (by decide) rfl (fun h => absurd h (by decide))

/-- C1, counterexample: the target `rsyslog://loghost/app.log?level=debug` parses
and its query names the level debug, yet `Config.encoder` returns no level
holder: the call panics for want of an application name; and with an
application name it panics on a machine whose host name cannot be read. -/
theorem encoder_query_level_counterexample :
    refLib.urlParse (configFor "rsyslog://loghost/app.log?level=debug").File
        = .ok { Scheme := "rsyslog", Path := "/app.log", Query := [("level", "debug")] } ∧
      Level.UnmarshalText refLib "debug" = .ok .DebugLevel ∧
      (¬ ∃ e err, (configFor "rsyslog://loghost/app.log?level=debug").encoder refLib
          = .ret (e, ⟨.DebugLevel⟩, err)) ∧
      (configFor "rsyslog://loghost/app.log?level=debug").encoder refLib
          = .panic "app-name is required" ∧
      (configFor "rsyslog://loghost/app.log?app-name=web&level=debug").encoder refLibNoHost
          = .panic "could not get hostname: hostname unavailable" := by
  refine ⟨rfl, rfl, ?_, rfl, rfl⟩
  rintro ⟨e, err, h⟩
  have hp : (configFor "rsyslog://loghost/app.log?level=debug").encoder refLib
      = .panic "app-name is required" := rfl
  rw [hp] at h
  cases h

/-- The message of a level error differs from the message of an unknown time encoding. -/
theorem level_ne_time (a b : String) :
    "unrecognized level: " ++ a ≠ "unknown time encoding " ++ b := by
  intro h
  have h2 := congrArg String.data h
  simp [String.data_append] at h2

/-- The message of a level error differs from the message of an unknown duration encoding. -/
theorem level_ne_duration (a b : String) :
    "unrecognized level: " ++ a ≠ "unknown duration encoding " ++ b := by
  intro h
  have h2 := congrArg String.data h
  simp [String.data_append] at h2

/-- The message of a level error differs from the message of an unknown encoding. -/
theorem level_ne_encoding (a b : String) :
    "unrecognized level: " ++ a ≠ "unknown encoding " ++ b := by
  intro h
  have h2 := congrArg String.data h
  simp [String.data_append] at h2

/-- The message of a level error differs from the message of an unknown rsyslog type. -/
theorem level_ne_type (a b : String) :
    "unrecognized level: " ++ a ≠ "unknown rsyslog type encoding " ++ b := by
  intro h
  have h2 := congrArg String.data h
  simp [String.data_append] at h2

/-- An error of the two branches is never a level error. -/
theorem UnknownOptionError.ne_level (lib : Lib) (e : GoError) (w : String)
    (h : UnknownOptionError lib e) : e ≠ .msg ("unrecognized level: " ++ w) := by
  obtain ⟨v, h | h | h | h⟩ := h <;> subst h <;> intro hc <;> injection hc with hc
  · exact level_ne_time _ _ hc.symm
  · exact level_ne_duration _ _ hc.symm
  · exact level_ne_encoding _ _ hc.symm
  · exact level_ne_type _ _ hc.symm

/-- The local branch, with its two switches named. -/
theorem encoderLocal_eq (lib : Lib) (c : Config) (u : URL) (enc t d : String)
    (henc : enc = if Values.Get u.Query "encoding" = "" then c.Encoding
      else Values.Get u.Query "encoding")
    (ht : t = if Values.Get u.Query "encoding-time" = "" then c.EncodingTime
      else Values.Get u.Query "encoding-time")
    (hd : d = if Values.Get u.Query "encoding-duration" = "" then c.EncodingDuration
      else Values.Get u.Query "encoding-duration") :
    c.encoderLocal lib u =
      match timeSwitch (lib.ToLower t) with
      | none => (none, some (.msg ("unknown time encoding " ++ lib.Quote t)))
      | some te =>
        match durationSwitch (lib.ToLower d) with
        | none => (none, some (.msg ("unknown duration encoding " ++ lib.Quote d)))
        | some de =>
          if lib.ToLower enc = "mixed" ∨ lib.ToLower enc = "" then
            (some (.NewMixedEncoder (localConfig te de)), none)
          else if lib.ToLower enc = "json" then
            (some (.NewJSONEncoder (localConfig te de)), none)
          else if lib.ToLower enc = "console" then
            (some (.NewConsoleEncoder (localConfig te de)), none)
          else (none, some (.msg ("unknown encoding " ++ lib.Quote enc))) := by
  subst henc ht hd
  rfl

/-- The rsyslog branch, with its two switches named. -/
theorem encoderRsyslog_eq (lib : Lib) (c : Config) (u : URL) (t d : String)
    (ht : t = if Values.Get u.Query "encoding-time" = "" then c.EncodingTime
      else Values.Get u.Query "encoding-time")
    (hd : d = if Values.Get u.Query "encoding-duration" = "" then c.EncodingDuration
      else Values.Get u.Query "encoding-duration") :
    c.encoderRsyslog lib u =
      match timeSwitch (lib.ToLower t) with
      | none => .ret (none, some (.msg ("unknown time encoding " ++ lib.Quote t)))
      | some te =>
        match durationSwitch (lib.ToLower d) with
        | none => .ret (none, some (.msg ("unknown duration encoding " ++ lib.Quote d)))
        | some de =>
          if Values.Get u.Query "app-name" = "" then .panic "app-name is required"
          else if lib.ToLower c.Type_ = "" ∨ lib.ToLower c.Type_ = "err" then
            (NewRsyslogEncoder lib (rsyslogConfig te de) (Values.Get u.Query "app-name")).bind
              fun e => .ret (some e, none)
          else if lib.ToLower c.Type_ = "access" then
            (NewRsyslogAccessEncoder lib (rsyslogConfig te de)
              (Values.Get u.Query "app-name")).bind fun e => .ret (some e, none)
          else .ret (none, some (.msg ("unknown rsyslog type encoding " ++ lib.Quote c.Type_))) := by
  subst ht hd
  rfl

/-- Every error of the local branch is one of the unknown-option errors. -/
theorem encoderLocal_error (lib : Lib) (c : Config) (u : URL) (e : GoError)
    (h : (c.encoderLocal lib u).2 = some e) : UnknownOptionError lib e := by
  rw [encoderLocal_eq lib c u _ _ _ rfl rfl rfl] at h
  split at h
  · simp only [Option.some.injEq] at h
    exact ⟨_, Or.inl h.symm⟩
  · split at h
    · simp only [Option.some.injEq] at h
      exact ⟨_, Or.inr (Or.inl h.symm)⟩
    · split_ifs at h <;> simp only [Option.some.injEq, reduceCtorEq] at h
      all_goals exact ⟨_, Or.inr (Or.inr (Or.inl h.symm))⟩

/-- Every error of the rsyslog branch is one of the unknown-option errors. -/
theorem encoderRsyslog_error (lib : Lib) (c : Config) (u : URL) (x : Option Encoder)
    (e : GoError) (h : c.encoderRsyslog lib u = .ret (x, some e)) :
    UnknownOptionError lib e := by
  rw [encoderRsyslog_eq lib c u _ _ rfl rfl] at h
  split at h
  · simp only [Outcome.ret.injEq, Prod.mk.injEq, Option.some.injEq] at h
    exact ⟨_, Or.inl h.2.symm⟩
  · split at h
    · simp only [Outcome.ret.injEq, Prod.mk.injEq, Option.some.injEq] at h
      exact ⟨_, Or.inr (Or.inl h.2.symm)⟩
    · simp only [NewRsyslogEncoder, NewRsyslogAccessEncoder] at h
      cases hh : lib.Hostname <;>
        simp only [hh, Outcome.bind] at h <;>
        split_ifs at h <;>
        simp only [Outcome.ret.injEq, Prod.mk.injEq, Option.some.injEq, reduceCtorEq,
          and_false, false_and] at h
      all_goals exact ⟨_, Or.inr (Or.inr (Or.inr h.2.symm))⟩

/-- The strings the one-argument core of the level parser rejects. -/
theorem unmarshalText_eq_none (s : String) :
    Level.unmarshalText s = none ↔
      s ∉ ["debug", "DEBUG", "info", "INFO", "", "warn", "WARN", "error", "ERROR",
        "dpanic", "DPANIC", "panic", "PANIC", "fatal", "FATAL"] := by
  unfold Level.unmarshalText
  simp only [List.mem_cons, List.mem_singleton, List.not_mem_nil, or_false, not_or]
  split_ifs with h1 h2 h3 h4 h5 h6 h7 <;> simp only [reduceCtorEq, false_iff, true_iff] <;>
    tauto

/-- Once the level is accepted, `Config.encoder` does not return a level error. -/
theorem encoder_no_level_error (lib : Lib) (c : Config) (u : URL) (l : Level) (w : String)
    (lvl : AtomicLevel) (hparse : lib.urlParse c.File = .ok u)
    (hU : Level.UnmarshalText lib (if Values.Get u.Query "level" = "" then c.Level
      else Values.Get u.Query "level") = .ok l) :
    c.encoder lib ≠ .ret (none, lvl, some (.msg ("unrecognized level: " ++ w))) := by
  intro h
  unfold Config.encoder at h
  simp only [hparse, hU, AtomicLevel.SetLevel] at h
  by_cases hs : u.Scheme = "rsyslog"
  · rw [if_pos hs] at h
    cases hr : c.encoderRsyslog lib u with
    | panic v => rw [hr] at h; cases h
    | ret p =>
      rw [hr] at h
      obtain ⟨x, e⟩ := p
      cases e with
      | none => simp [Outcome.bind] at h
      | some e =>
        simp only [Outcome.bind, Outcome.ret.injEq, Prod.mk.injEq, Option.some.injEq] at h
        exact (encoderRsyslog_error lib c u x e hr).ne_level lib e _ h.2.2
  · rw [if_neg hs] at h
    cases he : (c.encoderLocal lib u).2 with
    | none => simp [Outcome.bind, he] at h
    | some e =>
      simp only [Outcome.bind, he, Outcome.ret.injEq, Prod.mk.injEq, Option.some.injEq] at h
      exact (encoderLocal_error lib c u e he).ne_level lib e _ h.2.2

/-- C2 (as amended): for a target that parses, `Config.encoder` fails with the
level error, `unrecognized level:` followed by the quoted effective level (the
query `level` if non-empty, else `Config.Level`), if and only if neither that
string nor its lowercased form is a level name in lower or upper case or the
empty string; the empty string is accepted and means info. -/
theorem encoder_level_error_iff (lib : Lib) (c : Config) (u : URL)
    (hparse : lib.urlParse c.File = .ok u) :
    (c.encoder lib = .ret (none, NewAtomicLevel, some (.msg ("unrecognized level: " ++
          lib.Quote (if Values.Get u.Query "level" = "" then c.Level
            else Values.Get u.Query "level")))) ↔
        Level.unmarshalText (if Values.Get u.Query "level" = "" then c.Level
            else Values.Get u.Query "level") = none ∧
          Level.unmarshalText (lib.ToLower (if Values.Get u.Query "level" = "" then c.Level
            else Values.Get u.Query "level")) = none) ∧
      (∀ s, Level.unmarshalText s = none ↔
        s ∉ ["debug", "DEBUG", "info", "INFO", "", "warn", "WARN", "error", "ERROR",
          "dpanic", "DPANIC", "panic", "PANIC", "fatal", "FATAL"]) ∧
      Level.UnmarshalText lib "" = .ok .InfoLevel := by
  refine ⟨⟨?_, ?_⟩, unmarshalText_eq_none, rfl⟩
  · intro h
    cases h1 : Level.unmarshalText (if Values.Get u.Query "level" = "" then c.Level
        else Values.Get u.Query "level") with
    | none =>
      cases h2 : Level.unmarshalText (lib.ToLower (if Values.Get u.Query "level" = ""
          then c.Level else Values.Get u.Query "level")) with
      | none => exact ⟨rfl, rfl⟩
      | some l =>
        exact absurd h (encoder_no_level_error lib c u l _ _ hparse
          (by simp only [Level.UnmarshalText, h1, h2]))
    | some l =>
      exact absurd h (encoder_no_level_error lib c u l _ _ hparse
        (by simp only [Level.UnmarshalText, h1]))
  · rintro ⟨h1, h2⟩
    unfold Config.encoder
    simp only [hparse, Level.UnmarshalText, h1, h2]

/-- C2, witness: the level `verbose` on the target `stderr` is rejected with the
level error. -/
theorem encoder_level_error_iff_witness :
    ({ NewConfig with Level := "verbose" } : Config).encoder refLib =
      .ret (none, NewAtomicLevel, some (.msg "unrecognized level: \"verbose\"")) :=
  ((encoder_level_error_iff refLib { NewConfig with Level := "verbose" }
    { Scheme := "", Path := "stderr", Query := [] } rfl).1).2 ⟨rfl, rfl⟩

/-- C2, counterexample: with the valid level `info` and the encoding `yaml`,
`Config.encoder` fails although the level is a level name; and with an empty
effective level, which is not a level name, `Config.encoder` succeeds at info. -/
theorem encoder_level_iff_counterexample :
    ({ NewConfig with Encoding := "yaml" } : Config).encoder refLib =
        .ret (none, ⟨.InfoLevel⟩, some (.msg "unknown encoding \"yaml\"")) ∧
      ({ NewConfig with Level := "" } : Config).encoder refLib =
        .ret (some (.NewMixedEncoder (localConfig .ISO8601TimeEncoder .SecondsDurationEncoder)),
          ⟨.InfoLevel⟩, none) :=
  ⟨rfl, rfl⟩

/-- C3, the code at the failing input: on the target
`rsyslog://loghost/var/log/app.log`, which has a valid level and valid time and
duration encodings and no `app-name`, `Config.encoder`, `Check` and
`BuildLogger` all panic with `app-name is required` instead of returning an error. -/
theorem rsyslog_missing_app_name_panics :
    (configFor "rsyslog://loghost/var/log/app.log").encoder refLib
        = .panic "app-name is required" ∧
      (configFor "rsyslog://loghost/var/log/app.log").Check refLib
        = .panic "app-name is required" ∧
      (configFor "rsyslog://loghost/var/log/app.log").BuildLogger refLib
        = .panic "app-name is required" :=
  ⟨rfl, rfl, rfl⟩

/-! ## Check and BuildLogger -/

/-- The result of `build` in terms of the result of `Config.encoder`, for a
target that parses. -/
theorem build_eq (lib : Lib) (c : Config) (u : URL) (checkOnly : Bool)
    (hparse : lib.urlParse c.File = .ok u) :
    c.build lib checkOnly =
      (c.encoder lib).bind fun r =>
        match r.2.2 with
        | some err => .ret { logger := none, err := some err, sinkCalls := [] }
        | none =>
          if checkOnly then .ret { logger := none, err := none, sinkCalls := [] }
          else if lib.ToLower u.Path = "none" then
            .ret { logger := some .NewNop, err := none, sinkCalls := [] }
          else
            match lib.New c.File with
            | .error err => .ret { logger := none, err := some err, sinkCalls := [c.File] }
            | .ok ws =>
              .ret { logger := some (.New r.1 ws r.2.1), err := none,
                     sinkCalls := [c.File] } := by
  unfold Config.build
  simp only [hparse]

/-- C4 (as amended): a checking pass never calls the sink constructor and returns
no logger; every error and every panic of `Check` is the result of
`BuildLogger` too; `BuildLogger` returning a nil error implies `Check` returns
nil; and when `Check` returns nil, `BuildLogger` succeeds if the path is `none`
ignoring case or the sink constructor succeeds, and returns the error of the
sink constructor otherwise. -/
theorem check_and_build (lib : Lib) (c : Config) :
    (∀ r, c.build lib true = .ret r → r.logger = none ∧ r.sinkCalls = []) ∧
      (∀ e, c.Check lib = .ret (some e) → c.BuildLogger lib = .ret (none, some e)) ∧
      (∀ v, c.Check lib = .panic v → c.BuildLogger lib = .panic v) ∧
      (∀ lg, c.BuildLogger lib = .ret (lg, none) → c.Check lib = .ret none) ∧
      (c.Check lib = .ret none →
        ∃ u, lib.urlParse c.File = .ok u ∧
          (lib.ToLower u.Path = "none" → c.BuildLogger lib = .ret (some .NewNop, none)) ∧
          (lib.ToLower u.Path ≠ "none" → ∀ ws, lib.New c.File = .ok ws →
            ∃ lg, c.BuildLogger lib = .ret (some lg, none)) ∧
          (lib.ToLower u.Path ≠ "none" → ∀ e, lib.New c.File = .error e →
            c.BuildLogger lib = .ret (none, some e))) := by
  unfold Config.Check Config.BuildLogger
  cases hparse : lib.urlParse c.File with
  | error err =>
    have hb : ∀ b, c.build lib b = .ret ⟨none, some (.url err), []⟩ := by
      intro b
      unfold Config.build
      simp only [hparse]
    simp [hb, Outcome.bind]
  | ok u =>
    simp only [build_eq lib c u _ hparse]
    cases henc : c.encoder lib with
    | panic v => simp [Outcome.bind]
    | ret r =>
      obtain ⟨enc, lvl, err⟩ := r
      cases err with
      | some e0 => simp [Outcome.bind]
      | none =>
        simp only [Outcome.bind, Bool.false_eq_true, if_false, if_true, Outcome.ret.injEq,
          reduceCtorEq, false_implies, implies_true, true_and, forall_const]
        refine ⟨fun r hr => by subst hr; exact ⟨rfl, rfl⟩, ⟨u, rfl, ?_, ?_, ?_⟩⟩
        · intro h
          simp only [if_pos h]
        · intro h ws hws
          simp only [if_neg h, hws]
          exact ⟨_, rfl⟩
        · intro h e he
          simp only [if_neg h, he]

/-- C4, witness: with the reference library the default configuration passes
`Check`, and `BuildLogger` builds a logger over the sink of `stderr`. -/
theorem check_and_build_witness :
    NewConfig.Check refLib = .ret none ∧
      ∃ lg, NewConfig.BuildLogger refLib = .ret (some lg, none) :=
  ⟨rfl, by
    obtain ⟨u, hu, _, hsink, _⟩ := (check_and_build refLib NewConfig).2.2.2.2 rfl
    have hu2 : u = { Scheme := "", Path := "stderr", Query := [] } :=
      (Except.ok.inj hu).symm
    subst hu2
    exact hsink (by decide) _ rfl⟩

/-- C4, counterexample: with a sink constructor that fails, `Check` on the default
configuration returns nil while `BuildLogger` returns the error of the sink
constructor. -/
theorem check_iff_build_counterexample :
    NewConfig.Check refLibNoSink = .ret none ∧
      NewConfig.BuildLogger refLibNoSink
        = .ret (none, some (.msg "open: permission denied")) :=
  ⟨rfl, rfl⟩

/-- C5: when the target parses, `Config.encoder` succeeds and the lowercased path
is `none`, a building pass returns the no-op logger and a nil error and makes no
call of the sink constructor. -/
theorem build_none_is_nop (lib : Lib) (c : Config) (u : URL) (e : Option Encoder)
    (lvl : AtomicLevel)
    (hparse : lib.urlParse c.File = .ok u)
    (henc : c.encoder lib = .ret (e, lvl, none))
    (hnone : lib.ToLower u.Path = "none") :
    c.build lib false = .ret { logger := some .NewNop, err := none, sinkCalls := [] } ∧
      c.BuildLogger lib = .ret (some .NewNop, none) := by
  unfold Config.BuildLogger
  rw [build_eq lib c u _ hparse, henc]
  simp only [Outcome.bind, Bool.false_eq_true, if_false, if_pos hnone, and_self]

/-- C5, witness: the target `NONE?encoding=json&level=debug` builds the no-op
logger without a call of the sink constructor. -/
theorem build_none_is_nop_witness :
    (configFor "NONE?encoding=json&level=debug").build refLibNoSink false
        = .ret { logger := some .NewNop, err := none, sinkCalls := [] } ∧
      (configFor "NONE?encoding=json&level=debug").BuildLogger refLibNoSink
        = .ret (some .NewNop, none) :=
  build_none_is_nop refLibNoSink (configFor "NONE?encoding=json&level=debug")
    { Scheme := "", Path := "NONE", Query := [("encoding", "json"), ("level", "debug")] }
    (some (.NewJSONEncoder (localConfig .ISO8601TimeEncoder .SecondsDurationEncoder)))
    ⟨.DebugLevel⟩ rfl rfl rfl

/-! ## The options of the two branches -/

/-- The messages for an unknown time encoding and an unknown duration encoding differ. -/
theorem time_ne_duration (a b : String) :
    "unknown time encoding " ++ a ≠ "unknown duration encoding " ++ b := by
  intro h
  have h2 := congrArg String.data h
  simp [String.data_append] at h2

/-- The messages for an unknown time encoding and an unknown encoding differ. -/
theorem time_ne_encoding (a b : String) :
    "unknown time encoding " ++ a ≠ "unknown encoding " ++ b := by
  intro h
  have h2 := congrArg String.data h
  simp [String.data_append] at h2

/-- The messages for an unknown time encoding and an unknown rsyslog type differ. -/
theorem time_ne_type (a b : String) :
    "unknown time encoding " ++ a ≠ "unknown rsyslog type encoding " ++ b := by
  intro h
  have h2 := congrArg String.data h
  simp [String.data_append] at h2

/-- The messages for an unknown duration encoding and an unknown encoding differ. -/
theorem duration_ne_encoding (a b : String) :
    "unknown duration encoding " ++ a ≠ "unknown encoding " ++ b := by
  intro h
  have h2 := congrArg String.data h
  simp [String.data_append] at h2

/-- The messages for an unknown duration encoding and an unknown rsyslog type differ. -/
theorem duration_ne_type (a b : String) :
    "unknown duration encoding " ++ a ≠ "unknown rsyslog type encoding " ++ b := by
  intro h
  have h2 := congrArg String.data h
  simp [String.data_append] at h2

/-- The messages for an unknown encoding and an unknown rsyslog type differ. -/
theorem encoding_ne_type (a b : String) :
    "unknown encoding " ++ a ≠ "unknown rsyslog type encoding " ++ b := by
  intro h
  have h2 := congrArg String.data h
  simp [String.data_append] at h2

/-- The time switch rejects exactly the strings outside its five cases. -/
theorem timeSwitch_eq_none (s : String) :
    timeSwitch s = none ↔ s ∉ ["millis", "nanos", "epoch", "iso8601", ""] := by
  unfold timeSwitch
  simp only [List.mem_cons, List.mem_singleton, List.not_mem_nil, or_false, not_or]
  split_ifs <;> simp only [reduceCtorEq, false_iff, true_iff] <;> tauto

/-- The duration switch rejects exactly the strings outside its four cases. -/
theorem durationSwitch_eq_none (s : String) :
    durationSwitch s = none ↔ s ∉ ["seconds", "nanos", "string", ""] := by
  unfold durationSwitch
  simp only [List.mem_cons, List.mem_singleton, List.not_mem_nil, or_false, not_or]
  split_ifs <;> simp only [reduceCtorEq, false_iff, true_iff] <;> tauto

/-- C6: in the local branch with a valid time and a valid duration encoding, the
effective encoding (the query `encoding` if non-empty, else `Config.Encoding`),
lowercased, selects the mixed encoder when it is `mixed` or empty, the JSON
encoder when it is `json` and the console encoder when it is `console`, each
over the configuration of the local branch; every other value makes
`encoderLocal` return the unknown-encoding error and no encoder. -/
theorem encoderLocal_selects_encoding (lib : Lib) (c : Config) (u : URL) (enc t d : String)
    (henc : enc = if Values.Get u.Query "encoding" = "" then c.Encoding
      else Values.Get u.Query "encoding")
    (ht : t = if Values.Get u.Query "encoding-time" = "" then c.EncodingTime
      else Values.Get u.Query "encoding-time")
    (hd : d = if Values.Get u.Query "encoding-duration" = "" then c.EncodingDuration
      else Values.Get u.Query "encoding-duration")
    (htime : lib.ToLower t ∈ ["millis", "nanos", "epoch", "iso8601", ""])
    (hduration : lib.ToLower d ∈ ["seconds", "nanos", "string", ""]) :
    ∃ te de, timeSwitch (lib.ToLower t) = some te ∧ durationSwitch (lib.ToLower d) = some de ∧
      (lib.ToLower enc = "mixed" ∨ lib.ToLower enc = "" →
        c.encoderLocal lib u = (some (.NewMixedEncoder (localConfig te de)), none)) ∧
      (lib.ToLower enc = "json" →
        c.encoderLocal lib u = (some (.NewJSONEncoder (localConfig te de)), none)) ∧
      (lib.ToLower enc = "console" →
        c.encoderLocal lib u = (some (.NewConsoleEncoder (localConfig te de)), none)) ∧
      (lib.ToLower enc ∉ ["mixed", "", "json", "console"] →
        c.encoderLocal lib u = (none, some (.msg ("unknown encoding " ++ lib.Quote enc)))) := by
  rw [encoderLocal_eq lib c u enc t d henc ht hd]
  cases hte : timeSwitch (lib.ToLower t) with
  | none => exact absurd htime ((timeSwitch_eq_none _).1 hte)
  | some te =>
    cases hde : durationSwitch (lib.ToLower d) with
    | none => exact absurd hduration ((durationSwitch_eq_none _).1 hde)
    | some de =>
      refine ⟨te, de, rfl, rfl, ?_, ?_, ?_, ?_⟩
      · intro h
        simp only [if_pos h]
      · intro h
        have h1 : ¬ (lib.ToLower enc = "mixed" ∨ lib.ToLower enc = "") := by
          rw [h]; decide
        simp only [if_neg h1, if_pos h]
      · intro h
        have h1 : ¬ (lib.ToLower enc = "mixed" ∨ lib.ToLower enc = "") := by
          rw [h]; decide
        have h2 : ¬ lib.ToLower enc = "json" := by
          rw [h]; decide
        simp only [if_neg h1, if_neg h2, if_pos h]
      · intro h
        simp only [List.mem_cons, List.mem_singleton, List.not_mem_nil, or_false, not_or] at h
        have h1 : ¬ (lib.ToLower enc = "mixed" ∨ lib.ToLower enc = "") := by
          rintro (h1 | h1)
          · exact h.1 h1
          · exact h.2.1 h1
        simp only [if_neg h1, if_neg h.2.2.1, if_neg h.2.2.2]

/-- C6, witness: on the target `stderr?encoding=JSON` the default configuration
selects the JSON encoder. -/
theorem encoderLocal_selects_encoding_witness :
    (configFor "stderr?encoding=JSON").encoderLocal refLib
        { Scheme := "", Path := "stderr", Query := [("encoding", "JSON")] }
      = (some (.NewJSONEncoder (localConfig .ISO8601TimeEncoder .SecondsDurationEncoder)),
          none) := by
  obtain ⟨te, de, hte, hde, _, hjson, _, _⟩ :=
    encoderLocal_selects_encoding refLib (configFor "stderr?encoding=JSON")
      { Scheme := "", Path := "stderr", Query := [("encoding", "JSON")] }
      "JSON" "iso8601" "seconds" rfl rfl rfl (by decide) (by decide)
  have h1 : te = .ISO8601TimeEncoder := (Option.some.inj hte).symm
  have h2 : de = .SecondsDurationEncoder := (Option.some.inj hde).symm
  subst h1 h2
  exact hjson rfl

/-- The time encoder an encoder returned by the local branch carries. -/
theorem encoderLocal_config (lib : Lib) (c : Config) (u : URL) (t d : String)
    (ht : t = if Values.Get u.Query "encoding-time" = "" then c.EncodingTime
      else Values.Get u.Query "encoding-time")
    (hd : d = if Values.Get u.Query "encoding-duration" = "" then c.EncodingDuration
      else Values.Get u.Query "encoding-duration")
    (e : Encoder) (h : (c.encoderLocal lib u).1 = some e) :
    e.config.EncodeTime = timeSwitch (lib.ToLower t) ∧
      e.config.EncodeDuration = durationSwitch (lib.ToLower d) := by
  rw [encoderLocal_eq lib c u _ t d rfl ht hd] at h
  cases hte : timeSwitch (lib.ToLower t) with
  | none => simp [hte] at h
  | some te =>
    cases hde : durationSwitch (lib.ToLower d) with
    | none => simp [hte, hde] at h
    | some de =>
      simp only [hte, hde] at h
      split_ifs at h <;> simp only [Option.some.injEq, reduceCtorEq] at h <;> subst h <;>
        exact ⟨rfl, rfl⟩

/-- The time encoder an encoder returned by the rsyslog branch carries. -/
theorem encoderRsyslog_config (lib : Lib) (c : Config) (u : URL) (t d : String)
    (ht : t = if Values.Get u.Query "encoding-time" = "" then c.EncodingTime
      else Values.Get u.Query "encoding-time")
    (hd : d = if Values.Get u.Query "encoding-duration" = "" then c.EncodingDuration
      else Values.Get u.Query "encoding-duration")
    (e : Encoder) (err : Option GoError) (h : c.encoderRsyslog lib u = .ret (some e, err)) :
    e.config.EncodeTime = timeSwitch (lib.ToLower t) ∧
      e.config.EncodeDuration = durationSwitch (lib.ToLower d) := by
  rw [encoderRsyslog_eq lib c u t d ht hd] at h
  cases hte : timeSwitch (lib.ToLower t) with
  | none => simp [hte] at h
  | some te =>
    cases hde : durationSwitch (lib.ToLower d) with
    | none => simp [hte, hde] at h
    | some de =>
      simp only [hte, hde, NewRsyslogEncoder, NewRsyslogAccessEncoder] at h
      cases hh : lib.Hostname <;>
        simp only [hh, Outcome.bind] at h <;>
        split_ifs at h <;>
        simp only [Outcome.ret.injEq, Prod.mk.injEq, Option.some.injEq, reduceCtorEq,
          false_and] at h
      all_goals
        obtain ⟨h1, _⟩ := h
        subst h1
        exact ⟨rfl, rfl⟩

/-- C7: both branches resolve the time and the duration encoding alike.  With
the effective values (the query override if non-empty, else the Config field)
and an application name present: each branch returns the unknown-time-encoding
error exactly when the lowercased time encoding is none of millis, nanos, epoch,
iso8601 and empty; with an accepted time encoding each branch returns the
unknown-duration-encoding error exactly when the lowercased duration encoding is
none of seconds, nanos, string and empty; a rejected value makes both branches
return the same error; and an encoder returned by either branch carries the
time and duration encoders of the two switches, where empty selects iso8601 and
seconds. -/
theorem time_and_duration_resolution (lib : Lib) (c : Config) (u : URL) (t d : String)
    (ht : t = if Values.Get u.Query "encoding-time" = "" then c.EncodingTime
      else Values.Get u.Query "encoding-time")
    (hd : d = if Values.Get u.Query "encoding-duration" = "" then c.EncodingDuration
      else Values.Get u.Query "encoding-duration")
    (happ : Values.Get u.Query "app-name" ≠ "") :
    ((c.encoderLocal lib u).2 = some (.msg ("unknown time encoding " ++ lib.Quote t)) ↔
        lib.ToLower t ∉ ["millis", "nanos", "epoch", "iso8601", ""]) ∧
      (c.encoderRsyslog lib u = .ret (none, some (.msg ("unknown time encoding " ++ lib.Quote t)))
        ↔ lib.ToLower t ∉ ["millis", "nanos", "epoch", "iso8601", ""]) ∧
      (lib.ToLower t ∈ ["millis", "nanos", "epoch", "iso8601", ""] →
        ((c.encoderLocal lib u).2 = some (.msg ("unknown duration encoding " ++ lib.Quote d)) ↔
          lib.ToLower d ∉ ["seconds", "nanos", "string", ""]) ∧
        (c.encoderRsyslog lib u
            = .ret (none, some (.msg ("unknown duration encoding " ++ lib.Quote d))) ↔
          lib.ToLower d ∉ ["seconds", "nanos", "string", ""])) ∧
      (lib.ToLower t ∉ ["millis", "nanos", "epoch", "iso8601", ""] ∨
          lib.ToLower d ∉ ["seconds", "nanos", "string", ""] →
        ∃ e, c.encoderLocal lib u = (none, some e) ∧
          c.encoderRsyslog lib u = .ret (none, some e)) ∧
      (∀ e, (c.encoderLocal lib u).1 = some e ∨ (∃ err, c.encoderRsyslog lib u = .ret (some e, err)) →
        e.config.EncodeTime = timeSwitch (lib.ToLower t) ∧
          e.config.EncodeDuration = durationSwitch (lib.ToLower d)) ∧
      timeSwitch "" = some .ISO8601TimeEncoder ∧
      durationSwitch "" = some .SecondsDurationEncoder := by
  obtain ⟨enc, henc⟩ : ∃ enc, enc = if Values.Get u.Query "encoding" = "" then c.Encoding
      else Values.Get u.Query "encoding" := ⟨_, rfl⟩
  have hL := encoderLocal_eq lib c u enc t d henc ht hd
  have hR := encoderRsyslog_eq lib c u t d ht hd
  refine ⟨?_, ?_, ?_, ?_, ?_, rfl, rfl⟩
  · rw [hL, ← timeSwitch_eq_none]
    cases hte : timeSwitch (lib.ToLower t) with
    | none => simp
    | some te =>
      cases hde : durationSwitch (lib.ToLower d) with
      | none =>
        simp only [Option.some.injEq, GoError.msg.injEq, reduceCtorEq, iff_false]
        exact fun h => time_ne_duration _ _ h.symm
      | some de =>
        simp only [reduceCtorEq, iff_false]
        split_ifs <;> simp only [Option.some.injEq, GoError.msg.injEq, reduceCtorEq,
          not_false_eq_true]
        exact fun h => time_ne_encoding _ _ h.symm
  · rw [hR, ← timeSwitch_eq_none]
    cases hte : timeSwitch (lib.ToLower t) with
    | none => simp
    | some te =>
      cases hde : durationSwitch (lib.ToLower d) with
      | none =>
        simp only [Outcome.ret.injEq, Prod.mk.injEq, Option.some.injEq, GoError.msg.injEq,
          true_and, reduceCtorEq, iff_false]
        exact fun h => time_ne_duration _ _ h.symm
      | some de =>
        simp only [reduceCtorEq, iff_false, if_neg happ, NewRsyslogEncoder,
          NewRsyslogAccessEncoder]
        cases hh : lib.Hostname <;> simp only [Outcome.bind] <;> split_ifs <;>
          simp only [Outcome.ret.injEq, Prod.mk.injEq, Option.some.injEq, GoError.msg.injEq,
            reduceCtorEq, not_false_eq_true, false_and, true_and]
        all_goals exact fun h => time_ne_type _ _ h.symm
  · intro htime
    obtain ⟨te, hte⟩ : ∃ te, timeSwitch (lib.ToLower t) = some te := by
      cases hte : timeSwitch (lib.ToLower t) with
      | none => exact absurd htime ((timeSwitch_eq_none _).1 hte)
      | some te => exact ⟨te, rfl⟩
    rw [hL, hR, ← durationSwitch_eq_none, hte]
    cases hde : durationSwitch (lib.ToLower d) with
    | none => simp
    | some de =>
      simp only [reduceCtorEq, iff_false, if_neg happ, NewRsyslogEncoder,
        NewRsyslogAccessEncoder]
      constructor
      · split_ifs <;> simp only [Option.some.injEq, GoError.msg.injEq, reduceCtorEq,
          not_false_eq_true]
        exact fun h => duration_ne_encoding _ _ h.symm
      · cases hh : lib.Hostname <;> simp only [Outcome.bind] <;> split_ifs <;>
          simp only [Outcome.ret.injEq, Prod.mk.injEq, Option.some.injEq, GoError.msg.injEq,
            reduceCtorEq, not_false_eq_true, false_and, true_and]
        all_goals exact fun h => duration_ne_type _ _ h.symm
  · intro h
    rw [hL, hR]
    cases hte : timeSwitch (lib.ToLower t) with
    | none => exact ⟨_, rfl, rfl⟩
    | some te =>
      cases hde : durationSwitch (lib.ToLower d) with
      | none => exact ⟨_, rfl, rfl⟩
      | some de =>
        exfalso
        rcases h with h | h
        · rw [← timeSwitch_eq_none, hte] at h
          cases h
        · rw [← durationSwitch_eq_none, hde] at h
          cases h
  · rintro e (h | ⟨err, h⟩)
    · exact encoderLocal_config lib c u t d ht hd e h
    · exact encoderRsyslog_config lib c u t d ht hd e err h

/-- C7, witness: the time encoding `RFC3339` given in the query of an rsyslog
target with an application name is rejected by both branches with the same error. -/
theorem time_and_duration_resolution_witness :
    (NewConfig.encoderLocal refLib rsyslogTimeURL).2
        = some (.msg "unknown time encoding \"RFC3339\"") ∧
      NewConfig.encoderRsyslog refLib rsyslogTimeURL
        = .ret (none, some (.msg "unknown time encoding \"RFC3339\"")) :=
  ⟨(time_and_duration_resolution refLib NewConfig rsyslogTimeURL "RFC3339" "seconds"
      rfl rfl (by decide)).1.2 (by decide),
   (time_and_duration_resolution refLib NewConfig rsyslogTimeURL "RFC3339" "seconds"
      rfl rfl (by decide)).2.1.2 (by decide)⟩

/-- C8 (as amended): in the rsyslog branch with valid time and duration encodings
and a non-empty application name, `Config.Type` is compared after lowercasing:
empty or `err` gives the result of `NewRsyslogEncoder` with a nil error,
`access` gives the result of `NewRsyslogAccessEncoder` with a nil error, both
over the configuration of the rsyslog branch and the application name, and
every other value gives the unknown-type error and no encoder; with a readable
host name the two constructors return the error encoder and the access encoder. -/
theorem encoderRsyslog_selects_type (lib : Lib) (c : Config) (u : URL) (t d : String)
    (ht : t = if Values.Get u.Query "encoding-time" = "" then c.EncodingTime
      else Values.Get u.Query "encoding-time")
    (hd : d = if Values.Get u.Query "encoding-duration" = "" then c.EncodingDuration
      else Values.Get u.Query "encoding-duration")
    (htime : lib.ToLower t ∈ ["millis", "nanos", "epoch", "iso8601", ""])
    (hduration : lib.ToLower d ∈ ["seconds", "nanos", "string", ""])
    (happ : Values.Get u.Query "app-name" ≠ "") :
    ∃ te de, timeSwitch (lib.ToLower t) = some te ∧ durationSwitch (lib.ToLower d) = some de ∧
      (lib.ToLower c.Type_ = "" ∨ lib.ToLower c.Type_ = "err" →
        c.encoderRsyslog lib u =
          (NewRsyslogEncoder lib (rsyslogConfig te de) (Values.Get u.Query "app-name")).bind
            fun e => .ret (some e, none)) ∧
      (lib.ToLower c.Type_ = "access" →
        c.encoderRsyslog lib u =
          (NewRsyslogAccessEncoder lib (rsyslogConfig te de)
            (Values.Get u.Query "app-name")).bind fun e => .ret (some e, none)) ∧
      (lib.ToLower c.Type_ ∉ ["", "err", "access"] →
        c.encoderRsyslog lib u =
          .ret (none, some (.msg ("unknown rsyslog type encoding " ++ lib.Quote c.Type_)))) ∧
      (∀ host, lib.Hostname = .ok host →
        NewRsyslogEncoder lib (rsyslogConfig te de) (Values.Get u.Query "app-name") =
            .ret (.Rsyslog ⟨newJSONEncoder (rsyslogConfig te de) false,
              Values.Get u.Query "app-name", host⟩) ∧
          NewRsyslogAccessEncoder lib (rsyslogConfig te de) (Values.Get u.Query "app-name") =
            .ret (.RsyslogAccess ⟨newJSONEncoder (rsyslogConfig te de) false,
              Values.Get u.Query "app-name", host⟩)) := by
  rw [encoderRsyslog_eq lib c u t d ht hd]
  cases hte : timeSwitch (lib.ToLower t) with
  | none => exact absurd htime ((timeSwitch_eq_none _).1 hte)
  | some te =>
    cases hde : durationSwitch (lib.ToLower d) with
    | none => exact absurd hduration ((durationSwitch_eq_none _).1 hde)
    | some de =>
      refine ⟨te, de, rfl, rfl, ?_, ?_, ?_, ?_⟩
      · intro h
        simp only [if_neg happ, if_pos h]
      · intro h
        have h1 : ¬ (lib.ToLower c.Type_ = "" ∨ lib.ToLower c.Type_ = "err") := by
          rw [h]; decide
        simp only [if_neg happ, if_neg h1, if_pos h]
      · intro h
        simp only [List.mem_cons, List.mem_singleton, List.not_mem_nil, or_false, not_or] at h
        have h1 : ¬ (lib.ToLower c.Type_ = "" ∨ lib.ToLower c.Type_ = "err") := by
          rintro (h1 | h1)
          · exact h.1 h1
          · exact h.2.1 h1
        simp only [if_neg happ, if_neg h1, if_neg h.2.2]
      · intro host hhost
        simp only [NewRsyslogEncoder, NewRsyslogAccessEncoder, hhost, and_self]

/-- C8, witness: the type `syslog` on an rsyslog target with an application name
gives the unknown-type error and no encoder. -/
theorem encoderRsyslog_selects_type_witness :
    syslogTypeConfig.encoderRsyslog refLib rsyslogWebURL
      = .ret (none, some (.msg "unknown rsyslog type encoding \"syslog\"")) := by
  obtain ⟨te, de, _, _, _, _, hother, _⟩ :=
    encoderRsyslog_selects_type refLib syslogTypeConfig rsyslogWebURL "iso8601" "seconds"
      rfl rfl (by decide) (by decide) (by decide)
  exact hother (by decide)

/-- C8, counterexample: the type `ACCESS` is none of the empty string, `err` and
`access`, yet the rsyslog branch returns the access encoder and no error. -/
theorem encoderRsyslog_type_counterexample :
    upperAccessConfig.Type_ ∉ ["", "err", "access"] ∧
      refLib.urlParse upperAccessConfig.File = .ok rsyslogWebURL ∧
      upperAccessConfig.encoderRsyslog refLib rsyslogWebURL =
        .ret (some (.RsyslogAccess
          ⟨newJSONEncoder (rsyslogConfig .ISO8601TimeEncoder .SecondsDurationEncoder) false,
            "web", "localhost"⟩), none) :=
  ⟨by decide, rfl, rfl⟩

/-- An unknown-option error is neither a level error nor the error of `url.Parse`. -/
theorem UnknownOptionError.ne_url (lib : Lib) (e : GoError) (ue : UrlError)
    (h : UnknownOptionError lib e) : e ≠ .url ue := by
  obtain ⟨v, h | h | h | h⟩ := h <;> subst h <;> intro hc <;> cases hc

/-- The error of the level parser is the level error for the text it was given. -/
theorem UnmarshalText_error (lib : Lib) (s : String) (e : GoError)
    (h : Level.UnmarshalText lib s = .error e) :
    e = .msg ("unrecognized level: " ++ lib.Quote s) := by
  unfold Level.UnmarshalText at h
  split at h
  · cases h
  · split at h
    · cases h
    · exact (Except.error.inj h).symm

/-- C9: each unknown option value produces its own error.  An unknown time
encoding, duration encoding, encoding and rsyslog type make the branches return
the message `unknown time encoding`, `unknown duration encoding`,
`unknown encoding` and `unknown rsyslog type encoding`, each followed by the
quoted offending value; the branches return no other errors; messages with two
different ones of these four beginnings are different whatever the values; and
none of the four errors is the level error of the level parser or the error
`Config.encoder` returns for an unparsable target. -/
theorem unknown_option_errors_distinct (lib : Lib) (c : Config) (u : URL) (enc t d : String)
    (henc : enc = if Values.Get u.Query "encoding" = "" then c.Encoding
      else Values.Get u.Query "encoding")
    (ht : t = if Values.Get u.Query "encoding-time" = "" then c.EncodingTime
      else Values.Get u.Query "encoding-time")
    (hd : d = if Values.Get u.Query "encoding-duration" = "" then c.EncodingDuration
      else Values.Get u.Query "encoding-duration") :
    (lib.ToLower t ∉ ["millis", "nanos", "epoch", "iso8601", ""] →
        c.encoderLocal lib u = (none, some (.msg ("unknown time encoding " ++ lib.Quote t))) ∧
        c.encoderRsyslog lib u
          = .ret (none, some (.msg ("unknown time encoding " ++ lib.Quote t)))) ∧
      (lib.ToLower t ∈ ["millis", "nanos", "epoch", "iso8601", ""] →
        lib.ToLower d ∉ ["seconds", "nanos", "string", ""] →
        c.encoderLocal lib u
          = (none, some (.msg ("unknown duration encoding " ++ lib.Quote d))) ∧
        c.encoderRsyslog lib u
          = .ret (none, some (.msg ("unknown duration encoding " ++ lib.Quote d)))) ∧
      (lib.ToLower t ∈ ["millis", "nanos", "epoch", "iso8601", ""] →
        lib.ToLower d ∈ ["seconds", "nanos", "string", ""] →
        lib.ToLower enc ∉ ["mixed", "", "json", "console"] →
        c.encoderLocal lib u = (none, some (.msg ("unknown encoding " ++ lib.Quote enc)))) ∧
      (lib.ToLower t ∈ ["millis", "nanos", "epoch", "iso8601", ""] →
        lib.ToLower d ∈ ["seconds", "nanos", "string", ""] →
        Values.Get u.Query "app-name" ≠ "" →
        lib.ToLower c.Type_ ∉ ["", "err", "access"] →
        c.encoderRsyslog lib u
          = .ret (none, some (.msg ("unknown rsyslog type encoding " ++ lib.Quote c.Type_)))) ∧
      (∀ e, (c.encoderLocal lib u).2 = some e → UnknownOptionError lib e) ∧
      (∀ x e, c.encoderRsyslog lib u = .ret (x, some e) → UnknownOptionError lib e) ∧
      (∀ a b : String,
        "unknown time encoding " ++ a ≠ "unknown duration encoding " ++ b ∧
        "unknown time encoding " ++ a ≠ "unknown encoding " ++ b ∧
        "unknown time encoding " ++ a ≠ "unknown rsyslog type encoding " ++ b ∧
        "unknown duration encoding " ++ a ≠ "unknown encoding " ++ b ∧
        "unknown duration encoding " ++ a ≠ "unknown rsyslog type encoding " ++ b ∧
        "unknown encoding " ++ a ≠ "unknown rsyslog type encoding " ++ b) ∧
      (∀ e, UnknownOptionError lib e →
        (∀ s err, Level.UnmarshalText lib s = .error err → e ≠ err) ∧
        (∀ ue, lib.urlParse c.File = .error ue →
          c.encoder lib = .ret (none, NewAtomicLevel, some (.url ue)) ∧ e ≠ .url ue)) := by
  have hL := encoderLocal_eq lib c u enc t d henc ht hd
  have hR := encoderRsyslog_eq lib c u t d ht hd
  refine ⟨?_, ?_, ?_, ?_, encoderLocal_error lib c u, encoderRsyslog_error lib c u, ?_, ?_⟩
  · intro h
    rw [hL, hR, (timeSwitch_eq_none _).2 h]
    exact ⟨rfl, rfl⟩
  · intro h1 h2
    rw [hL, hR, (durationSwitch_eq_none _).2 h2]
    cases hte : timeSwitch (lib.ToLower t) with
    | none => exact absurd h1 ((timeSwitch_eq_none _).1 hte)
    | some te => exact ⟨rfl, rfl⟩
  · intro h1 h2 h3
    rw [hL]
    cases hte : timeSwitch (lib.ToLower t) with
    | none => exact absurd h1 ((timeSwitch_eq_none _).1 hte)
    | some te =>
      cases hde : durationSwitch (lib.ToLower d) with
      | none => exact absurd h2 ((durationSwitch_eq_none _).1 hde)
      | some de =>
        simp only [List.mem_cons, List.mem_singleton, List.not_mem_nil, or_false, not_or] at h3
        have h4 : ¬ (lib.ToLower enc = "mixed" ∨ lib.ToLower enc = "") := by
          rintro (h4 | h4)
          · exact h3.1 h4
          · exact h3.2.1 h4
        simp only [if_neg h4, if_neg h3.2.2.1, if_neg h3.2.2.2]
  · intro h1 h2 happ h3
    rw [hR]
    cases hte : timeSwitch (lib.ToLower t) with
    | none => exact absurd h1 ((timeSwitch_eq_none _).1 hte)
    | some te =>
      cases hde : durationSwitch (lib.ToLower d) with
      | none => exact absurd h2 ((durationSwitch_eq_none _).1 hde)
      | some de =>
        simp only [List.mem_cons, List.mem_singleton, List.not_mem_nil, or_false, not_or] at h3
        have h4 : ¬ (lib.ToLower c.Type_ = "" ∨ lib.ToLower c.Type_ = "err") := by
          rintro (h4 | h4)
          · exact h3.1 h4
          · exact h3.2.1 h4
        simp only [if_neg happ, if_neg h4, if_neg h3.2.2]
  · intro a b
    exact ⟨time_ne_duration a b, time_ne_encoding a b, time_ne_type a b,
      duration_ne_encoding a b, duration_ne_type a b, encoding_ne_type a b⟩
  · intro e he
    refine ⟨?_, ?_⟩
    · intro s err herr
      rw [UnmarshalText_error lib s err herr]
      exact he.ne_level lib e _
    · intro ue hue
      refine ⟨?_, he.ne_url lib e ue⟩
      unfold Config.encoder
      simp only [hue]

/-- C9, witness: with the encoding `yaml` the local branch returns the
unknown-encoding error, which is not the level error returned for the level
`verbose`. -/
theorem unknown_option_errors_distinct_witness :
    ({ NewConfig with Encoding := "yaml" } : Config).encoderLocal refLib
        { Scheme := "", Path := "stderr", Query := [] }
        = (none, some (.msg "unknown encoding \"yaml\"")) ∧
      GoError.msg "unknown encoding \"yaml\"" ≠ .msg "unrecognized level: \"verbose\"" :=
  ⟨(unknown_option_errors_distinct refLib { NewConfig with Encoding := "yaml" }
      { Scheme := "", Path := "stderr", Query := [] } "yaml" "iso8601" "seconds"
      rfl rfl rfl).2.2.1 (by decide) (by decide) (by decide),
   ((unknown_option_errors_distinct refLib { NewConfig with Encoding := "yaml" }
      { Scheme := "", Path := "stderr", Query := [] } "yaml" "iso8601" "seconds"
      rfl rfl rfl).2.2.2.2.2.2.2 _ ⟨"yaml", Or.inr (Or.inr (Or.inl rfl))⟩).1 "verbose" _ rfl⟩

/-! ## The frame of an encoded line -/

/-- Extension of a buffer is reflexive. -/
theorem jsonEncoder.Extends.refl (a : jsonEncoder) : a.Extends a :=
  ⟨"", by apply String.ext; simp [String.data_append]⟩

/-- Extension of a buffer is transitive. -/
theorem jsonEncoder.Extends.trans {a b c : jsonEncoder} (h1 : a.Extends b)
    (h2 : b.Extends c) : a.Extends c := by
  obtain ⟨s1, h1⟩ := h1
  obtain ⟨s2, h2⟩ := h2
  exact ⟨s1 ++ s2, by rw [h2, h1, String.append_assoc]⟩

/-- Raw text is appended. -/
theorem write_extends (a : jsonEncoder) (s : String) : a.Extends (a.write s) :=
  ⟨s, rfl⟩

/-- A byte is appended. -/
theorem AppendByte_extends (a : jsonEncoder) (c : Char) : a.Extends (a.AppendByte c) :=
  ⟨String.singleton c, rfl⟩

/-- The separator is appended, if any. -/
theorem addElementSeparator_extends (a : jsonEncoder) : a.Extends a.addElementSeparator := by
  unfold jsonEncoder.addElementSeparator
  split
  · exact .refl a
  · split_ifs
    · exact .refl a
    · exact write_extends a _
    · exact write_extends a _

/-- Escaped text is appended. -/
theorem safeAddString_extends (a : jsonEncoder) (s : String) :
    a.Extends (a.safeAddString s) :=
  write_extends a _

/-- A key is appended. -/
theorem addKey_extends (a : jsonEncoder) (key : String) : a.Extends (a.addKey key) := by
  unfold jsonEncoder.addKey
  simp only []
  have h : a.Extends ((((a.addElementSeparator.AppendByte '"').safeAddString key).AppendByte
      '"').AppendByte ':') :=
    ((((addElementSeparator_extends a).trans (AppendByte_extends _ _)).trans
      (safeAddString_extends _ _)).trans (AppendByte_extends _ _)).trans
      (AppendByte_extends _ _)
  split_ifs
  · exact h.trans (AppendByte_extends _ _)
  · exact h

/-- A quoted string is appended. -/
theorem AppendString_extends (a : jsonEncoder) (val : String) :
    a.Extends (a.AppendString val) :=
  (((addElementSeparator_extends a).trans (AppendByte_extends _ _)).trans
    (safeAddString_extends _ _)).trans (AppendByte_extends _ _)

/-- A key and a quoted string are appended. -/
theorem AddString_extends (a : jsonEncoder) (key val : String) :
    a.Extends (a.AddString key val) :=
  (addKey_extends a key).trans (AppendString_extends _ val)

/-- A number is appended. -/
theorem AppendInt64_extends (a : jsonEncoder) (val : Int) : a.Extends (a.AppendInt64 val) :=
  (addElementSeparator_extends a).trans (write_extends _ _)

/-- A key and a number are appended. -/
theorem AddInt64_extends (a : jsonEncoder) (key : String) (val : Int) :
    a.Extends (a.AddInt64 key val) :=
  (addKey_extends a key).trans (AppendInt64_extends _ val)

/-- A key and a 32-bit number are appended. -/
theorem AddInt32_extends (a : jsonEncoder) (key : String) (val : Int) :
    a.Extends (a.AddInt32 key val) :=
  AddInt64_extends a key val

/-- A boolean is appended. -/
theorem AppendBool_extends (a : jsonEncoder) (val : Bool) : a.Extends (a.AppendBool val) :=
  (addElementSeparator_extends a).trans (write_extends _ _)

/-- A key and a float are appended. -/
theorem AddFloat64_extends (lib : Lib) (a : jsonEncoder) (key : String) (bits : Nat) :
    a.Extends (a.AddFloat64 lib key bits) :=
  ((addKey_extends a key).trans (addElementSeparator_extends _)).trans (write_extends _ _)

/-- The elements of an array are appended. -/
theorem appendElems_extends (a : jsonEncoder) (l : List ArrayAppend) :
    a.Extends (a.appendElems l) := by
  induction l generalizing a with
  | nil => exact .refl a
  | cons x rest ih =>
    have hx : a.Extends (a.appendElem x) := by
      cases x
      · exact AppendString_extends a _
      · exact AppendInt64_extends a _
      · exact AppendBool_extends a _
    exact hx.trans (ih _)

/-- A key and an array are appended. -/
theorem AddArray_extends (a : jsonEncoder) (key : String) (arr : ArrayMarshaler) :
    a.Extends (a.AddArray key arr).1 :=
  ((((addKey_extends a key).trans (addElementSeparator_extends _)).trans
    (AppendByte_extends _ _)).trans (appendElems_extends _ _)).trans (AppendByte_extends _ _)

/-- Closing braces are appended. -/
theorem closeLoop_extends (a : jsonEncoder) (n : Nat) : a.Extends (a.closeLoop n) := by
  induction n generalizing a with
  | zero => exact .refl a
  | succ n ih => exact (AppendByte_extends a _).trans (ih _)

/-- The closing braces of the open namespaces are appended. -/
theorem closeOpenNamespaces_extends (a : jsonEncoder) : a.Extends a.closeOpenNamespaces :=
  closeLoop_extends a _

/-- The step of both encoders that writes the level. -/
theorem level_step_extends (a : jsonEncoder) (cfg : EncoderConfig) (l : Level) :
    a.Extends (if cfg.LevelKey ≠ "" then
      match cfg.EncodeLevel with
      | some encodeLevel => encodeLevel.apply l (a.addKey "level")
      | none => a
      else a) := by
  split_ifs
  · cases cfg.EncodeLevel with
    | none => exact .refl a
    | some e =>
      cases e
      · exact (addKey_extends a _).trans (AppendString_extends _ _)
      · exact (addKey_extends a _).trans (AppendString_extends _ _)
  · exact .refl a

/-- The buffer after the header and the opening brace. -/
theorem header_buf (a : jsonEncoder) (ts host app : String) :
    ((((((((a.clone.write ts).AppendByte ' ').write host).AppendByte ' ').write
      app).AppendByte ':').AppendByte ' ').AppendByte '\x7b').buf
      = ts ++ " " ++ host ++ " " ++ app ++ ": " ++ "\x7b" := by
  apply String.ext
  simp [jsonEncoder.clone, jsonEncoder.write, jsonEncoder.AppendByte, String.data_append]

/-- The end of every line: the body encoder, then a closing brace and a newline. -/
theorem tail_buf (a b : jsonEncoder) (h : a.Extends b) :
    ∃ body, ((b.AppendByte '\x7d').AppendByte '\n').buf = a.buf ++ body ++ "\x7d" ++ "\n" := by
  obtain ⟨s, hs⟩ := h
  exact ⟨s, by simp only [jsonEncoder.AppendByte, jsonEncoder.write, hs]; rfl⟩

/-- Adding a field returns unless it is an array field without a marshaler. -/
theorem AddTo_returns (lib : Lib) (f : Field) (enc : jsonEncoder)
    (h : f.Type_ = .ArrayMarshalerType → f.carriesMarshaler = true) :
    ∃ r, f.AddTo lib enc = .ret r := by
  unfold Field.AddTo
  cases hty : f.Type_ with
  | ArrayMarshalerType =>
    have hm := h hty
    unfold Field.carriesMarshaler at hm
    cases hi : f.Interface with
    | arrayMarshaler m =>
      simp only []
      split
      · exact ⟨_, rfl⟩
      · exact ⟨_, rfl⟩
    | null => simp [hi] at hm
    | other s => simp [hi] at hm
  | BoolType => exact ⟨_, rfl⟩
  | Float64Type => exact ⟨_, rfl⟩
  | Int64Type => exact ⟨_, rfl⟩
  | Int32Type => exact ⟨_, rfl⟩
  | StringType => exact ⟨_, rfl⟩
  | NamespaceType => exact ⟨_, rfl⟩
  | SkipType => exact ⟨_, rfl⟩

/-- Adding a list of fields returns when every array field carries a marshaler. -/
theorem addFields_returns (lib : Lib) (enc : jsonEncoder) (fields : List Field)
    (h : ∀ f ∈ fields, f.Type_ = .ArrayMarshalerType → f.carriesMarshaler = true) :
    ∃ r, addFields lib enc fields = .ret r := by
  induction fields generalizing enc with
  | nil => exact ⟨_, rfl⟩
  | cons f rest ih =>
    obtain ⟨r, hr⟩ := AddTo_returns lib f enc (h f (List.mem_cons_self _ _))
    obtain ⟨r2, hr2⟩ := ih r (fun g hg => h g (List.mem_cons_of_mem _ hg))
    exact ⟨r2, by simp only [addFields, hr, Outcome.bind, hr2]⟩

/-- The fields the error encoder passes through come from its input. -/
theorem RsyslogEncoder.scanFields_mem (component : String) (contextID : Int)
    (acc fields : List Field) (f : Field)
    (h : f ∈ (RsyslogEncoder.scanFields component contextID acc fields).2.2) :
    f ∈ acc ∨ f ∈ fields := by
  induction fields generalizing component contextID acc with
  | nil => exact Or.inl h
  | cons g rest ih =>
    unfold RsyslogEncoder.scanFields at h
    split_ifs at h
    · rcases ih _ _ _ h with h | h
      · exact Or.inl h
      · exact Or.inr (List.mem_cons_of_mem _ h)
    · rcases ih _ _ _ h with h | h
      · exact Or.inl h
      · exact Or.inr (List.mem_cons_of_mem _ h)
    · rcases ih _ _ _ h with h | h
      · rcases List.mem_append.1 h with h | h
        · exact Or.inl h
        · rw [List.mem_singleton] at h
          subst h
          exact Or.inr (List.mem_cons_self _ _)
      · exact Or.inr (List.mem_cons_of_mem _ h)

/-- The loop of the access encoder only appends to the body, and the fields it
passes through come from its input. -/
theorem RsyslogAccessEncoder.scanFields_ret (lib : Lib) (final : jsonEncoder)
    (acc fields : List Field) (r : jsonEncoder × List Field)
    (h : RsyslogAccessEncoder.scanFields lib final acc fields = .ret r) :
    final.Extends r.1 ∧ ∀ f ∈ r.2, f ∈ acc ∨ f ∈ fields := by
  induction fields generalizing final acc with
  | nil =>
    unfold RsyslogAccessEncoder.scanFields at h
    cases h
    exact ⟨.refl _, fun f hf => Or.inl hf⟩
  | cons g rest ih =>
    unfold RsyslogAccessEncoder.scanFields at h
    have lift : ∀ (x : jsonEncoder), final.Extends x →
        (x.Extends r.1 ∧ ∀ f ∈ r.2, f ∈ acc ∨ f ∈ rest) →
        final.Extends r.1 ∧ ∀ f ∈ r.2, f ∈ acc ∨ f ∈ g :: rest :=
      fun x hx hr => ⟨hx.trans hr.1, fun f hf =>
        (hr.2 f hf).imp id (List.mem_cons_of_mem _)⟩
    split_ifs at h
    · exact lift _ (AddString_extends _ _ _) (ih _ _ h)
    · cases hi : g.Interface with
      | arrayMarshaler m =>
        simp only [hi] at h
        exact lift _ (AddArray_extends _ _ _) (ih _ _ h)
      | null => simp [hi] at h
      | other s => simp [hi] at h
    · exact lift _ (AddFloat64_extends _ _ _ _) (ih _ _ h)
    · exact lift _ (AddInt32_extends _ _ _) (ih _ _ h)
    · obtain ⟨h1, h2⟩ := ih _ _ h
      refine ⟨h1, fun f hf => ?_⟩
      rcases h2 f hf with h3 | h3
      · rcases List.mem_append.1 h3 with h4 | h4
        · exact Or.inl h4
        · rw [List.mem_singleton] at h4
          subst h4
          exact Or.inr (List.mem_cons_self _ _)
      · exact Or.inr (List.mem_cons_of_mem _ h3)

/-- The loop of the access encoder returns when every `targets` and `metrics`
field carries a marshaler. -/
theorem RsyslogAccessEncoder.scanFields_returns (lib : Lib) (final : jsonEncoder)
    (acc fields : List Field)
    (h : ∀ f ∈ fields, f.Key = "targets" ∨ f.Key = "metrics" → f.carriesMarshaler = true) :
    ∃ r, RsyslogAccessEncoder.scanFields lib final acc fields = .ret r := by
  induction fields generalizing final acc with
  | nil => exact ⟨_, rfl⟩
  | cons g rest ih =>
    have hrest : ∀ f ∈ rest, f.Key = "targets" ∨ f.Key = "metrics" →
        f.carriesMarshaler = true := fun f hf => h f (List.mem_cons_of_mem _ hf)
    unfold RsyslogAccessEncoder.scanFields
    split_ifs with h1 h2 h3 h4
    · exact ih _ _ hrest
    · have hm := h g (List.mem_cons_self _ _) h2
      unfold Field.carriesMarshaler at hm
      cases hi : g.Interface with
      | arrayMarshaler m => exact ih _ _ hrest
      | null => simp [hi] at hm
      | other s => simp [hi] at hm
    · exact ih _ _ hrest
    · exact ih _ _ hrest
    · exact ih _ _ hrest

/-- Every line the error encoder returns has the frame, and the error is nil. -/
theorem error_EncodeEntry_frame (lib : Lib) (enc : RsyslogEncoder) (ent : Entry)
    (fields : List Field) (line : String) (err : Option GoError)
    (h : enc.EncodeEntry lib ent fields = .ret (line, err)) :
    err = none ∧ ∃ body, line = ent.Time.Format "Jan 02 15:04:05" ++ " " ++ enc.hostname ++
      " " ++ enc.appName ++ ": " ++ "\x7b" ++ body ++ "\x7d" ++ "\n" := by
  unfold RsyslogEncoder.EncodeEntry at h
  simp only [] at h
  generalize addFields lib _ _ = r at h
  cases r with
  | panic v => cases h
  | ret ex =>
    simp only [Outcome.bind, Outcome.ret.injEq, Prod.mk.injEq] at h
    obtain ⟨h1, h2⟩ := h
    refine ⟨h2.symm, ?_⟩
    rw [← h1, ← header_buf enc.inner (ent.Time.Format "Jan 02 15:04:05") enc.hostname
      enc.appName]
    apply tail_buf
    exact ((((((((AddString_extends _ _ _).trans (AddInt64_extends _ _ _)).trans
      (AddString_extends _ _ _)).trans (AddString_extends _ _ _)).trans
      (AddString_extends _ _ _)).trans (level_step_extends _ _ _)).trans
      (AddString_extends _ _ _)).trans (closeOpenNamespaces_extends _))

/-- The error encoder returns when every array field carries a marshaler. -/
theorem error_EncodeEntry_returns (lib : Lib) (enc : RsyslogEncoder) (ent : Entry)
    (fields : List Field)
    (h : ∀ f ∈ fields, f.Type_ = .ArrayMarshalerType → f.carriesMarshaler = true) :
    ∃ line, enc.EncodeEntry lib ent fields = .ret (line, none) := by
  unfold RsyslogEncoder.EncodeEntry
  simp only []
  generalize hadd : addFields lib _ _ = r
  cases r with
  | ret ex => exact ⟨_, rfl⟩
  | panic v =>
    exfalso
    obtain ⟨r, hr⟩ := addFields_returns lib _
      (RsyslogEncoder.scanFields ent.LoggerName 0 [] fields).2.2 (fun f hf => by
        rcases RsyslogEncoder.scanFields_mem _ _ _ _ f hf with h1 | h1
        · cases h1
        · exact h f h1)
    rw [hr] at hadd
    cases hadd

/-- Every line the access encoder returns has the frame, and the error is nil. -/
theorem access_EncodeEntry_frame (lib : Lib) (enc : RsyslogAccessEncoder)
    (ent : Entry) (fields : List Field) (line : String) (err : Option GoError)
    (h : enc.EncodeEntry lib ent fields = .ret (line, err)) :
    err = none ∧ ∃ body, line = ent.Time.Format "Jan 02 15:04:05" ++ " " ++ enc.hostname ++
      " " ++ enc.appName ++ ": " ++ "\x7b" ++ body ++ "\x7d" ++ "\n" := by
  unfold RsyslogAccessEncoder.EncodeEntry at h
  simp only [] at h
  generalize hscan : RsyslogAccessEncoder.scanFields lib _ _ _ = sc at h
  cases sc with
  | panic v => cases h
  | ret scan =>
    simp only [Outcome.bind] at h
    generalize addFields lib _ _ = r at h
    cases r with
    | panic v => cases h
    | ret ex =>
      simp only [Outcome.ret.injEq, Prod.mk.injEq] at h
      obtain ⟨h1, h2⟩ := h
      refine ⟨h2.symm, ?_⟩
      rw [← h1, ← header_buf enc.inner (ent.Time.Format "Jan 02 15:04:05") enc.hostname
        enc.appName]
      apply tail_buf
      have hs := (RsyslogAccessEncoder.scanFields_ret lib _ _ _ _ hscan).1
      exact ((((((((AddString_extends _ _ _).trans (AddString_extends _ _ _)).trans
        (AddString_extends _ _ _)).trans (AddString_extends _ _ _)).trans
        (AddString_extends _ _ _)).trans (level_step_extends _ _ _)).trans hs).trans
        (AddString_extends _ _ _)).trans (closeOpenNamespaces_extends _)

/-- The access encoder returns when every array field and every `targets` and
`metrics` field carries a marshaler. -/
theorem access_EncodeEntry_returns (lib : Lib) (enc : RsyslogAccessEncoder)
    (ent : Entry) (fields : List Field)
    (h : ∀ f ∈ fields, f.Type_ = .ArrayMarshalerType ∨ f.Key = "targets" ∨ f.Key = "metrics" →
      f.carriesMarshaler = true) :
    ∃ line, enc.EncodeEntry lib ent fields = .ret (line, none) := by
  unfold RsyslogAccessEncoder.EncodeEntry
  simp only []
  generalize hscan : RsyslogAccessEncoder.scanFields lib _ _ _ = sc
  cases sc with
  | panic v =>
    exfalso
    obtain ⟨r, hr⟩ := RsyslogAccessEncoder.scanFields_returns lib _ [] fields
      (fun f hf hk => h f hf (Or.inr hk))
    rw [hr] at hscan
    cases hscan
  | ret scan =>
    simp only [Outcome.bind]
    generalize hadd : addFields lib _ _ = r
    cases r with
    | ret ex => exact ⟨_, rfl⟩
    | panic v =>
      exfalso
      obtain ⟨r, hr⟩ := addFields_returns lib _ scan.2 (fun f hf hty => by
        rcases (RsyslogAccessEncoder.scanFields_ret lib _ _ _ _ hscan).2 f hf with h1 | h1
        · cases h1
        · exact h f h1 (Or.inl hty))
      rw [hr] at hadd
      cases hadd

/-- C10: the line of both rsyslog encoders has the frame: the event time in the
layout `Jan 02 15:04:05`, a space, the host name, a space, the application name,
a colon and a space, all unescaped and with nothing before them, then an opening
brace, a body, a closing brace and one newline at the end.  Every line either
encoder returns has this frame, with a nil error, and both encoders return a
line whenever the fields that are added as arrays carry an array marshaler. -/
theorem rsyslog_line_frame (lib : Lib) (ent : Entry) (fields : List Field) :
    (∀ enc : RsyslogEncoder,
      (∀ line err, enc.EncodeEntry lib ent fields = .ret (line, err) →
        err = none ∧ ∃ body, line = ent.Time.Format "Jan 02 15:04:05" ++ " " ++ enc.hostname ++
          " " ++ enc.appName ++ ": " ++ "\x7b" ++ body ++ "\x7d" ++ "\n") ∧
      ((∀ f ∈ fields, f.Type_ = .ArrayMarshalerType → f.carriesMarshaler = true) →
        ∃ line, enc.EncodeEntry lib ent fields = .ret (line, none))) ∧
    (∀ enc : RsyslogAccessEncoder,
      (∀ line err, enc.EncodeEntry lib ent fields = .ret (line, err) →
        err = none ∧ ∃ body, line = ent.Time.Format "Jan 02 15:04:05" ++ " " ++ enc.hostname ++
          " " ++ enc.appName ++ ": " ++ "\x7b" ++ body ++ "\x7d" ++ "\n") ∧
      ((∀ f ∈ fields,
          f.Type_ = .ArrayMarshalerType ∨ f.Key = "targets" ∨ f.Key = "metrics" →
            f.carriesMarshaler = true) →
        ∃ line, enc.EncodeEntry lib ent fields = .ret (line, none))) :=
  ⟨fun enc => ⟨error_EncodeEntry_frame lib enc ent fields,
      error_EncodeEntry_returns lib enc ent fields⟩,
    fun enc => ⟨access_EncodeEntry_frame lib enc ent fields,
      access_EncodeEntry_returns lib enc ent fields⟩⟩

/-- C10, witness: the sample event with the fields `user` and `http_code`, encoded
by the access encoder of the application `web` on the host `loghost`, gives a
line that starts with `May 04 10:20:30 loghost web: ` and an opening brace and
ends with a closing brace and a newline. -/
theorem rsyslog_line_frame_witness :
    ∃ body, RsyslogAccessEncoder.EncodeEntry refLib
        ⟨newJSONEncoder sampleRsyslogConfig false, "web", "loghost"⟩ sampleEntry
        [userField, httpCodeField]
      = .ret ("May 04 10:20:30 loghost web: \x7b" ++ body ++ "\x7d\n", none) := by
  obtain ⟨line, hline⟩ :=
    ((rsyslog_line_frame refLib sampleEntry [userField, httpCodeField]).2
      ⟨newJSONEncoder sampleRsyslogConfig false, "web", "loghost"⟩).2 (by decide)
  obtain ⟨_, body, hbody⟩ :=
    ((rsyslog_line_frame refLib sampleEntry [userField, httpCodeField]).2
      ⟨newJSONEncoder sampleRsyslogConfig false, "web", "loghost"⟩).1 line none hline
  have hts : sampleEntry.Time.Format "Jan 02 15:04:05" = "May 04 10:20:30" := rfl
  refine ⟨body, ?_⟩
  rw [hline, hbody, hts]
  refine congrArg (fun s => Outcome.ret (s, none)) ?_
  apply String.ext
  simp [String.data_append]

/-! ## The default configuration and the query overrides -/

/-- C18: the default configuration has the target `stderr`, the level `info`, the
encoding `mixed`, the time encoding `iso8601`, the duration encoding `seconds`
and an empty logger name and type; on a library that parses `stderr` as a bare
path and leaves the three lowercase option names unchanged, its resolution takes
the local branch and returns the mixed encoder at level info, and `Check`
returns nil. -/
theorem default_config_valid (lib : Lib)
    (hparse : lib.urlParse "stderr" = .ok { Scheme := "", Path := "stderr", Query := [] })
    (hmixed : lib.ToLower "mixed" = "mixed")
    (hiso : lib.ToLower "iso8601" = "iso8601")
    (hseconds : lib.ToLower "seconds" = "seconds") :
    NewConfig = { Logger := "", File := "stderr", Level := "info", Encoding := "mixed",
                  EncodingTime := "iso8601", EncodingDuration := "seconds", Type_ := "" } ∧
      NewConfig.encoder lib =
        .ret (some (.NewMixedEncoder (localConfig .ISO8601TimeEncoder .SecondsDurationEncoder)),
          ⟨.InfoLevel⟩, none) ∧
      NewConfig.Check lib = .ret none := by
  have henc : NewConfig.encoder lib =
      .ret (some (.NewMixedEncoder (localConfig .ISO8601TimeEncoder .SecondsDurationEncoder)),
        ⟨.InfoLevel⟩, none) := by
    have hL : NewConfig.encoderLocal lib { Scheme := "", Path := "stderr", Query := [] } =
        (some (.NewMixedEncoder (localConfig .ISO8601TimeEncoder .SecondsDurationEncoder)),
          none) := by
      rw [encoderLocal_eq lib NewConfig { Scheme := "", Path := "stderr", Query := [] }
        "mixed" "iso8601" "seconds" rfl rfl rfl]
      rw [hiso, hseconds, hmixed]
      rfl
    unfold Config.encoder
    have hf : NewConfig.File = "stderr" := rfl
    rw [hf]
    simp only [hparse]
    rw [hL]
    rfl
  refine ⟨rfl, henc, ?_⟩
  unfold Config.Check
  rw [build_eq lib NewConfig _ true hparse, henc]
  rfl

/-- C18, witness: with the reference library the default configuration resolves
to the mixed encoder at level info and passes `Check`. -/
theorem default_config_valid_witness :
    NewConfig.encoder refLib =
        .ret (some (.NewMixedEncoder (localConfig .ISO8601TimeEncoder .SecondsDurationEncoder)),
          ⟨.InfoLevel⟩, none) ∧
      NewConfig.Check refLib = .ret none :=
  (default_config_valid refLib rfl rfl rfl rfl).2

/-- The method `Values.Get` on a query from which the pairs of one key are removed. -/
theorem Get_filter_ne (q : List (String × String)) (k key : String) (h : key ≠ k) :
    Values.Get (q.filter fun p => decide (p.1 ≠ k)) key = Values.Get q key := by
  induction q with
  | nil => rfl
  | cons p rest ih =>
    obtain ⟨a, b⟩ := p
    by_cases ha : a = k
    · have hk : ¬ a = key := fun h2 => h (h2.symm.trans ha)
      simp only [List.filter, ha, ne_eq, not_true_eq_false, decide_False]
      rw [ih]
      subst ha
      simp only [Values.Get, if_neg hk]
    · simp only [List.filter, ne_eq, ha, not_false_eq_true, decide_True, Values.Get]
      rw [ih]

/-- `Config.encoder` for a target that parses, with the reads of the query named. -/
theorem encoder_eq (lib : Lib) (c : Config) (u : URL) (hparse : lib.urlParse c.File = .ok u) :
    c.encoder lib =
      match Level.UnmarshalText lib (if Values.Get u.Query "level" = "" then c.Level
          else Values.Get u.Query "level") with
      | .error err => .ret (none, NewAtomicLevel, some err)
      | .ok zapLevel =>
        (if u.Scheme = "rsyslog" then c.encoderRsyslog lib u
          else .ret (c.encoderLocal lib u)).bind fun p =>
          match p.2 with
          | some err => .ret (none, ⟨zapLevel⟩, some err)
          | none => .ret (p.1, ⟨zapLevel⟩, none) := by
  unfold Config.encoder
  simp only [hparse, AtomicLevel.SetLevel]

/-- C19: on an rsyslog target the result of `Config.encoder` does not depend on
the encoding: two configurations whose targets parse with the scheme `rsyslog`,
that agree on the level, the time encoding, the duration encoding and the type,
and whose queries agree on every key but `encoding`, resolve alike, whatever
their `Encoding` fields and `encoding` query parameters are. -/
theorem rsyslog_ignores_encoding (lib : Lib) (c1 c2 : Config) (u1 u2 : URL)
    (hp1 : lib.urlParse c1.File = .ok u1) (hp2 : lib.urlParse c2.File = .ok u2)
    (hs1 : u1.Scheme = "rsyslog") (hs2 : u2.Scheme = "rsyslog")
    (hlevel : c1.Level = c2.Level) (htime : c1.EncodingTime = c2.EncodingTime)
    (hduration : c1.EncodingDuration = c2.EncodingDuration) (htype : c1.Type_ = c2.Type_)
    (hq : ∀ k, k ≠ "encoding" → Values.Get u1.Query k = Values.Get u2.Query k) :
    c1.encoder lib = c2.encoder lib := by
  rw [encoder_eq lib c1 u1 hp1, encoder_eq lib c2 u2 hp2, if_pos hs1, if_pos hs2,
    encoderRsyslog_eq lib c1 u1 _ _ rfl rfl, encoderRsyslog_eq lib c2 u2 _ _ rfl rfl,
    hq "level" (by decide), hq "encoding-time" (by decide),
    hq "encoding-duration" (by decide), hq "app-name" (by decide), hlevel, htime,
    hduration, htype]

/-- C19, witness: the encoding `yaml` in the query of an rsyslog target resolves
as the same target without it, to the error encoder at level info, while the
same encoding on the local target `stderr` is an error. -/
theorem rsyslog_ignores_encoding_witness :
    rsyslogYamlConfig.encoder refLib = rsyslogPlainConfig.encoder refLib ∧
      rsyslogYamlConfig.encoder refLib =
        .ret (some (.Rsyslog ⟨newJSONEncoder sampleRsyslogConfig false, "web", "localhost"⟩),
          ⟨.InfoLevel⟩, none) ∧
      (configFor "stderr?encoding=yaml").encoder refLib =
        .ret (none, ⟨.InfoLevel⟩, some (.msg "unknown encoding \"yaml\"")) :=
  ⟨rsyslog_ignores_encoding refLib rsyslogYamlConfig rsyslogPlainConfig
      { Scheme := "rsyslog", Path := "/app.log",
        Query := [("app-name", "web"), ("encoding", "yaml")] }
      rsyslogWebURL rfl rfl rfl rfl rfl rfl rfl rfl
      (fun k hk => by simp only [Values.Get, rsyslogWebURL, if_neg (Ne.symm hk)]),
    rfl, rfl⟩

/-- C20: a query override with an empty value does not override.  For each of
the keys `level`, `encoding`, `encoding-time` and `encoding-duration`, a target
whose query gives the key an empty value resolves exactly as the same target
with the pairs of that key removed from the query. -/
theorem empty_override_ignored (lib : Lib) (c : Config) (file1 file2 k : String) (u : URL)
    (hk : k ∈ ["level", "encoding", "encoding-time", "encoding-duration"])
    (hp1 : lib.urlParse file1 = .ok u)
    (hp2 : lib.urlParse file2 =
      .ok { Scheme := u.Scheme, Path := u.Path,
            Query := u.Query.filter fun p => decide (p.1 ≠ k) })
    (hempty : Values.Get u.Query k = "") :
    ({ c with File := file1 } : Config).encoder lib
      = ({ c with File := file2 } : Config).encoder lib := by
  have hget : ∀ key, Values.Get (u.Query.filter fun p => decide (p.1 ≠ k)) key
      = Values.Get u.Query key := by
    intro key
    by_cases h : key = k
    · subst h
      rw [hempty]
      clear hp2 hempty hk
      induction u.Query with
      | nil => rfl
      | cons p rest ih =>
        by_cases hp : p.1 = key
        · simp only [List.filter, hp, ne_eq, not_true_eq_false, decide_False, ih]
        · simp only [List.filter, ne_eq, hp, not_false_eq_true, decide_True, Values.Get,
            if_false]
          exact ih
    · exact Get_filter_ne _ _ _ h
  rw [encoder_eq lib { c with File := file1 } u hp1,
    encoder_eq lib { c with File := file2 } _ hp2,
    encoderRsyslog_eq lib { c with File := file1 } u _ _ rfl rfl,
    encoderRsyslog_eq lib { c with File := file2 } _ _ _ rfl rfl,
    encoderLocal_eq lib { c with File := file1 } u _ _ _ rfl rfl rfl,
    encoderLocal_eq lib { c with File := file2 } _ _ _ _ rfl rfl rfl]
  simp only [hget]

/-- C20, witness: the target `stderr?level=` resolves as the target `stderr`. -/
theorem empty_override_ignored_witness :
    emptyLevelConfig.encoder refLib = NewConfig.encoder refLib :=
  empty_override_ignored refLib NewConfig "stderr?level=" "stderr" "level"
    { Scheme := "", Path := "stderr", Query := [("level", "")] } (by decide) rfl rfl rfl

/-! ## Reclassified and passed-through fields -/

/-- The loop of the error encoder: the component and the context id come from the
fields it reclassifies, and the fields it passes through are the others, in order. -/
theorem error_scanFields_eq (component : String) (contextID : Int) (acc fields : List Field) :
    RsyslogEncoder.scanFields component contextID acc fields =
      ((RsyslogEncoder.scanFields component contextID []
          (fields.filter errorReclassifies)).1,
        (RsyslogEncoder.scanFields component contextID []
          (fields.filter errorReclassifies)).2.1,
        acc ++ fields.filter fun f => !errorReclassifies f) := by
  induction fields generalizing component contextID acc with
  | nil => simp [RsyslogEncoder.scanFields]
  | cons f rest ih =>
    by_cases h1 : f.Key = "component"
    · have hr : errorReclassifies f = true := by simp [errorReclassifies, h1]
      simp only [List.filter, hr, Bool.not_true]
      rw [RsyslogEncoder.scanFields, if_pos h1, ih]
      conv => rhs; rw [RsyslogEncoder.scanFields, if_pos h1]
    · by_cases h2 : f.Key = "contextID" ∨ f.Key = "context_id"
      · have hr : errorReclassifies f = true := by
          simp only [errorReclassifies, decide_eq_true_eq]
          exact Or.inr h2
        simp only [List.filter, hr, Bool.not_true]
        rw [RsyslogEncoder.scanFields, if_neg h1, if_pos h2, ih]
        conv => rhs; rw [RsyslogEncoder.scanFields, if_neg h1, if_pos h2]
      · have hr : errorReclassifies f = false := by
          simp only [errorReclassifies, decide_eq_false_iff_not]
          rintro (h | h)
          · exact h1 h
          · exact h2 h
        simp only [List.filter, hr, Bool.not_false]
        rw [RsyslogEncoder.scanFields, if_neg h1, if_neg h2, ih]
        simp only [List.append_assoc, List.singleton_append]

/-- The loop of the access encoder: the body is written from the fields of the
table alone, and the fields passed through are the others, in order. -/
theorem access_scanFields_eq (lib : Lib) (final : jsonEncoder) (acc fields : List Field) :
    RsyslogAccessEncoder.scanFields lib final acc fields =
      (RsyslogAccessEncoder.scanFields lib final []
          (fields.filter accessReclassifies)).bind fun r =>
        .ret (r.1, acc ++ fields.filter fun f => !accessReclassifies f) := by
  induction fields generalizing final acc with
  | nil => simp [RsyslogAccessEncoder.scanFields, Outcome.bind]
  | cons f rest ih =>
    by_cases hr : accessReclassifies f = true
    · simp only [List.filter, hr, Bool.not_true]
      have hk := hr
      simp only [accessReclassifies, List.mem_cons, List.mem_singleton, List.not_mem_nil,
        or_false, decide_eq_true_eq] at hk
      rw [RsyslogAccessEncoder.scanFields]
      conv => rhs; rw [RsyslogAccessEncoder.scanFields]
      split_ifs with h1 h2 h3 h4
      · exact ih _ _
      · cases f.Interface with
        | arrayMarshaler m => exact ih _ _
        | null => rfl
        | other s => rfl
      · exact ih _ _
      · exact ih _ _
      · exfalso
        rcases hk with h | h | h | h | h | h | h | h | h
        · exact h1 (Or.inl h)
        · exact h1 (Or.inr (Or.inl h))
        · exact h1 (Or.inr (Or.inr h))
        · exact h2 (Or.inl h)
        · exact h2 (Or.inr h)
        · exact h3 h
        · exact h4 (Or.inl h)
        · exact h4 (Or.inr (Or.inl h))
        · exact h4 (Or.inr (Or.inr h))
    · have hr2 : accessReclassifies f = false := by simpa using hr
      simp only [List.filter, hr2, Bool.not_false]
      have hk := hr2
      simp only [accessReclassifies, List.mem_cons, List.mem_singleton, List.not_mem_nil,
        or_false, decide_eq_false_iff_not, not_or] at hk
      rw [RsyslogAccessEncoder.scanFields]
      have h1 : ¬ (f.Key = "handler" ∨ f.Key = "carbonapi_uuid" ∨ f.Key = "peer_ip") := by
        rintro (h | h | h)
        · exact hk.1 h
        · exact hk.2.1 h
        · exact hk.2.2.1 h
      have h2 : ¬ (f.Key = "targets" ∨ f.Key = "metrics") := by
        rintro (h | h)
        · exact hk.2.2.2.1 h
        · exact hk.2.2.2.2.1 h
      have h4 : ¬ (f.Key = "http_code" ∨ f.Key = "from" ∨ f.Key = "until") := by
        rintro (h | h | h)
        · exact hk.2.2.2.2.2.2.1 h
        · exact hk.2.2.2.2.2.2.2.1 h
        · exact hk.2.2.2.2.2.2.2.2 h
      rw [if_neg h1, if_neg h2, if_neg hk.2.2.2.2.2.1, if_neg h4, ih]
      simp only [List.append_assoc, List.singleton_append]

/-- The error encoder in terms of its parts. -/
theorem error_EncodeEntry_eq (lib : Lib) (enc : RsyslogEncoder) (ent : Entry)
    (fields : List Field) :
    enc.EncodeEntry lib ent fields =
      (addFields lib (extraStart enc.inner ent)
          (RsyslogEncoder.scanFields ent.LoggerName 0 [] fields).2.2).bind fun extra =>
        .ret (finishLine
          (enc.fixedKeys ent (RsyslogEncoder.scanFields ent.LoggerName 0 [] fields).1
            (RsyslogEncoder.scanFields ent.LoggerName 0 [] fields).2.1) extra, none) :=
  rfl

/-- The access encoder in terms of its parts. -/
theorem access_EncodeEntry_eq (lib : Lib) (enc : RsyslogAccessEncoder) (ent : Entry)
    (fields : List Field) :
    enc.EncodeEntry lib ent fields =
      (RsyslogAccessEncoder.scanFields lib (enc.fixedKeys ent) [] fields).bind fun scan =>
        (addFields lib (extraStart enc.inner ent) scan.2).bind fun extra =>
          .ret (finishLine scan.1 extra, none) :=
  rfl

/-- C14: in both encoders the fields added to the catch-all are exactly the input
fields that the encoder does not reclassify, in their order and unchanged, and
the body is written without them.  The error encoder finishes its line from the
body after the fixed keys, which depends on the fields only through the
component and the context id of the reclassified fields, and from the catch-all
to which the other fields are added; the access encoder finishes its line from
the body its loop writes from the fields of its table alone, and from the
catch-all to which the other fields are added. -/
theorem passthrough_fields (lib : Lib) (ent : Entry) (fields : List Field) :
    (∀ enc : RsyslogEncoder,
      (RsyslogEncoder.scanFields ent.LoggerName 0 [] fields).2.2
          = fields.filter (fun f => !errorReclassifies f) ∧
        enc.EncodeEntry lib ent fields =
          (addFields lib (extraStart enc.inner ent)
              (fields.filter fun f => !errorReclassifies f)).bind fun extra =>
            .ret (finishLine
              (enc.fixedKeys ent
                (RsyslogEncoder.scanFields ent.LoggerName 0 []
                  (fields.filter errorReclassifies)).1
                (RsyslogEncoder.scanFields ent.LoggerName 0 []
                  (fields.filter errorReclassifies)).2.1)
              extra, none)) ∧
      (∀ enc : RsyslogAccessEncoder,
        enc.EncodeEntry lib ent fields =
          (RsyslogAccessEncoder.scanFields lib (enc.fixedKeys ent) []
              (fields.filter accessReclassifies)).bind fun scan =>
            (addFields lib (extraStart enc.inner ent)
                (fields.filter fun f => !accessReclassifies f)).bind fun extra =>
              .ret (finishLine scan.1 extra, none)) := by
  constructor
  · intro enc
    rw [error_EncodeEntry_eq, error_scanFields_eq]
    simp only [List.nil_append, and_self]
  · intro enc
    rw [access_EncodeEntry_eq, access_scanFields_eq]
    simp only [List.nil_append]
    cases RsyslogAccessEncoder.scanFields lib (enc.fixedKeys ent) []
        (fields.filter accessReclassifies) with
    | panic v => rfl
    | ret r => rfl

/-! ## The table of the access encoder -/

/-- The loop of the access encoder over two lists in a row. -/
theorem access_scanFields_append (lib : Lib) (final : jsonEncoder) (acc pre post : List Field) :
    RsyslogAccessEncoder.scanFields lib final acc (pre ++ post) =
      (RsyslogAccessEncoder.scanFields lib final acc pre).bind fun r =>
        RsyslogAccessEncoder.scanFields lib r.1 r.2 post := by
  induction pre generalizing final acc with
  | nil => rfl
  | cons f rest ih =>
    rw [List.cons_append, RsyslogAccessEncoder.scanFields]
    conv => rhs; rw [RsyslogAccessEncoder.scanFields]
    split_ifs
    · exact ih _ _
    · cases f.Interface with
      | arrayMarshaler m => exact ih _ _
      | null => rfl
      | other s => rfl
    · exact ih _ _
    · exact ih _ _
    · exact ih _ _

/-- No separator is added after a colon. -/
theorem addElementSeparator_after_colon (a : jsonEncoder) :
    (a.AppendByte ':').addElementSeparator = a.AppendByte ':' := by
  unfold jsonEncoder.addElementSeparator
  have h : (a.AppendByte ':').buf.data.getLast? = some ':' := by
    simp [jsonEncoder.AppendByte, jsonEncoder.write, String.data_append]
  rw [h]
  simp

/-- The text `AddInt64` appends on an encoder without spacing: a separator, the
quoted key, a colon and the decimal digits. -/
theorem AddInt64_buf (a : jsonEncoder) (key : String) (val : Int) (hs : a.spaced = false) :
    (a.AddInt64 key val).buf =
      a.addElementSeparator.buf ++ "\"" ++ String.mk (safeChars key.data) ++ "\":" ++
        toString val := by
  have hs2 : a.addElementSeparator.spaced = false := by
    unfold jsonEncoder.addElementSeparator
    split
    · exact hs
    · split_ifs <;> simp [jsonEncoder.write, hs]
  unfold jsonEncoder.AddInt64 jsonEncoder.AppendInt64 jsonEncoder.addKey
  simp only []
  have hs3 : ((((a.addElementSeparator.AppendByte '"').safeAddString key).AppendByte
      '"').AppendByte ':').spaced = false := by
    simp [jsonEncoder.AppendByte, jsonEncoder.write, jsonEncoder.safeAddString, hs2]
  rw [if_neg (by rw [hs3]; decide), addElementSeparator_after_colon]
  apply String.ext
  simp [jsonEncoder.AppendByte, jsonEncoder.write, jsonEncoder.safeAddString,
    String.data_append]

/-- The narrowing to 32 bits stays in range and keeps the low 32 bits. -/
theorem int32_spec (x : Int) :
    -2 ^ 31 ≤ int32 x ∧ int32 x < 2 ^ 31 ∧ (x - int32 x) % 2 ^ 32 = 0 ∧
      (-2 ^ 31 ≤ x → x < 2 ^ 31 → int32 x = x) := by
  unfold int32
  refine ⟨by omega, by omega, by omega, fun h1 h2 => by omega⟩

/-- A field is well formed when its array type comes with an array marshaler. -/
theorem WellFormed_iff (f : Field) :
    f.WellFormed = true ↔ (f.Type_ = .ArrayMarshalerType → f.carriesMarshaler = true) := by
  unfold Field.WellFormed
  by_cases h : f.Type_ = .ArrayMarshalerType <;> simp [h]

/-! ## Namespaces left open in the catch-all -/

/-- C16, the code at the failing inputs.  With a namespace field and a counter
passed through, the catch-all still has one open namespace when it is embedded,
so the text under `extra` has two opening braces and one closing brace; and on
an encoder that carries an open namespace, the body encoder, which opened no
namespace, appends a closing brace for it, so the line ends with two closing
braces after the `extra` string. -/
theorem extra_namespace_left_open :
    addFields refLib (extraStart sampleErrorEncoder.inner sampleEntry)
        [namespaceField, countField]
      = .ret { cfg := sampleRsyslogConfig, buf := "\"ns\":\x7b\"count\":1", spaced := false,
               openNamespaces := 1 } ∧
    sampleErrorEncoder.EncodeEntry refLib sampleEntry [namespaceField, countField] =
      .ret ("May 04 10:20:30 loghost web: \x7b\"component\":\"svc\",\"context_id\":0,\"event_datetime\":\"2021-05-04T10:20:30.123456\",\"event_date\":\"2021-05-04\",\"msg\":\"hello\",\"level\":\"info\",\"extra\":\"\x7b\\\"ns\\\":\x7b\\\"count\\\":1\x7d\"\x7d\n",
        none) ∧
    ("\x7b\"ns\":\x7b\"count\":1\x7d".data.count '\x7b' = 2 ∧
      "\x7b\"ns\":\x7b\"count\":1\x7d".data.count '\x7d' = 1) ∧
    namespacedErrorEncoder.EncodeEntry refLib sampleEntry [countField] =
      .ret ("May 04 10:20:30 loghost web: \x7b\"component\":\"svc\",\"context_id\":0,\"event_datetime\":\"2021-05-04T10:20:30.123456\",\"event_date\":\"2021-05-04\",\"msg\":\"hello\",\"level\":\"info\",\"extra\":\"\x7b\\\"ns\\\":\x7b\\\"count\\\":1\x7d\"\x7d\x7d\n",
        none) :=
  ⟨rfl, rfl, ⟨by decide, by decide⟩, rfl⟩

/-! ## The text of the structured buffer -/

/-- The characters `Nat.digitChar` returns. -/
theorem digitChar_cases (n : Nat) :
    Nat.digitChar n ∈ "0123456789abcdef*".data := by
  match n with
  | 0 => decide
  | 1 => decide
  | 2 => decide
  | 3 => decide
  | 4 => decide
  | 5 => decide
  | 6 => decide
  | 7 => decide
  | 8 => decide
  | 9 => decide
  | 10 => decide
  | 11 => decide
  | 12 => decide
  | 13 => decide
  | 14 => decide
  | 15 => decide
  | k + 16 =>
    have h : Nat.digitChar (k + 16) = '*' := by
      rw [Nat.digitChar]
      repeat rw [if_neg (by omega)]
    rw [h]
    decide

/-- A digit character is written unescaped. -/
theorem digitChar_safe (n : Nat) : safeChar (Nat.digitChar n) = [Nat.digitChar n] := by
  have h := digitChar_cases n
  generalize Nat.digitChar n = c at h
  revert c
  decide

/-- A separator is due after a digit character. -/
theorem digitChar_needsSeparator (n : Nat) :
    needsSeparator (String.singleton (Nat.digitChar n)) = true := by
  have h := digitChar_cases n
  generalize Nat.digitChar n = c at h
  revert c
  decide

/-- The digits of a number end in the digit of its remainder. -/
theorem toDigitsCore_last (b fuel n : Nat) (ds : List Char) :
    ∃ l, Nat.toDigitsCore b (fuel + 1) n ds = l ++ Nat.digitChar (n % b) :: ds := by
  induction fuel generalizing n ds with
  | zero =>
    refine ⟨[], ?_⟩
    simp only [Nat.toDigitsCore, ite_self, List.nil_append]
  | succ fuel ih =>
    rw [Nat.toDigitsCore]
    split_ifs
    · exact ⟨[], rfl⟩
    · obtain ⟨l, hl⟩ := ih (n / b) (Nat.digitChar (n % b) :: ds)
      exact ⟨l ++ [Nat.digitChar (n / b % b)], by rw [hl]; simp⟩

/-- The characters of the digits of a number are digit characters. -/
theorem toDigitsCore_mem (b fuel n : Nat) (ds : List Char) (c : Char)
    (h : c ∈ Nat.toDigitsCore b fuel n ds) : c ∈ ds ∨ ∃ k, c = Nat.digitChar k := by
  induction fuel generalizing n ds with
  | zero => exact Or.inl h
  | succ fuel ih =>
    rw [Nat.toDigitsCore] at h
    split_ifs at h
    · rcases List.mem_cons.1 h with h | h
      · exact Or.inr ⟨_, h⟩
      · exact Or.inl h
    · rcases ih _ _ h with h | h
      · rcases List.mem_cons.1 h with h | h
        · exact Or.inr ⟨_, h⟩
        · exact Or.inl h
      · exact Or.inr h

/-- The last character of a text made of a text and a non-empty text. -/
theorem needsSeparator_append (s t : String) (c : Char) (l : List Char)
    (h : t.data = l ++ [c]) : needsSeparator (s ++ t) = needsSeparator (String.singleton c) := by
  unfold needsSeparator
  have h1 : (s ++ t).data.getLast? = some c := by
    rw [String.data_append, h, ← List.append_assoc, List.getLast?_concat]
  have h2 : (String.singleton c).data.getLast? = some c := rfl
  rw [h1, h2]

/-- A separator is due after a decimal number. -/
theorem needsSeparator_int (s : String) (i : Int) :
    needsSeparator (s ++ toString i) = true := by
  have key : ∀ m : Nat, ∃ l, (toString m).data = l ++ [Nat.digitChar (m % 10)] := by
    intro m
    obtain ⟨l, hl⟩ := toDigitsCore_last 10 m m []
    exact ⟨l, hl⟩
  cases i with
  | ofNat m =>
    obtain ⟨l, hl⟩ := key m
    have h : (toString (Int.ofNat m)).data = l ++ [Nat.digitChar (m % 10)] := hl
    rw [needsSeparator_append s _ _ l h]
    exact digitChar_needsSeparator _
  | negSucc m =>
    obtain ⟨l, hl⟩ := key (m + 1)
    have h : (toString (Int.negSucc m)).data = ('-' :: l) ++ [Nat.digitChar ((m + 1) % 10)] := by
      show ("-" ++ toString (m + 1)).data = _
      rw [String.data_append, hl]
      rfl
    rw [needsSeparator_append s _ _ _ h]
    exact digitChar_needsSeparator _

/-- A separator is due after a closing quote. -/
theorem needsSeparator_quote (s : String) : needsSeparator (s ++ "\"") = true := by
  rw [needsSeparator_append s "\"" '"' [] rfl]
  rfl

/-- The separator step in terms of the text of the buffer. -/
theorem addElementSeparator_eq (a : jsonEncoder) (hs : a.spaced = false) :
    a.addElementSeparator = if needsSeparator a.buf = true then a.write "," else a := by
  unfold jsonEncoder.addElementSeparator needsSeparator
  cases a.buf.data.getLast? with
  | none => rfl
  | some c =>
    simp only [hs]
    split_ifs <;> simp_all

/-- The text `AddString` appends on an encoder without spacing. -/
theorem AddString_buf (a : jsonEncoder) (key val : String) (hs : a.spaced = false) :
    (a.AddString key val).buf =
      a.buf ++ (if needsSeparator a.buf = true then "," else "") ++ "\"" ++ escape key ++
        "\":\"" ++ escape val ++ "\"" := by
  unfold jsonEncoder.AddString jsonEncoder.AppendString jsonEncoder.addKey
  simp only []
  have hs2 : a.addElementSeparator.spaced = false := by
    rw [addElementSeparator_eq a hs]
    split_ifs
    · exact hs
    · exact hs
  have hs3 : ((((a.addElementSeparator.AppendByte '"').safeAddString key).AppendByte
      '"').AppendByte ':').spaced = false := hs2
  rw [if_neg (by rw [hs3]; decide), addElementSeparator_after_colon,
    addElementSeparator_eq a hs]
  apply String.ext
  split_ifs <;>
    simp [jsonEncoder.AppendByte, jsonEncoder.write, jsonEncoder.safeAddString, escape,
      String.data_append]

/-- `AddString` keeps the spacing flag. -/
theorem AddString_spaced (a : jsonEncoder) (key val : String) (hs : a.spaced = false) :
    (a.AddString key val).spaced = false := by
  unfold jsonEncoder.AddString jsonEncoder.AppendString jsonEncoder.addKey
  simp only []
  have hs2 : a.addElementSeparator.spaced = false := by
    rw [addElementSeparator_eq a hs]
    split_ifs
    · exact hs
    · exact hs
  have hs3 : ((((a.addElementSeparator.AppendByte '"').safeAddString key).AppendByte
      '"').AppendByte ':').spaced = false := hs2
  rw [if_neg (by rw [hs3]; decide), addElementSeparator_after_colon]
  exact hs2

/-- A separator is due after `AddString`. -/
theorem AddString_needsSeparator (a : jsonEncoder) (key val : String) (hs : a.spaced = false) :
    needsSeparator (a.AddString key val).buf = true := by
  rw [AddString_buf a key val hs]
  exact needsSeparator_quote _

/-- `AddInt64` keeps the spacing flag. -/
theorem AddInt64_spaced (a : jsonEncoder) (key : String) (val : Int) (hs : a.spaced = false) :
    (a.AddInt64 key val).spaced = false := by
  unfold jsonEncoder.AddInt64 jsonEncoder.AppendInt64 jsonEncoder.addKey
  simp only []
  have hs2 : a.addElementSeparator.spaced = false := by
    rw [addElementSeparator_eq a hs]
    split_ifs
    · exact hs
    · exact hs
  have hs3 : ((((a.addElementSeparator.AppendByte '"').safeAddString key).AppendByte
      '"').AppendByte ':').spaced = false := hs2
  rw [if_neg (by rw [hs3]; decide), addElementSeparator_after_colon]
  exact hs2

/-- A separator is due after `AddInt64`. -/
theorem AddInt64_needsSeparator (a : jsonEncoder) (key : String) (val : Int)
    (hs : a.spaced = false) : needsSeparator (a.AddInt64 key val).buf = true := by
  rw [AddInt64_buf a key val hs]
  exact needsSeparator_int _ _

/-! ## The fixed keys of the two bodies -/

/-- A text of characters that need no escaping is written as it is. -/
theorem safeChars_eq_self (l : List Char) (h : ∀ c ∈ l, safeChar c = [c]) :
    safeChars l = l := by
  induction l with
  | nil => rfl
  | cons c rest ih =>
    rw [safeChars, h c (List.mem_cons_self _ _),
      ih (fun d hd => h d (List.mem_cons_of_mem _ hd))]
    rfl

/-- The characters of a zero-padded number need no escaping. -/
theorem padLeft_safe (width n : Nat) (c : Char) (h : c ∈ padLeft width n) :
    safeChar c = [c] := by
  unfold padLeft at h
  rcases List.mem_append.1 h with h | h
  · rw [(List.mem_replicate.1 h).2]
    rfl
  · rcases toDigitsCore_mem 10 _ _ [] c h with h | ⟨k, hk⟩
    · cases h
    · rw [hk]
      exact digitChar_safe k

/-- The characters of a year need no escaping. -/
theorem longYear_safe (year : Int) (c : Char) (h : c ∈ longYear year) : safeChar c = [c] := by
  unfold longYear at h
  split_ifs at h
  · rcases List.mem_cons.1 h with h | h
    · rw [h]
      rfl
    · exact padLeft_safe _ _ c h
  · exact padLeft_safe _ _ c h

/-- The rendering of a time in the layout of `event_datetime`. -/
theorem format_iso (t : Time) :
    (t.Format "2006-01-02T15:04:05.000000").data =
      longYear t.year ++ '-' :: (padLeft 2 t.month ++ '-' :: (padLeft 2 t.day ++ 'T' ::
        (padLeft 2 t.hour ++ ':' :: (padLeft 2 t.minute ++ ':' :: (padLeft 2 t.second ++
          '.' :: (padLeft 6 (t.nanosecond / 1000) ++ [])))))) :=
  rfl

/-- The characters of a time in the layout of `event_datetime` need no escaping. -/
theorem format_iso_safe (t : Time) (c : Char)
    (h : c ∈ (t.Format "2006-01-02T15:04:05.000000").data) : safeChar c = [c] := by
  rw [format_iso] at h
  simp only [List.mem_append, List.mem_cons, List.not_mem_nil, or_false] at h
  rcases h with h | h | h | h | h | h | h | h | h | h | h | h | h
  · exact longYear_safe _ c h
  · rw [h]; rfl
  · exact padLeft_safe _ _ c h
  · rw [h]; rfl
  · exact padLeft_safe _ _ c h
  · rw [h]; rfl
  · exact padLeft_safe _ _ c h
  · rw [h]; rfl
  · exact padLeft_safe _ _ c h
  · rw [h]; rfl
  · exact padLeft_safe _ _ c h
  · rw [h]; rfl
  · exact padLeft_safe _ _ c h

/-- The event time in the layout of `event_datetime` is written unescaped. -/
theorem escape_iso (t : Time) :
    escape (t.Format "2006-01-02T15:04:05.000000") = t.Format "2006-01-02T15:04:05.000000" := by
  unfold escape
  rw [safeChars_eq_self _ (format_iso_safe t)]

/-- The first ten characters of the event time are written unescaped. -/
theorem escape_iso_date (t : Time) :
    escape (String.mk ((t.Format "2006-01-02T15:04:05.000000").data.take 10))
      = String.mk ((t.Format "2006-01-02T15:04:05.000000").data.take 10) := by
  unfold escape
  rw [safeChars_eq_self _ (fun c hc => format_iso_safe t c (List.mem_of_mem_take hc))]

/-- The text of a level is written unescaped. -/
theorem escape_level (e : LevelEncoder) (l : Level) : escape (e.text l) = e.text l := by
  cases e <;> cases l <;> rfl

/-- The component and the context id the loop of the error encoder ends with. -/
theorem error_scanFields_last (component : String) (contextID : Int) (acc fields : List Field) :
    (RsyslogEncoder.scanFields component contextID acc fields).1 =
        (match lastWith (fun f => decide (f.Key = "component")) fields with
          | some f => f.String_
          | none => component) ∧
      (RsyslogEncoder.scanFields component contextID acc fields).2.1 =
        (match lastWith (fun f => decide (f.Key = "contextID" ∨ f.Key = "context_id"))
            fields with
          | some f => f.Integer
          | none => contextID) := by
  induction fields generalizing component contextID acc with
  | nil => exact ⟨rfl, rfl⟩
  | cons f rest ih =>
    rw [RsyslogEncoder.scanFields]
    by_cases h1 : f.Key = "component"
    · have h2 : ¬ (f.Key = "contextID" ∨ f.Key = "context_id") := by
        rw [h1]; decide
      rw [if_pos h1]
      obtain ⟨ih1, ih2⟩ := ih f.String_ contextID acc
      rw [ih1, ih2]
      simp only [lastWith, h1, h2, decide_True, decide_False, if_true]
      constructor
      · cases lastWith (fun f => decide (f.Key = "component")) rest <;> rfl
      · cases lastWith (fun f => decide (f.Key = "contextID" ∨ f.Key = "context_id"))
          rest <;> rfl
    · rw [if_neg h1]
      by_cases h2 : f.Key = "contextID" ∨ f.Key = "context_id"
      · rw [if_pos h2]
        obtain ⟨ih1, ih2⟩ := ih component f.Integer acc
        rw [ih1, ih2]
        simp only [lastWith, h1, h2, decide_True, decide_False, if_true]
        constructor
        · cases lastWith (fun f => decide (f.Key = "component")) rest <;> rfl
        · cases lastWith (fun f => decide (f.Key = "contextID" ∨ f.Key = "context_id"))
            rest <;> rfl
      · rw [if_neg h2]
        obtain ⟨ih1, ih2⟩ := ih component contextID (acc ++ [f])
        rw [ih1, ih2]
        simp only [lastWith, h1, h2, decide_False]
        constructor
        · cases lastWith (fun f => decide (f.Key = "component")) rest <;> rfl
        · cases lastWith (fun f => decide (f.Key = "contextID" ∨ f.Key = "context_id"))
            rest <;> rfl

/-- The body encoder after the header keeps the spacing flag of the encoder. -/
theorem bodyStart_spaced (inner : jsonEncoder) (ent : Entry) (host app : String) :
    (bodyStart inner ent host app).spaced = inner.spaced :=
  rfl

/-- The buffer of the body encoder after the header. -/
theorem bodyStart_buf (inner : jsonEncoder) (ent : Entry) (host app : String) :
    (bodyStart inner ent host app).buf =
      ent.Time.Format "Jan 02 15:04:05" ++ " " ++ host ++ " " ++ app ++ ": " ++ "\x7b" :=
  header_buf inner _ host app

/-- No separator is due after the opening brace of the body. -/
theorem bodyStart_needsSeparator (inner : jsonEncoder) (ent : Entry) (host app : String) :
    needsSeparator (bodyStart inner ent host app).buf = false := by
  rw [bodyStart_buf, needsSeparator_append _ "\x7b" '\x7b' [] rfl]
  rfl

/-- The level step writes the key `level` and the text of the level when a level
key and a level encoder are configured. -/
theorem levelStep_eq (inner : jsonEncoder) (ent : Entry) (final : jsonEncoder)
    (le : LevelEncoder) (hkey : inner.cfg.LevelKey ≠ "")
    (hlevel : inner.cfg.EncodeLevel = some le) :
    levelStep inner ent final = final.AddString "level" (le.text ent.Level) := by
  unfold levelStep
  rw [if_pos hkey, hlevel]
  cases le <;> rfl

/-- The finished line starts with the buffer of every encoder the body extends. -/
theorem finishLine_extends (a final extra : jsonEncoder) (h : a.Extends final) :
    ∃ rest, finishLine final extra = a.buf ++ rest := by
  have h2 : a.Extends ((((final.AddString "extra" ("\x7b" ++ extra.buf ++
      "\x7d")).closeOpenNamespaces).AppendByte '\x7d').AppendByte '\n') :=
    (((h.trans (AddString_extends _ _ _)).trans (closeOpenNamespaces_extends _)).trans
      (AppendByte_extends _ _)).trans (AppendByte_extends _ _)
  exact h2

/-- The buffer of the error encoder after its fixed keys. -/
theorem error_fixedKeys_buf (enc : RsyslogEncoder) (ent : Entry) (component : String)
    (contextID : Int) (le : LevelEncoder) (hspaced : enc.inner.spaced = false)
    (hkey : enc.inner.cfg.LevelKey ≠ "") (hlevel : enc.inner.cfg.EncodeLevel = some le) :
    (enc.fixedKeys ent component contextID).buf =
      ent.Time.Format "Jan 02 15:04:05" ++ " " ++ enc.hostname ++ " " ++ enc.appName ++ ": " ++
        "\x7b" ++ "\"component\":\"" ++ escape component ++ "\",\"context_id\":" ++
        toString contextID ++ ",\"event_datetime\":\"" ++
        ent.Time.Format "2006-01-02T15:04:05.000000" ++ "\",\"event_date\":\"" ++
        String.mk ((ent.Time.Format "2006-01-02T15:04:05.000000").data.take 10) ++
        "\",\"msg\":\"" ++ escape ent.Message ++ "\",\"level\":\"" ++ le.text ent.Level ++
        "\"" := by
  unfold RsyslogEncoder.fixedKeys
  simp only []
  have hs0 := (bodyStart_spaced enc.inner ent enc.hostname enc.appName).trans hspaced
  generalize hF0 : bodyStart enc.inner ent enc.hostname enc.appName = F0 at hs0
  have hb0 : F0.buf = _ := hF0 ▸ bodyStart_buf enc.inner ent enc.hostname enc.appName
  have hn0 : needsSeparator F0.buf = false :=
    hF0 ▸ bodyStart_needsSeparator enc.inner ent enc.hostname enc.appName
  have hs1 := AddString_spaced F0 "component" component hs0
  have hb1 := AddString_buf F0 "component" component hs0
  have hn1 := AddString_needsSeparator F0 "component" component hs0
  rw [hn0] at hb1
  generalize F0.AddString "component" component = F1 at hs1 hb1 hn1
  have hs2 := AddInt64_spaced F1 "context_id" contextID hs1
  have hb2 := AddInt64_buf F1 "context_id" contextID hs1
  have hn2 := AddInt64_needsSeparator F1 "context_id" contextID hs1
  rw [addElementSeparator_eq F1 hs1, if_pos hn1] at hb2
  simp only [jsonEncoder.write] at hb2
  generalize F1.AddInt64 "context_id" contextID = F2 at hs2 hb2 hn2
  have hs3 := AddString_spaced F2 "event_datetime"
    (ent.Time.Format "2006-01-02T15:04:05.000000") hs2
  have hb3 := AddString_buf F2 "event_datetime"
    (ent.Time.Format "2006-01-02T15:04:05.000000") hs2
  have hn3 := AddString_needsSeparator F2 "event_datetime"
    (ent.Time.Format "2006-01-02T15:04:05.000000") hs2
  rw [hn2] at hb3
  generalize F2.AddString "event_datetime" (ent.Time.Format "2006-01-02T15:04:05.000000")
    = F3 at hs3 hb3 hn3
  have hs4 := AddString_spaced F3 "event_date"
    (String.mk ((ent.Time.Format "2006-01-02T15:04:05.000000").data.take 10)) hs3
  have hb4 := AddString_buf F3 "event_date"
    (String.mk ((ent.Time.Format "2006-01-02T15:04:05.000000").data.take 10)) hs3
  have hn4 := AddString_needsSeparator F3 "event_date"
    (String.mk ((ent.Time.Format "2006-01-02T15:04:05.000000").data.take 10)) hs3
  rw [hn3] at hb4
  generalize F3.AddString "event_date"
    (String.mk ((ent.Time.Format "2006-01-02T15:04:05.000000").data.take 10))
    = F4 at hs4 hb4 hn4
  have hs5 := AddString_spaced F4 "msg" ent.Message hs4
  have hb5 := AddString_buf F4 "msg" ent.Message hs4
  have hn5 := AddString_needsSeparator F4 "msg" ent.Message hs4
  rw [hn4] at hb5
  generalize F4.AddString "msg" ent.Message = F5 at hs5 hb5 hn5
  rw [levelStep_eq enc.inner ent F5 le hkey hlevel, AddString_buf F5 _ _ hs5, hn5, hb5, hb4,
    hb3, hb2, hb1, hb0, escape_iso, escape_iso_date, escape_level]
  have e1 : escape "component" = "component" := rfl
  have e2 : String.mk (safeChars "context_id".data) = "context_id" := rfl
  have e3 : escape "event_datetime" = "event_datetime" := rfl
  have e4 : escape "event_date" = "event_date" := rfl
  have e5 : escape "msg" = "msg" := rfl
  have e6 : escape "level" = "level" := rfl
  rw [e1, e2, e3, e4, e5, e6]
  apply String.ext
  simp [String.data_append]

/-- The buffer of the access encoder after its fixed keys. -/
theorem access_fixedKeys_buf (enc : RsyslogAccessEncoder) (ent : Entry) (le : LevelEncoder)
    (hspaced : enc.inner.spaced = false) (hkey : enc.inner.cfg.LevelKey ≠ "")
    (hlevel : enc.inner.cfg.EncodeLevel = some le) :
    (enc.fixedKeys ent).buf =
      ent.Time.Format "Jan 02 15:04:05" ++ " " ++ enc.hostname ++ " " ++ enc.appName ++ ": " ++
        "\x7b" ++ "\"event_datetime\":\"" ++ ent.Time.Format "2006-01-02T15:04:05.000000" ++
        "\",\"event_date\":\"" ++
        String.mk ((ent.Time.Format "2006-01-02T15:04:05.000000").data.take 10) ++
        "\",\"msg\":\"" ++ escape ent.Message ++ "\",\"hostname\":\"" ++ escape enc.hostname ++
        "\",\"component\":\"" ++ escape ent.LoggerName ++ "\",\"level\":\"" ++
        le.text ent.Level ++ "\"" := by
  unfold RsyslogAccessEncoder.fixedKeys
  simp only []
  have hs0 := (bodyStart_spaced enc.inner ent enc.hostname enc.appName).trans hspaced
  generalize hF0 : bodyStart enc.inner ent enc.hostname enc.appName = F0 at hs0
  have hb0 : F0.buf = _ := hF0 ▸ bodyStart_buf enc.inner ent enc.hostname enc.appName
  have hn0 : needsSeparator F0.buf = false :=
    hF0 ▸ bodyStart_needsSeparator enc.inner ent enc.hostname enc.appName
  have hs1 := AddString_spaced F0 "event_datetime"
    (ent.Time.Format "2006-01-02T15:04:05.000000") hs0
  have hb1 := AddString_buf F0 "event_datetime"
    (ent.Time.Format "2006-01-02T15:04:05.000000") hs0
  have hn1 := AddString_needsSeparator F0 "event_datetime"
    (ent.Time.Format "2006-01-02T15:04:05.000000") hs0
  rw [hn0] at hb1
  generalize F0.AddString "event_datetime" (ent.Time.Format "2006-01-02T15:04:05.000000")
    = F1 at hs1 hb1 hn1
  have hs2 := AddString_spaced F1 "event_date"
    (String.mk ((ent.Time.Format "2006-01-02T15:04:05.000000").data.take 10)) hs1
  have hb2 := AddString_buf F1 "event_date"
    (String.mk ((ent.Time.Format "2006-01-02T15:04:05.000000").data.take 10)) hs1
  have hn2 := AddString_needsSeparator F1 "event_date"
    (String.mk ((ent.Time.Format "2006-01-02T15:04:05.000000").data.take 10)) hs1
  rw [hn1] at hb2
  generalize F1.AddString "event_date"
    (String.mk ((ent.Time.Format "2006-01-02T15:04:05.000000").data.take 10))
    = F2 at hs2 hb2 hn2
  have hs3 := AddString_spaced F2 "msg" ent.Message hs2
  have hb3 := AddString_buf F2 "msg" ent.Message hs2
  have hn3 := AddString_needsSeparator F2 "msg" ent.Message hs2
  rw [hn2] at hb3
  generalize F2.AddString "msg" ent.Message = F3 at hs3 hb3 hn3
  have hs4 := AddString_spaced F3 "hostname" enc.hostname hs3
  have hb4 := AddString_buf F3 "hostname" enc.hostname hs3
  have hn4 := AddString_needsSeparator F3 "hostname" enc.hostname hs3
  rw [hn3] at hb4
  generalize F3.AddString "hostname" enc.hostname = F4 at hs4 hb4 hn4
  have hs5 := AddString_spaced F4 "component" ent.LoggerName hs4
  have hb5 := AddString_buf F4 "component" ent.LoggerName hs4
  have hn5 := AddString_needsSeparator F4 "component" ent.LoggerName hs4
  rw [hn4] at hb5
  generalize F4.AddString "component" ent.LoggerName = F5 at hs5 hb5 hn5
  rw [levelStep_eq enc.inner ent F5 le hkey hlevel, AddString_buf F5 _ _ hs5, hn5, hb5, hb4,
    hb3, hb2, hb1, hb0, escape_iso, escape_iso_date, escape_level]
  have e1 : escape "component" = "component" := rfl
  have e2 : escape "hostname" = "hostname" := rfl
  have e3 : escape "event_datetime" = "event_datetime" := rfl
  have e4 : escape "event_date" = "event_date" := rfl
  have e5 : escape "msg" = "msg" := rfl
  have e6 : escape "level" = "level" := rfl
  rw [e1, e2, e3, e4, e5, e6]
  apply String.ext
  simp [String.data_append]

/-- The encoders the rsyslog branch returns: the error encoder or the access
encoder over a fresh buffer encoder without spacing and the configuration of
the rsyslog branch. -/
theorem encoderRsyslog_shape (lib : Lib) (c : Config) (u : URL) (e : Encoder)
    (err : Option GoError) (h : c.encoderRsyslog lib u = .ret (some e, err)) :
    ∃ te de app host,
      e = .Rsyslog ⟨newJSONEncoder (rsyslogConfig te de) false, app, host⟩ ∨
      e = .RsyslogAccess ⟨newJSONEncoder (rsyslogConfig te de) false, app, host⟩ := by
  rw [encoderRsyslog_eq lib c u _ _ rfl rfl] at h
  cases hte : timeSwitch (lib.ToLower (if Values.Get u.Query "encoding-time" = ""
      then c.EncodingTime else Values.Get u.Query "encoding-time")) with
  | none => simp [hte] at h
  | some te =>
    cases hde : durationSwitch (lib.ToLower (if Values.Get u.Query "encoding-duration" = ""
        then c.EncodingDuration else Values.Get u.Query "encoding-duration")) with
    | none => simp [hte, hde] at h
    | some de =>
      simp only [hte, hde, NewRsyslogEncoder, NewRsyslogAccessEncoder] at h
      cases hh : lib.Hostname with
      | error msg =>
        simp only [hh, Outcome.bind] at h
        split_ifs at h
        simp at h
      | ok host =>
        simp only [hh, Outcome.bind] at h
        split_ifs at h <;>
          simp only [Outcome.ret.injEq, Prod.mk.injEq, Option.some.injEq, reduceCtorEq,
            false_and] at h
        · exact ⟨te, de, _, host, Or.inl h.1.symm⟩
        · exact ⟨te, de, _, host, Or.inr h.1.symm⟩

/-- The encoders the local branch returns are none of the rsyslog encoders. -/
theorem encoderLocal_shape (lib : Lib) (c : Config) (u : URL) (e : Encoder)
    (h : (c.encoderLocal lib u).1 = some e) :
    ∃ cfg, e = .NewMixedEncoder cfg ∨ e = .NewJSONEncoder cfg ∨ e = .NewConsoleEncoder cfg := by
  obtain ⟨enc, henc⟩ : ∃ enc, enc = if Values.Get u.Query "encoding" = "" then c.Encoding
      else Values.Get u.Query "encoding" := ⟨_, rfl⟩
  rw [encoderLocal_eq lib c u enc _ _ henc rfl rfl] at h
  split at h
  · simp at h
  · split at h
    · simp at h
    · split_ifs at h <;> simp only [Option.some.injEq, reduceCtorEq] at h
      · exact ⟨_, Or.inl h.symm⟩
      · exact ⟨_, Or.inr (Or.inl h.symm)⟩
      · exact ⟨_, Or.inr (Or.inr h.symm)⟩

/-- An encoder that `Config.encoder` returns is one of the three local encoders,
or an rsyslog encoder over a fresh buffer encoder without spacing and the
configuration of the rsyslog branch. -/
theorem encoder_shape (lib : Lib) (c : Config) (e : Encoder) (lvl : AtomicLevel)
    (err : Option GoError) (h : c.encoder lib = .ret (some e, lvl, err)) :
    (∃ cfg, e = .NewMixedEncoder cfg ∨ e = .NewJSONEncoder cfg ∨ e = .NewConsoleEncoder cfg) ∨
      ∃ te de app host,
        e = .Rsyslog ⟨newJSONEncoder (rsyslogConfig te de) false, app, host⟩ ∨
        e = .RsyslogAccess ⟨newJSONEncoder (rsyslogConfig te de) false, app, host⟩ := by
  cases hparse : lib.urlParse c.File with
  | error ue =>
    unfold Config.encoder at h
    simp [hparse] at h
  | ok u =>
    rw [encoder_eq lib c u hparse] at h
    split at h
    · simp at h
    · by_cases hs : u.Scheme = "rsyslog"
      · rw [if_pos hs] at h
        cases hr : c.encoderRsyslog lib u with
        | panic v => rw [hr] at h; cases h
        | ret p =>
          rw [hr] at h
          obtain ⟨x, e2⟩ := p
          cases e2 with
          | some e3 => simp [Outcome.bind] at h
          | none =>
            simp only [Outcome.bind, Outcome.ret.injEq, Prod.mk.injEq] at h
            rw [h.1] at hr
            exact Or.inr (encoderRsyslog_shape lib c u e none hr)
      · rw [if_neg hs] at h
        cases he : (c.encoderLocal lib u).2 with
        | some e3 => simp [Outcome.bind, he] at h
        | none =>
          simp only [Outcome.bind, he, Outcome.ret.injEq, Prod.mk.injEq] at h
          exact Or.inl (encoderLocal_shape lib c u e h.1)

/-- An error encoder that `Config.encoder` returns has no spacing, the level key
`level` and the lowercase level encoder. -/
theorem resolved_error_encoder (lib : Lib) (c : Config) (e : RsyslogEncoder)
    (lvl : AtomicLevel) (err : Option GoError)
    (h : c.encoder lib = .ret (some (.Rsyslog e), lvl, err)) :
    e.inner.spaced = false ∧ e.inner.cfg.LevelKey ≠ "" ∧
      e.inner.cfg.EncodeLevel = some .LowercaseLevelEncoder := by
  rcases encoder_shape lib c _ lvl err h with ⟨cfg, h1 | h1 | h1⟩ | ⟨te, de, app, host, h1 | h1⟩
  · cases h1
  · cases h1
  · cases h1
  · cases h1
    exact ⟨rfl, by show ("level" : String) ≠ ""; decide, rfl⟩
  · cases h1

/-- An access encoder that `Config.encoder` returns has no spacing, the level key
`level` and the lowercase level encoder. -/
theorem resolved_access_encoder (lib : Lib) (c : Config) (e : RsyslogAccessEncoder)
    (lvl : AtomicLevel) (err : Option GoError)
    (h : c.encoder lib = .ret (some (.RsyslogAccess e), lvl, err)) :
    e.inner.spaced = false ∧ e.inner.cfg.LevelKey ≠ "" ∧
      e.inner.cfg.EncodeLevel = some .LowercaseLevelEncoder := by
  rcases encoder_shape lib c _ lvl err h with ⟨cfg, h1 | h1 | h1⟩ | ⟨te, de, app, host, h1 | h1⟩
  · cases h1
  · cases h1
  · cases h1
  · cases h1
  · cases h1
    exact ⟨rfl, by show ("level" : String) ≠ ""; decide, rfl⟩

/-- C11: on an error encoder without spacing that has a level key and a level
encoder, as resolution builds it, every line returned has, right after the
opening brace of the body, the keys `component`, `context_id`,
`event_datetime`, `event_date`, `msg` and `level` in this order: the component
is the escaped string of the last field keyed `component`, else the logger name;
the context id is the integer of the last field keyed `contextID` or
`context_id`, else 0; the event datetime is the event time in the layout
`2006-01-02T15:04:05.000000`, the event date its first ten characters; the level
is the text of the level encoder; a line is returned whenever the fields are
well formed; and every error encoder that `Config.encoder` returns
has no spacing, a level key and the lowercase level encoder. -/
theorem error_body_fixed_keys (lib : Lib) (enc : RsyslogEncoder) (ent : Entry)
    (fields : List Field) (le : LevelEncoder) (hspaced : enc.inner.spaced = false)
    (hkey : enc.inner.cfg.LevelKey ≠ "") (hlevel : enc.inner.cfg.EncodeLevel = some le) :
    (∀ line err, enc.EncodeEntry lib ent fields = .ret (line, err) →
      ∃ rest, line =
        ent.Time.Format "Jan 02 15:04:05" ++ " " ++ enc.hostname ++ " " ++ enc.appName ++
          ": " ++ "\x7b" ++ "\"component\":\"" ++ escape (componentOf ent fields) ++
          "\",\"context_id\":" ++ toString (contextIDOf fields) ++
          ",\"event_datetime\":\"" ++ ent.Time.Format "2006-01-02T15:04:05.000000" ++
          "\",\"event_date\":\"" ++
          String.mk ((ent.Time.Format "2006-01-02T15:04:05.000000").data.take 10) ++
          "\",\"msg\":\"" ++ escape ent.Message ++ "\",\"level\":\"" ++ le.text ent.Level ++
          "\"" ++ rest) ∧
      ((∀ f ∈ fields, f.WellFormed = true) →
        ∃ line, enc.EncodeEntry lib ent fields = .ret (line, none)) ∧
      (∀ (c : Config) (e : RsyslogEncoder) (lvl : AtomicLevel) (err : Option GoError),
        c.encoder lib = .ret (some (.Rsyslog e), lvl, err) →
        e.inner.spaced = false ∧ e.inner.cfg.LevelKey ≠ "" ∧
          e.inner.cfg.EncodeLevel = some .LowercaseLevelEncoder) := by
  refine ⟨?_, fun hwf => error_EncodeEntry_returns lib enc ent fields
    (fun f hf => (WellFormed_iff f).1 (hwf f hf)), resolved_error_encoder lib⟩
  intro line err h
  rw [error_EncodeEntry_eq] at h
  cases hadd : addFields lib (extraStart enc.inner ent)
      (RsyslogEncoder.scanFields ent.LoggerName 0 [] fields).2.2 with
  | panic v => rw [hadd] at h; cases h
  | ret extra =>
    rw [hadd] at h
    simp only [Outcome.bind, Outcome.ret.injEq, Prod.mk.injEq] at h
    obtain ⟨rest, hrest⟩ := finishLine_extends _ _ extra (jsonEncoder.Extends.refl
      (enc.fixedKeys ent (RsyslogEncoder.scanFields ent.LoggerName 0 [] fields).1
        (RsyslogEncoder.scanFields ent.LoggerName 0 [] fields).2.1))
    refine ⟨rest, ?_⟩
    rw [← h.1, hrest, error_fixedKeys_buf enc ent _ _ le hspaced hkey hlevel,
      (error_scanFields_last ent.LoggerName 0 [] fields).1,
      (error_scanFields_last ent.LoggerName 0 [] fields).2]
    rfl

/-- C11, witness: the sample event with the field `contextID` 7, encoded by the
error encoder of the application `web` on the host `loghost`, gives a body that
begins with the component `svc`, the context id 7, the event datetime
`2021-05-04T10:20:30.123456`, the event date `2021-05-04`, the message `hello`
and the level `info`. -/
theorem error_body_fixed_keys_witness :
    ∃ rest, sampleErrorEncoder.EncodeEntry refLib sampleEntry [contextField] =
      .ret ("May 04 10:20:30 loghost web: \x7b\"component\":\"svc\",\"context_id\":7,\"event_datetime\":\"2021-05-04T10:20:30.123456\",\"event_date\":\"2021-05-04\",\"msg\":\"hello\",\"level\":\"info\"" ++ rest,
        none) := by
  obtain ⟨line, hline⟩ :=
    (error_body_fixed_keys refLib sampleErrorEncoder sampleEntry [contextField]
      .LowercaseLevelEncoder rfl (by decide) rfl).2.1 (by decide)
  obtain ⟨rest, hrest⟩ :=
    (error_body_fixed_keys refLib sampleErrorEncoder sampleEntry [contextField]
      .LowercaseLevelEncoder rfl (by decide) rfl).1 line none hline
  have h1 : sampleEntry.Time.Format "Jan 02 15:04:05" = "May 04 10:20:30" := rfl
  have h2 : escape (componentOf sampleEntry [contextField]) = "svc" := rfl
  have h3 : toString (contextIDOf [contextField]) = "7" := rfl
  have h4 : sampleEntry.Time.Format "2006-01-02T15:04:05.000000"
      = "2021-05-04T10:20:30.123456" := rfl
  have h5 : escape sampleEntry.Message = "hello" := rfl
  have h6 : LevelEncoder.LowercaseLevelEncoder.text sampleEntry.Level = "info" := rfl
  refine ⟨rest, ?_⟩
  rw [hline, hrest, h1, h2, h3, h4, h5, h6]
  exact congrArg (fun s => Outcome.ret (s ++ rest, none)) rfl

/-- C12: on an access encoder without spacing that has a level key and a level
encoder, as resolution builds it, every line returned has, right after the
opening brace of the body, the keys `event_datetime`, `event_date`, `msg`,
`hostname`, `component` and `level` in this order, whatever the fields are: the
component is the escaped logger name of the event, the host name is the escaped
host name of the encoder, the event date is the first ten characters of the
event datetime; what the fields of the table write follows these six keys; a
line is returned whenever the fields are well formed and those keyed `targets`
or `metrics` carry an array marshaler; and every access encoder that `Config.encoder` returns has no spacing, a level
key and the lowercase level encoder. -/
theorem access_body_fixed_keys (lib : Lib) (enc : RsyslogAccessEncoder) (ent : Entry)
    (fields : List Field) (le : LevelEncoder) (hspaced : enc.inner.spaced = false)
    (hkey : enc.inner.cfg.LevelKey ≠ "") (hlevel : enc.inner.cfg.EncodeLevel = some le) :
    (∀ line err, enc.EncodeEntry lib ent fields = .ret (line, err) →
      ∃ rest, line =
        ent.Time.Format "Jan 02 15:04:05" ++ " " ++ enc.hostname ++ " " ++ enc.appName ++
          ": " ++ "\x7b" ++ "\"event_datetime\":\"" ++
          ent.Time.Format "2006-01-02T15:04:05.000000" ++ "\",\"event_date\":\"" ++
          String.mk ((ent.Time.Format "2006-01-02T15:04:05.000000").data.take 10) ++
          "\",\"msg\":\"" ++ escape ent.Message ++ "\",\"hostname\":\"" ++
          escape enc.hostname ++ "\",\"component\":\"" ++ escape ent.LoggerName ++
          "\",\"level\":\"" ++ le.text ent.Level ++ "\"" ++ rest) ∧
      ((∀ f ∈ fields, f.WellFormed = true) →
        (∀ f ∈ fields, f.Key = "targets" ∨ f.Key = "metrics" → f.carriesMarshaler = true) →
        ∃ line, enc.EncodeEntry lib ent fields = .ret (line, none)) ∧
      (∀ (c : Config) (e : RsyslogAccessEncoder) (lvl : AtomicLevel) (err : Option GoError),
        c.encoder lib = .ret (some (.RsyslogAccess e), lvl, err) →
        e.inner.spaced = false ∧ e.inner.cfg.LevelKey ≠ "" ∧
          e.inner.cfg.EncodeLevel = some .LowercaseLevelEncoder) := by
  refine ⟨?_, fun hwf hk => access_EncodeEntry_returns lib enc ent fields
    (fun f hf h => h.elim (fun h1 => (WellFormed_iff f).1 (hwf f hf) h1) (hk f hf)),
    resolved_access_encoder lib⟩
  intro line err h
  rw [access_EncodeEntry_eq] at h
  cases hscan : RsyslogAccessEncoder.scanFields lib (enc.fixedKeys ent) [] fields with
  | panic v => rw [hscan] at h; cases h
  | ret scan =>
    rw [hscan] at h
    simp only [Outcome.bind] at h
    cases hadd : addFields lib (extraStart enc.inner ent) scan.2 with
    | panic v => rw [hadd] at h; cases h
    | ret extra =>
      rw [hadd] at h
      simp only [Outcome.ret.injEq, Prod.mk.injEq] at h
      obtain ⟨rest, hrest⟩ := finishLine_extends _ _ extra
        (RsyslogAccessEncoder.scanFields_ret lib _ _ _ _ hscan).1
      refine ⟨rest, ?_⟩
      rw [← h.1, hrest, access_fixedKeys_buf enc ent le hspaced hkey hlevel]

/-- C12, witness: the sample event with a field keyed `component` and the field
`http_code`, encoded by the access encoder of the application `web` on the host
`loghost`, gives a body that begins with the six fixed keys, with the logger
name `svc` as the component. -/
theorem access_body_fixed_keys_witness :
    ∃ rest, sampleAccessEncoder.EncodeEntry refLib sampleEntry
        [componentField, httpCodeField] =
      .ret ("May 04 10:20:30 loghost web: \x7b\"event_datetime\":\"2021-05-04T10:20:30.123456\",\"event_date\":\"2021-05-04\",\"msg\":\"hello\",\"hostname\":\"loghost\",\"component\":\"svc\",\"level\":\"info\"" ++ rest,
        none) := by
  obtain ⟨line, hline⟩ :=
    (access_body_fixed_keys refLib sampleAccessEncoder sampleEntry
      [componentField, httpCodeField] .LowercaseLevelEncoder rfl (by decide) rfl).2.1
      (by decide) (by decide)
  obtain ⟨rest, hrest⟩ :=
    (access_body_fixed_keys refLib sampleAccessEncoder sampleEntry
      [componentField, httpCodeField] .LowercaseLevelEncoder rfl (by decide) rfl).1
      line none hline
  have h1 : sampleEntry.Time.Format "Jan 02 15:04:05" = "May 04 10:20:30" := rfl
  have h2 : escape sampleEntry.LoggerName = "svc" := rfl
  have h3 : escape sampleAccessEncoder.hostname = "loghost" := rfl
  have h4 : sampleEntry.Time.Format "2006-01-02T15:04:05.000000"
      = "2021-05-04T10:20:30.123456" := rfl
  have h5 : escape sampleEntry.Message = "hello" := rfl
  have h6 : LevelEncoder.LowercaseLevelEncoder.text sampleEntry.Level = "info" := rfl
  refine ⟨rest, ?_⟩
  rw [hline, hrest, h1, h2, h3, h4, h5, h6]
  exact congrArg (fun s => Outcome.ret (s ++ rest, none)) rfl

/-! ## The integer fields of the access table -/

/-- The separator step keeps the spacing flag. -/
theorem addElementSeparator_keeps (a : jsonEncoder) :
    a.addElementSeparator.spaced = a.spaced := by
  unfold jsonEncoder.addElementSeparator
  split
  · rfl
  · split_ifs <;> rfl

/-- Writing a key keeps the spacing flag. -/
theorem addKey_keeps (a : jsonEncoder) (key : String) : (a.addKey key).spaced = a.spaced := by
  unfold jsonEncoder.addKey
  simp only []
  split_ifs <;> exact addElementSeparator_keeps a

/-- Appending a string keeps the spacing flag. -/
theorem AppendString_keeps (a : jsonEncoder) (val : String) :
    (a.AppendString val).spaced = a.spaced :=
  addElementSeparator_keeps a

/-- Appending a number keeps the spacing flag. -/
theorem AppendInt64_keeps (a : jsonEncoder) (val : Int) :
    (a.AppendInt64 val).spaced = a.spaced :=
  addElementSeparator_keeps a

/-- Appending a truth value keeps the spacing flag. -/
theorem AppendBool_keeps (a : jsonEncoder) (val : Bool) :
    (a.AppendBool val).spaced = a.spaced :=
  addElementSeparator_keeps a

/-- Adding a string under a key keeps the spacing flag. -/
theorem AddString_keeps (a : jsonEncoder) (key val : String) :
    (a.AddString key val).spaced = a.spaced :=
  (AppendString_keeps _ _).trans (addKey_keeps a key)

/-- Adding a 32-bit number under a key keeps the spacing flag. -/
theorem AddInt32_keeps (a : jsonEncoder) (key : String) (val : Int) :
    (a.AddInt32 key val).spaced = a.spaced :=
  (AppendInt64_keeps _ _).trans (addKey_keeps a key)

/-- Adding a float under a key keeps the spacing flag. -/
theorem AddFloat64_keeps (lib : Lib) (a : jsonEncoder) (key : String) (bits : Nat) :
    (a.AddFloat64 lib key bits).spaced = a.spaced :=
  (addElementSeparator_keeps _).trans (addKey_keeps a key)

/-- The appends of a marshaler keep the spacing flag. -/
theorem appendElems_keeps (a : jsonEncoder) (l : List ArrayAppend) :
    (a.appendElems l).spaced = a.spaced := by
  induction l generalizing a with
  | nil => rfl
  | cons x rest ih =>
    rw [jsonEncoder.appendElems, ih]
    cases x
    · exact AppendString_keeps a _
    · exact AppendInt64_keeps a _
    · exact AppendBool_keeps a _

/-- Adding an array under a key keeps the spacing flag. -/
theorem AddArray_keeps (a : jsonEncoder) (key : String) (arr : ArrayMarshaler) :
    (a.AddArray key arr).1.spaced = a.spaced :=
  ((appendElems_keeps ((a.addKey key).addElementSeparator.AppendByte '[') arr.appends).trans
    (addElementSeparator_keeps (a.addKey key))).trans (addKey_keeps a key)

/-- The body encoder of the access encoder after its fixed keys has the spacing
flag of the encoder. -/
theorem access_fixedKeys_keeps (enc : RsyslogAccessEncoder) (ent : Entry) :
    (enc.fixedKeys ent).spaced = enc.inner.spaced := by
  unfold RsyslogAccessEncoder.fixedKeys
  simp only []
  have h5 : ∀ b : jsonEncoder, (levelStep enc.inner ent b).spaced = b.spaced := by
    intro b
    unfold levelStep
    split_ifs
    · cases enc.inner.cfg.EncodeLevel with
      | none => rfl
      | some le =>
        cases le
        · exact (AppendString_keeps _ _).trans (addKey_keeps b _)
        · exact (AppendString_keeps _ _).trans (addKey_keeps b _)
    · rfl
  rw [h5, AddString_keeps, AddString_keeps, AddString_keeps, AddString_keeps, AddString_keeps]
  rfl

/-- The loop of the access encoder keeps the spacing flag of the body encoder. -/
theorem access_scanFields_keeps (lib : Lib) (final : jsonEncoder) (acc fields : List Field)
    (r : jsonEncoder × List Field)
    (h : RsyslogAccessEncoder.scanFields lib final acc fields = .ret r) :
    r.1.spaced = final.spaced := by
  induction fields generalizing final acc with
  | nil =>
    unfold RsyslogAccessEncoder.scanFields at h
    cases h
    rfl
  | cons g rest ih =>
    unfold RsyslogAccessEncoder.scanFields at h
    split_ifs at h
    · exact (ih _ _ h).trans (AddString_keeps _ _ _)
    · cases hi : g.Interface with
      | arrayMarshaler m =>
        rw [hi] at h
        exact (ih _ _ h).trans (AddArray_keeps _ _ _)
      | null => rw [hi] at h; cases h
      | other s => rw [hi] at h; cases h
    · exact (ih _ _ h).trans (AddFloat64_keeps _ _ _ _)
    · exact (ih _ _ h).trans (AddInt32_keeps _ _ _)
    · exact ih _ _ h

/-- C13: in the access encoder every field keyed `http_code`, `from` or `until`,
wherever it stands in the field list, is emitted in the returned line as a key
of the body with the narrowing of its 64-bit integer to 32 bits.  `EncodeEntry`
on such a list is: the loop over the fields before it, `AddInt32` on the body
encoder with the narrowed integer, the loop over the fields after it with the
passed-through fields unchanged, and the end of the line; every returned line
is the body written so far, a comma unless that text ends in a separator, the
quoted key, a colon, the decimal digits of the narrowed number, and the rest of
the line; a line is returned when the fields are well formed and those keyed
`targets` or `metrics` carry an array marshaler; the narrowed number lies in
the signed 32-bit range, differs from the integer by a multiple of 2^32, and
equals the integer when that is in range; and every access encoder that
`Config.encoder` returns has no spacing. -/
theorem access_int32_fields (lib : Lib) (enc : RsyslogAccessEncoder) (ent : Entry)
    (pre post : List Field) (f : Field)
    (hkey : f.Key = "http_code" ∨ f.Key = "from" ∨ f.Key = "until")
    (hspaced : enc.inner.spaced = false) :
    enc.EncodeEntry lib ent (pre ++ f :: post) =
        ((RsyslogAccessEncoder.scanFields lib (enc.fixedKeys ent) [] pre).bind fun r =>
          (RsyslogAccessEncoder.scanFields lib (r.1.AddInt32 f.Key (int32 f.Integer)) r.2
            post).bind fun scan =>
            (addFields lib (extraStart enc.inner ent) scan.2).bind fun extra =>
              .ret (finishLine scan.1 extra, none)) ∧
      (∀ line err, enc.EncodeEntry lib ent (pre ++ f :: post) = .ret (line, err) →
        ∃ body passed rest,
          RsyslogAccessEncoder.scanFields lib (enc.fixedKeys ent) [] pre
            = .ret (body, passed) ∧
          line = body.buf ++ (if needsSeparator body.buf = true then "," else "") ++ "\"" ++
            f.Key ++ "\":" ++ toString (int32 f.Integer) ++ rest) ∧
      ((∀ g ∈ pre ++ f :: post, g.WellFormed = true ∧
          (g.Key = "targets" ∨ g.Key = "metrics" → g.carriesMarshaler = true)) →
        ∃ line, enc.EncodeEntry lib ent (pre ++ f :: post) = .ret (line, none)) ∧
      (-2 ^ 31 ≤ int32 f.Integer ∧ int32 f.Integer < 2 ^ 31 ∧
        (f.Integer - int32 f.Integer) % 2 ^ 32 = 0 ∧
        (-2 ^ 31 ≤ f.Integer → f.Integer < 2 ^ 31 → int32 f.Integer = f.Integer)) ∧
      (∀ (c : Config) (e : RsyslogAccessEncoder) (lvl : AtomicLevel) (err : Option GoError),
        c.encoder lib = .ret (some (.RsyslogAccess e), lvl, err) → e.inner.spaced = false) := by
  have h1 : ¬ (f.Key = "handler" ∨ f.Key = "carbonapi_uuid" ∨ f.Key = "peer_ip") := by
    rcases hkey with h | h | h <;> rw [h] <;> decide
  have h2 : ¬ (f.Key = "targets" ∨ f.Key = "metrics") := by
    rcases hkey with h | h | h <;> rw [h] <;> decide
  have h3 : ¬ f.Key = "runtime" := by
    rcases hkey with h | h | h <;> rw [h] <;> decide
  have hsafe : String.mk (safeChars f.Key.data) = f.Key := by
    rcases hkey with h | h | h <;> rw [h] <;> rfl
  have heq : enc.EncodeEntry lib ent (pre ++ f :: post) =
      ((RsyslogAccessEncoder.scanFields lib (enc.fixedKeys ent) [] pre).bind fun r =>
        (RsyslogAccessEncoder.scanFields lib (r.1.AddInt32 f.Key (int32 f.Integer)) r.2
          post).bind fun scan =>
          (addFields lib (extraStart enc.inner ent) scan.2).bind fun extra =>
            .ret (finishLine scan.1 extra, none)) := by
    rw [access_EncodeEntry_eq, access_scanFields_append]
    cases RsyslogAccessEncoder.scanFields lib (enc.fixedKeys ent) [] pre with
    | panic v => rfl
    | ret r =>
      simp only [Outcome.bind]
      rw [RsyslogAccessEncoder.scanFields, if_neg h1, if_neg h2, if_neg h3, if_pos hkey]
  refine ⟨heq, ?_, ?_, int32_spec f.Integer,
    fun c e lvl err h => (resolved_access_encoder lib c e lvl err h).1⟩
  · intro line err h
    rw [heq] at h
    cases hpre : RsyslogAccessEncoder.scanFields lib (enc.fixedKeys ent) [] pre with
    | panic v => rw [hpre] at h; cases h
    | ret r =>
      rw [hpre] at h
      simp only [Outcome.bind] at h
      cases hpost : RsyslogAccessEncoder.scanFields lib
          (r.1.AddInt32 f.Key (int32 f.Integer)) r.2 post with
      | panic v => rw [hpost] at h; cases h
      | ret scan =>
        rw [hpost] at h
        simp only [] at h
        cases hadd : addFields lib (extraStart enc.inner ent) scan.2 with
        | panic v => rw [hadd] at h; cases h
        | ret extra =>
          rw [hadd] at h
          simp only [Outcome.ret.injEq, Prod.mk.injEq] at h
          obtain ⟨rest, hrest⟩ := finishLine_extends _ _ extra
            (RsyslogAccessEncoder.scanFields_ret lib _ _ _ _ hpost).1
          have hs : r.1.spaced = false :=
            ((access_scanFields_keeps lib _ _ _ _ hpre).trans
              (access_fixedKeys_keeps enc ent)).trans hspaced
          have hbuf := AddInt64_buf r.1 f.Key (int32 f.Integer) hs
          rw [hsafe, addElementSeparator_eq r.1 hs] at hbuf
          refine ⟨r.1, r.2, rest, rfl, ?_⟩
          rw [← h.1, hrest]
          unfold jsonEncoder.AddInt32
          rw [hbuf]
          split_ifs
          · rfl
          · apply String.ext
            simp [String.data_append]
  · intro hwf
    apply access_EncodeEntry_returns lib enc ent _
    rintro g hg (h | h)
    · exact (WellFormed_iff g).1 (hwf g hg).1 h
    · exact (hwf g hg).2 h

/-- C13, witness: after the field `http_code` with 200, the field `from` with
2^32 + 5 is emitted in the line as the number 5 under the key `from`. -/
theorem access_int32_fields_witness :
    ∃ rest, sampleAccessEncoder.EncodeEntry refLib sampleEntry
        [httpCodeField, wideFromField] =
      .ret ("May 04 10:20:30 loghost web: \x7b\"event_datetime\":\"2021-05-04T10:20:30.123456\",\"event_date\":\"2021-05-04\",\"msg\":\"hello\",\"hostname\":\"loghost\",\"component\":\"svc\",\"level\":\"info\",\"http_code\":200,\"from\":5" ++ rest,
        none) := by
  obtain ⟨line, hline⟩ :=
    (access_int32_fields refLib sampleAccessEncoder sampleEntry [httpCodeField] []
      wideFromField (Or.inr (Or.inl rfl)) rfl).2.2.1 (by decide)
  obtain ⟨body, passed, rest, hscan, htext⟩ :=
    (access_int32_fields refLib sampleAccessEncoder sampleEntry [httpCodeField] []
      wideFromField (Or.inr (Or.inl rfl)) rfl).2.1 line none hline
  have h0 : RsyslogAccessEncoder.scanFields refLib (sampleAccessEncoder.fixedKeys sampleEntry)
      [] [httpCodeField] =
      .ret ((sampleAccessEncoder.fixedKeys sampleEntry).AddInt32 "http_code" 200, []) := rfl
  rw [h0] at hscan
  cases hscan
  refine ⟨rest, ?_⟩
  rw [List.singleton_append] at hline
  rw [hline, htext]
  exact congrArg (fun s => Outcome.ret (s ++ rest, none)) rfl

/-! ## Totality of the access encoder -/

/-- Adding a field panics when it is an array field without a marshaler. -/
theorem AddTo_panics (lib : Lib) (f : Field) (enc : jsonEncoder)
    (h : f.WellFormed = false) : f.AddTo lib enc = .panic (typeAssertionError f.Interface) := by
  unfold Field.WellFormed Field.carriesMarshaler at h
  unfold Field.AddTo
  cases hty : f.Type_ <;> simp [hty] at h
  cases hi : f.Interface with
  | arrayMarshaler m => simp [hi] at h
  | null => rfl
  | other s => rfl

/-- Adding a list of fields returns only when every field is well formed. -/
theorem addFields_ret_wellFormed (lib : Lib) (enc : jsonEncoder) (fields : List Field)
    (r : jsonEncoder) (h : addFields lib enc fields = .ret r) :
    ∀ f ∈ fields, f.WellFormed = true := by
  induction fields generalizing enc with
  | nil => intro f hf; cases hf
  | cons g rest ih =>
    rw [addFields] at h
    cases hw : g.WellFormed with
    | false =>
      rw [AddTo_panics lib g enc hw] at h
      cases h
    | true =>
      cases ha : g.AddTo lib enc with
      | panic v => rw [ha] at h; cases h
      | ret e =>
        rw [ha] at h
        intro f hf
        rcases List.mem_cons.1 hf with h1 | h1
        · rw [h1]; exact hw
        · exact ih e h f h1

/-- The loop of the access encoder panics at the first `targets` or `metrics`
field whose slot holds no array marshaler, with the error of the type assertion. -/
theorem access_scanFields_panics (lib : Lib) (final : jsonEncoder) (acc fields : List Field)
    (h : ∃ f ∈ fields, (f.Key = "targets" ∨ f.Key = "metrics") ∧ f.carriesMarshaler = false) :
    ∃ f ∈ fields, (f.Key = "targets" ∨ f.Key = "metrics") ∧ f.carriesMarshaler = false ∧
      RsyslogAccessEncoder.scanFields lib final acc fields
        = .panic (typeAssertionError f.Interface) := by
  induction fields generalizing final acc with
  | nil =>
    obtain ⟨f, hf, _⟩ := h
    cases hf
  | cons g rest ih =>
    by_cases hg : (g.Key = "targets" ∨ g.Key = "metrics") ∧ g.carriesMarshaler = false
    · have h1 : ¬ (g.Key = "handler" ∨ g.Key = "carbonapi_uuid" ∨ g.Key = "peer_ip") := by
        rcases hg.1 with h | h <;> rw [h] <;> decide
      refine ⟨g, List.mem_cons_self _ _, hg.1, hg.2, ?_⟩
      rw [RsyslogAccessEncoder.scanFields, if_neg h1, if_pos hg.1]
      have hm := hg.2
      unfold Field.carriesMarshaler at hm
      cases hi : g.Interface with
      | arrayMarshaler m => simp [hi] at hm
      | null => rfl
      | other s => rfl
    · have hrest : ∃ f ∈ rest, (f.Key = "targets" ∨ f.Key = "metrics") ∧
          f.carriesMarshaler = false := by
        obtain ⟨f, hf, hp⟩ := h
        rcases List.mem_cons.1 hf with h2 | h2
        · subst h2
          exact absurd hp hg
        · exact ⟨f, h2, hp⟩
      have lift : ∀ (x : jsonEncoder) (a : List Field),
          RsyslogAccessEncoder.scanFields lib final acc (g :: rest)
            = RsyslogAccessEncoder.scanFields lib x a rest →
          ∃ f ∈ g :: rest, (f.Key = "targets" ∨ f.Key = "metrics") ∧
            f.carriesMarshaler = false ∧
            RsyslogAccessEncoder.scanFields lib final acc (g :: rest)
              = .panic (typeAssertionError f.Interface) := by
        intro x a hxa
        obtain ⟨f, hf, hk, hm, hp⟩ := ih x a hrest
        exact ⟨f, List.mem_cons_of_mem _ hf, hk, hm, hxa.trans hp⟩
      by_cases h1 : g.Key = "handler" ∨ g.Key = "carbonapi_uuid" ∨ g.Key = "peer_ip"
      · exact lift _ _ (by rw [RsyslogAccessEncoder.scanFields, if_pos h1])
      · by_cases h2 : g.Key = "targets" ∨ g.Key = "metrics"
        · cases hi : g.Interface with
          | arrayMarshaler m =>
            exact lift _ _ (by rw [RsyslogAccessEncoder.scanFields, if_neg h1, if_pos h2, hi])
          | null =>
            exact absurd ⟨h2, by unfold Field.carriesMarshaler; rw [hi]⟩ hg
          | other s =>
            exact absurd ⟨h2, by unfold Field.carriesMarshaler; rw [hi]⟩ hg
        · by_cases h3 : g.Key = "runtime"
          · exact lift _ _
              (by rw [RsyslogAccessEncoder.scanFields, if_neg h1, if_neg h2, if_pos h3])
          · by_cases h4 : g.Key = "http_code" ∨ g.Key = "from" ∨ g.Key = "until"
            · exact lift _ _ (by
                rw [RsyslogAccessEncoder.scanFields, if_neg h1, if_neg h2, if_neg h3, if_pos h4])
            · exact lift _ _ (by
                rw [RsyslogAccessEncoder.scanFields, if_neg h1, if_neg h2, if_neg h3, if_neg h4])

/-- The loop of the access encoder does not read the error of a marshaler. -/
theorem access_scanFields_drops_error (lib : Lib) (final : jsonEncoder) (acc rest : List Field)
    (f : Field) (m : ArrayMarshaler) (e : Option GoError)
    (hk : f.Key = "targets" ∨ f.Key = "metrics") (hi : f.Interface = .arrayMarshaler m) :
    RsyslogAccessEncoder.scanFields lib final acc (f :: rest) =
      RsyslogAccessEncoder.scanFields lib final acc
        ({ f with Interface := .arrayMarshaler { m with err := e } } :: rest) := by
  have h1 : ¬ (f.Key = "handler" ∨ f.Key = "carbonapi_uuid" ∨ f.Key = "peer_ip") := by
    rcases hk with h | h <;> rw [h] <;> decide
  rw [RsyslogAccessEncoder.scanFields, if_neg h1, if_pos hk, hi]
  conv => rhs; rw [RsyslogAccessEncoder.scanFields, if_neg h1, if_pos hk]
  rfl

/-- C17: the access encoder never returns an error, and it returns a line
exactly for the field lists in which each field keyed `targets` or `metrics`
carries an array marshaler and each field passed through is well formed, that
is, carries an array marshaler when it is of the array type; the error of
`AddArray` is dropped, so the outcome is the same whatever error the marshaler
of a `targets` or `metrics` field returns; and when a field keyed `targets` or
`metrics` carries no array marshaler, the call panics with the error of the
type assertion on such a field. -/
theorem access_EncodeEntry_total (lib : Lib) (enc : RsyslogAccessEncoder) (ent : Entry)
    (fields : List Field) :
    (∀ line err, enc.EncodeEntry lib ent fields = .ret (line, err) → err = none) ∧
    ((∃ line, enc.EncodeEntry lib ent fields = .ret (line, none)) ↔
      ∀ f ∈ fields,
        (f.Key = "targets" ∨ f.Key = "metrics" → f.carriesMarshaler = true) ∧
        (accessReclassifies f = false → f.WellFormed = true)) ∧
    (∀ (pre post : List Field) (f : Field) (m : ArrayMarshaler) (e : Option GoError),
      fields = pre ++ f :: post → f.Key = "targets" ∨ f.Key = "metrics" →
      f.Interface = .arrayMarshaler m →
      enc.EncodeEntry lib ent fields =
        enc.EncodeEntry lib ent
          (pre ++ { f with Interface := .arrayMarshaler { m with err := e } } :: post)) ∧
    ((∃ f ∈ fields, (f.Key = "targets" ∨ f.Key = "metrics") ∧ f.carriesMarshaler = false) →
      ∃ f ∈ fields, (f.Key = "targets" ∨ f.Key = "metrics") ∧ f.carriesMarshaler = false ∧
        enc.EncodeEntry lib ent fields = .panic (typeAssertionError f.Interface)) := by
  have hnil : ∀ line err, enc.EncodeEntry lib ent fields = .ret (line, err) → err = none := by
    intro line err h
    rw [access_EncodeEntry_eq] at h
    cases hscan : RsyslogAccessEncoder.scanFields lib (enc.fixedKeys ent) [] fields with
    | panic v => rw [hscan] at h; cases h
    | ret scan =>
      rw [hscan] at h
      simp only [Outcome.bind] at h
      cases hadd : addFields lib (extraStart enc.inner ent) scan.2 with
      | panic v => rw [hadd] at h; cases h
      | ret extra =>
        rw [hadd] at h
        simp only [Outcome.ret.injEq, Prod.mk.injEq] at h
        exact h.2.symm
  refine ⟨hnil, ⟨?_, ?_⟩, ?_, ?_⟩
  · rintro ⟨line, h⟩ f hf
    constructor
    · intro hk
      by_contra hm
      have hm2 : f.carriesMarshaler = false := by simpa using hm
      obtain ⟨g, _, _, _, hp⟩ :=
        access_scanFields_panics lib (enc.fixedKeys ent) [] fields ⟨f, hf, hk, hm2⟩
      rw [access_EncodeEntry_eq, hp] at h
      cases h
    · intro hr
      rw [access_EncodeEntry_eq, access_scanFields_eq] at h
      cases hscan : RsyslogAccessEncoder.scanFields lib (enc.fixedKeys ent) []
          (fields.filter accessReclassifies) with
      | panic v => rw [hscan] at h; cases h
      | ret scan =>
        rw [hscan] at h
        simp only [Outcome.bind, List.nil_append] at h
        cases hadd : addFields lib (extraStart enc.inner ent)
            (fields.filter fun f => !accessReclassifies f) with
        | panic v => rw [hadd] at h; cases h
        | ret extra =>
          apply addFields_ret_wellFormed lib _ _ extra hadd f
          rw [List.mem_filter]
          exact ⟨hf, by rw [hr]; rfl⟩
  · intro h
    rw [access_EncodeEntry_eq, access_scanFields_eq]
    obtain ⟨scan, hscan⟩ := RsyslogAccessEncoder.scanFields_returns lib (enc.fixedKeys ent) []
      (fields.filter accessReclassifies)
      (fun f hf hk => (h f (List.mem_filter.1 hf).1).1 hk)
    obtain ⟨extra, hadd⟩ := addFields_returns lib (extraStart enc.inner ent)
      (fields.filter fun f => !accessReclassifies f)
      (fun f hf => (WellFormed_iff f).1
        ((h f (List.mem_filter.1 hf).1).2 (by simpa using (List.mem_filter.1 hf).2)))
    exact ⟨finishLine scan.1 extra, by
      simp only [hscan, Outcome.bind, List.nil_append, hadd]⟩
  · intro pre post f m e hfields hk hi
    rw [hfields, access_EncodeEntry_eq, access_EncodeEntry_eq, access_scanFields_append,
      access_scanFields_append]
    cases RsyslogAccessEncoder.scanFields lib (enc.fixedKeys ent) [] pre with
    | panic v => rfl
    | ret r =>
      simp only [Outcome.bind]
      rw [access_scanFields_drops_error lib r.1 r.2 post f m e hk hi]
  · intro h
    obtain ⟨f, hf, hk, hm, hp⟩ :=
      access_scanFields_panics lib (enc.fixedKeys ent) [] fields h
    exact ⟨f, hf, hk, hm, by rw [access_EncodeEntry_eq, hp]; rfl⟩

/-- C17, witness: a `targets` field whose marshaler fails is encoded with a nil
error and to the same line as with a marshaler that does not fail, and a string
field keyed `targets`, whose slot is nil, makes the call panic with the error of
the type assertion on a nil interface. -/
theorem access_EncodeEntry_total_witness :
    (∃ line, sampleAccessEncoder.EncodeEntry refLib sampleEntry
        [failingTargetsField, userField] = .ret (line, none)) ∧
      sampleAccessEncoder.EncodeEntry refLib sampleEntry [failingTargetsField, userField] =
        sampleAccessEncoder.EncodeEntry refLib sampleEntry [quietTargetsField, userField] ∧
      sampleAccessEncoder.EncodeEntry refLib sampleEntry [userField, stringTargetsField]
        = .panic "interface conversion: interface is nil, not zapcore.ArrayMarshaler" := by
  refine ⟨(access_EncodeEntry_total refLib sampleAccessEncoder sampleEntry
      [failingTargetsField, userField]).2.1.2 (by decide),
    (access_EncodeEntry_total refLib sampleAccessEncoder sampleEntry
      [failingTargetsField, userField]).2.2.1 [] [userField] failingTargetsField
      ⟨[.AppendString "a.b", .AppendString "c"], some (.msg "marshal failed")⟩ none rfl
      (Or.inl rfl) rfl, ?_⟩
  obtain ⟨f, hf, _, _, hp⟩ :=
    (access_EncodeEntry_total refLib sampleAccessEncoder sampleEntry
      [userField, stringTargetsField]).2.2.2 ⟨stringTargetsField, by decide, Or.inl rfl, rfl⟩
  have hnull : f.Interface = .null := by
    rcases List.mem_cons.1 hf with h | h
    · rw [h]; rfl
    · rw [List.mem_singleton.1 h]; rfl
  rw [hp, hnull]
  rfl

/-- C17, counterexample: the field `x` of the array type with a nil slot is
keyed neither `targets` nor `metrics`, so every field keyed `targets` or
`metrics` of the list carries an array marshaler, and the access encoder panics
on the list, at the type assertion made when the field is added to the catch-all. -/
theorem access_total_counterexample :
    (∀ f ∈ [orphanArrayField],
        f.Key = "targets" ∨ f.Key = "metrics" → f.carriesMarshaler = true) ∧
      sampleAccessEncoder.EncodeEntry refLib sampleEntry [orphanArrayField]
        = .panic "interface conversion: interface is nil, not zapcore.ArrayMarshaler" :=
  ⟨by decide, rfl⟩

end Zapwriter
